import Mathlib

/-!
# CAmSocketHandler

A shallow embedding of `AudioManagerUtilities/src/CAmSocketHandler.cpp`, built
without `WITH_TIMERFD` (`includes/config.h` does not define it, so the timers
are the list backend).

* The handler object is a record of its members; every member function is a
  function from the record to a result and a new record.
* Containers (`std::vector`, `std::list`) are lists, `std::set` is a `Finset`,
  an iterator is a position in the list and `end()` is the length.
* `std::function` members hold the number of a user callback (or name one of
  the lambdas of the handler itself); what a user callback does is given by a
  `UserCode` table and is a parameter of every statement about the loop.
* What the operating system answers (`fcntl`, `clock_gettime`, `ppoll`) is a
  parameter of the function that asks.
* All calls are made on the owning thread; the check of the calling thread that most member
  functions start with is modelled apart, for the claim that is about it.
-/

namespace am

/-! ## Types of the header -/

/-- Modelled from the spec: the error codes listed in section 6 of the specification; the
enumeration `am_Error_e` is declared in a header outside the sources at hand. -/
inductive am_Error_e where
  | E_OK
  | E_UNKNOWN
  | E_NON_EXISTENT
  | E_NOT_POSSIBLE
  deriving DecidableEq, Repr

open am_Error_e

/-- Modelled from the spec: handles are 16-bit integers, so `++` on a handle wraps at `2^16`;
the typedef `sh_pollHandle_t` is declared in `CAmSocketHandler.h`, outside the sources at hand. -/
def handleWidth : Nat := 65536

/-- The system `pollfd`. -/
structure pollfd where
  fd : Int
  events : Nat
  revents : Nat
  deriving DecidableEq, Repr

/-- The value of `std::function<void(pollfd, handle, userData)> firedCB`: a user callback,
or one of the lambdas the handler registers itself. -/
inductive FiredFn where
  | user (id : Nat)
  | pipeFired
  deriving DecidableEq, Repr

/-- The value of `std::function<bool(handle, userData)> checkCB`: a user callback, or the
lambda `return (false);` the handler registers for its own descriptors. -/
inductive CheckFn where
  | user (id : Nat)
  | returnsFalse
  deriving DecidableEq, Repr

/-- The poll entry `sh_poll_s`; an empty `std::function` is `none`. -/
structure sh_poll_s where
  isValid : Bool
  handle : Nat
  pollfdValue : pollfd
  prepareCB : Option Nat
  firedCB : Option FiredFn
  checkCB : Option CheckFn
  dispatchCB : Option Nat
  userData : Nat
  deriving DecidableEq, Repr

/-- Modelled from the spec: a freshly constructed poll entry is valid (an entry is
"invalidated on remove"), has the reserved handle 0 and no callbacks; the constructor of
`sh_poll_s` is in `CAmSocketHandler.h`, outside the sources at hand. -/
def sh_poll_s.new : sh_poll_s :=
  { isValid := true, handle := 0, pollfdValue := { fd := 0, events := 0, revents := 0 },
    prepareCB := none, firedCB := none, checkCB := none, dispatchCB := none, userData := 0 }

/-- The allocator record `sh_identifier_s`: live set, limit and cursor. -/
structure sh_identifier_s where
  pollHandles : Finset Nat
  limit : Nat
  lastUsedID : Nat
  deriving DecidableEq

/-- Modelled from the spec: a new allocator has an empty live set and its cursor on the
reserved handle 0 ("no handle / uninitialized"); the constructor of `sh_identifier_s` is in
`CAmSocketHandler.h`, outside the sources at hand. -/
def sh_identifier_s.new (pollLimit : Nat) : sh_identifier_s :=
  { pollHandles := ∅, limit := pollLimit, lastUsedID := 0 }

/-- Modelled from the spec: a time value of seconds and nanoseconds (`timespec`). -/
structure timespec where
  tv_sec : Nat
  tv_nsec : Nat
  deriving DecidableEq, Repr

/-- Modelled from the spec: nanoseconds per second, the carry bound of the time utilities
(`MAX_NS` of `CAmSocketHandler.h`, outside the sources at hand). -/
def MAX_NS : Nat := 1000000000

/-- Modelled from the spec: the "add" of the monotonic time utilities on second+nanosecond
values, carrying into the seconds; `timespecAdd` is defined in `CAmSocketHandler.h`, outside
the sources at hand. -/
def timespecAdd (a b : timespec) : timespec :=
  if a.tv_nsec + b.tv_nsec ≥ MAX_NS then
    { tv_sec := a.tv_sec + b.tv_sec + 1, tv_nsec := a.tv_nsec + b.tv_nsec - MAX_NS }
  else
    { tv_sec := a.tv_sec + b.tv_sec, tv_nsec := a.tv_nsec + b.tv_nsec }

/-- Modelled from the spec: the "subtract" of the monotonic time utilities; a countdown
"reaches zero" when the elapsed time is at least the remaining time, so the difference stops
at zero. `timespecSub` is defined in `CAmSocketHandler.h`, outside the sources at hand. -/
def timespecSub (a b : timespec) : timespec :=
  if a.tv_sec < b.tv_sec ∨ (a.tv_sec = b.tv_sec ∧ a.tv_nsec ≤ b.tv_nsec) then
    { tv_sec := 0, tv_nsec := 0 }
  else if a.tv_nsec < b.tv_nsec then
    { tv_sec := a.tv_sec - b.tv_sec - 1, tv_nsec := a.tv_nsec + MAX_NS - b.tv_nsec }
  else
    { tv_sec := a.tv_sec - b.tv_sec, tv_nsec := a.tv_nsec - b.tv_nsec }

/-- The timer entry `sh_timer_s` of the list backend. -/
structure sh_timer_s where
  handle : Nat
  countdown : timespec
  callback : Option Nat
  userData : Nat
  deriving DecidableEq, Repr

/-- Modelled from the spec: the "compare" of the monotonic time utilities, the strict order
by ascending remaining countdown that keeps the active list sorted; `compareCountdown` is
defined in `CAmSocketHandler.h`, outside the sources at hand. -/
def compareCountdown (a b : sh_timer_s) : Bool :=
  if a.countdown.tv_sec = b.countdown.tv_sec then
    decide (a.countdown.tv_nsec < b.countdown.tv_nsec)
  else
    decide (a.countdown.tv_sec < b.countdown.tv_sec)

/-- The members of `CAmSocketHandler` that the poll registry, the list timers and the loop
use. -/
structure CAmSocketHandler where
  mDispatchDone : Bool
  mSetPollKeys : sh_identifier_s
  mListPoll : List sh_poll_s
  mSetTimerKeys : sh_identifier_s
  mListTimer : List sh_timer_s
  mListActiveTimer : List sh_timer_s
  mRecreatePollfds : Bool
  mListActivePolls : List sh_poll_s
  mStartTime : timespec
  deriving DecidableEq

/-! ## Containers -/

/-- Where the scan `for (; it != end(); ++it) if (p(*it)) break;` stops: the position of the
first element with `p`, or the length of the list (`end()`) when there is none. -/
def scanFor {α : Type} (p : α → Bool) : List α → Nat
  | [] => 0
  | x :: xs => if p x then 0 else scanFor p xs + 1

/-- Assignment through the iterator a scan stopped at: the first element with `p` is replaced
by its image under `f`; nothing changes when there is none. -/
def assignFirst {α : Type} (p : α → Bool) (f : α → α) : List α → List α
  | [] => []
  | x :: xs => if p x then f x :: xs else x :: assignFirst p f xs

/-- Insertion step of a stable sort: `x` goes before the first element that is not below it. -/
def sortInsert {α : Type} (lt : α → α → Bool) (x : α) : List α → List α
  | [] => [x]
  | y :: ys => if lt y x then y :: sortInsert lt x ys else x :: y :: ys

/-- The stable sort `std::list::sort(comp)`. -/
def listSort {α : Type} (lt : α → α → Bool) : List α → List α
  | [] => []
  | x :: xs => sortInsert lt x (listSort lt xs)

/-! ## The handle allocator -/

/-- The do-while loop of `nextHandle`, `fuel` rounds of it: `none` when the rounds are used
up before the loop ends. -/
def nextHandleLoop (lastHandle : Nat) : Nat → sh_identifier_s → Option (Bool × sh_identifier_s)
  | 0, _ => none
  | fuel + 1, handle =>
    let h1 : sh_identifier_s := { handle with lastUsedID := (handle.lastUsedID + 1) % handleWidth }
    let h2 : sh_identifier_s := if h1.lastUsedID = h1.limit then { h1 with lastUsedID := 1 } else h1
    if h2.lastUsedID = lastHandle then
      some (false, h2)
    else if h2.lastUsedID ∈ h2.pollHandles then
      nextHandleLoop lastHandle fuel h2
    else
      some (true, { h2 with pollHandles := insert h2.lastUsedID h2.pollHandles })

/-- The function `nextHandle`. The cursor takes one of `2^16` values and nothing else changes
while the loop runs, so a loop that has not ended after `2^16` rounds never ends: `none`. -/
def nextHandle (handle : sh_identifier_s) : Option (Bool × sh_identifier_s) :=
  nextHandleLoop handle.lastUsedID handleWidth handle

/-! ## The poll registry -/

/-- The constructor up to its body: the member initializers. `MAX_POLLHANDLE` and
`MAX_TIMERHANDLE` are constants of `CAmSocketHandler.h` and are parameters here. -/
def CAmSocketHandler.new (MAX_POLLHANDLE MAX_TIMERHANDLE : Nat) : CAmSocketHandler :=
  { mDispatchDone := true
    mSetPollKeys := sh_identifier_s.new MAX_POLLHANDLE
    mListPoll := []
    mSetTimerKeys := sh_identifier_s.new MAX_TIMERHANDLE
    mListTimer := []
    mListActiveTimer := []
    mRecreatePollfds := true
    mListActivePolls := []
    mStartTime := { tv_sec := 0, tv_nsec := 0 } }

/-- The function `getFDPollData`; `outPollData` goes in and comes out. -/
def getFDPollData (s : CAmSocketHandler) (handle : Nat) (outPollData : sh_poll_s) :
    am_Error_e × sh_poll_s :=
  match s.mListPoll.find? (fun e => e.handle == handle) with
  | some e => (E_OK, e)
  | none => (E_UNKNOWN, outPollData)

/-- The function `addFDPoll` (the `std::function` overload). `fdIsValid` is what the member
function of that name returns, which is decided by `fcntl(fd, F_GETFL)` and `errno` alone; the
last argument is the caller's `handle`, which comes back as the second component. `none`: the
allocator loop does not end. -/
def addFDPoll (fdIsValid : Int → Bool) (s : CAmSocketHandler) (fd : Int) (event : Nat)
    (prepare : Option Nat) (fired : Option FiredFn) (check : Option CheckFn)
    (dispatch : Option Nat) (userData : Nat) (handle : Nat) :
    Option (am_Error_e × Nat × CAmSocketHandler) :=
  if !fdIsValid fd then
    some (E_NON_EXISTENT, handle, s)
  else
    match nextHandle s.mSetPollKeys with
    | none => none
    | some (false, keys) => some (E_NOT_POSSIBLE, handle, { s with mSetPollKeys := keys })
    | some (true, keys) =>
      let pollData : sh_poll_s :=
        { sh_poll_s.new with
          pollfdValue := { fd := fd, events := event, revents := 0 }
          handle := keys.lastUsedID
          prepareCB := prepare
          firedCB := fired
          checkCB := check
          dispatchCB := dispatch
          userData := userData }
      some (E_OK, pollData.handle,
        { s with mSetPollKeys := keys, mListPoll := s.mListPoll ++ [pollData],
                 mRecreatePollfds := true })

/-- The function `removeFDPoll`. The iterator is a position: after `erase` it is the position of
the element that followed the erased one, and it is compared with `end()` of the list as it is
then. -/
def removeFDPoll (s : CAmSocketHandler) (handle : Nat) : am_Error_e × CAmSocketHandler :=
  let iterator := scanFor (fun e => e.handle == handle) s.mListPoll
  let s1 : CAmSocketHandler :=
    if iterator < s.mListPoll.length then
      { s with mListPoll := s.mListPoll.eraseIdx iterator
               mSetPollKeys := { s.mSetPollKeys with
                                 pollHandles := s.mSetPollKeys.pollHandles.erase handle }
               mRecreatePollfds := true }
    else s
  if iterator = s1.mListPoll.length then
    (E_UNKNOWN, s1)
  else
    (E_OK, { s1 with mListActivePolls :=
                       assignFirst (fun e => e.handle == handle)
                         (fun e => { e with isValid := false }) s1.mListActivePolls })

/-- The function `updateEventFlags`. -/
def updateEventFlags (s : CAmSocketHandler) (handle : Nat) (events : Nat) :
    am_Error_e × CAmSocketHandler :=
  if s.mListPoll.any (fun e => e.handle == handle) then
    (E_OK, { s with mListPoll :=
                      assignFirst (fun e => e.handle == handle)
                        (fun e => { e with pollfdValue := { e.pollfdValue with events := events } })
                        s.mListPoll
                    mRecreatePollfds := true })
  else
    (E_UNKNOWN, s)

/-! ## The list timers -/

/-- The function `stopTimer` (list backend). -/
def stopTimer (s : CAmSocketHandler) (handle : Nat) : am_Error_e × CAmSocketHandler :=
  let it := scanFor (fun t => t.handle == handle) s.mListActiveTimer
  if it < s.mListActiveTimer.length then
    (E_OK, { s with mListActiveTimer := s.mListActiveTimer.eraseIdx it })
  else
    (E_NON_EXISTENT, s)

/-- The function `addTimer` (list backend, the `std::function` overload); `currentTime` is the
answer of `clock_gettime`. The local `timerItem` is a reference to `mListTimer.back()`, so what
is written to it is written to the timer list. The caller's `handle` comes back as the second
component. `none`: the allocator loop does not end. The argument `repeats` is not read in the
list backend and is left out; the `assert` on a zero duration is a precondition of the caller. -/
def addTimer (s : CAmSocketHandler) (currentTime : timespec) (timeouts : timespec)
    (callback : Option Nat) (userData : Nat) (handle : Nat) :
    Option (am_Error_e × Nat × CAmSocketHandler) :=
  match nextHandle s.mSetTimerKeys with
  | none => none
  | some (false, keys) => some (E_NOT_POSSIBLE, handle, { s with mSetTimerKeys := keys })
  | some (true, keys) =>
    let timerItem : sh_timer_s :=
      { handle := keys.lastUsedID, countdown := timeouts, callback := callback,
        userData := userData }
    let timerItem : sh_timer_s :=
      if !s.mDispatchDone then
        { timerItem with countdown := timespecAdd timeouts (timespecSub currentTime s.mStartTime) }
      else timerItem
    some (E_OK, keys.lastUsedID,
      { s with mSetTimerKeys := keys
               mListTimer := s.mListTimer ++ [timerItem]
               mListActiveTimer := listSort compareCountdown (s.mListActiveTimer ++ [timerItem]) })

/-- The function `removeTimer` (list backend). -/
def removeTimer (s : CAmSocketHandler) (handle : Nat) : am_Error_e × CAmSocketHandler :=
  let s1 := (stopTimer s handle).2
  let it := scanFor (fun t => t.handle == handle) s1.mListTimer
  if it < s1.mListTimer.length then
    (E_OK, { s1 with mListTimer := s1.mListTimer.eraseIdx it
                     mSetTimerKeys := { s1.mSetTimerKeys with
                                        pollHandles := s1.mSetTimerKeys.pollHandles.erase handle } })
  else
    (E_UNKNOWN, s1)

/-- The function `updateTimer` (list backend); `currentTime` is the answer of `clock_gettime`.
`timeoutsCorrected` starts at zero and is assigned only while the loop runs; the `push_back`
is not under the `if (!found)`, only the assignment before it is. -/
def updateTimer (s : CAmSocketHandler) (currentTime : timespec) (handle : Nat)
    (timeouts : timespec) : am_Error_e × CAmSocketHandler :=
  match s.mListTimer.find? (fun t => t.handle == handle) with
  | none => (E_NON_EXISTENT, s)
  | some it =>
    let mListTimer1 :=
      assignFirst (fun t => t.handle == handle) (fun t => { t with countdown := timeouts })
        s.mListTimer
    let timerItem : sh_timer_s := { it with countdown := timeouts }
    let timeoutsCorrected : timespec :=
      if !s.mDispatchDone then timespecAdd timeouts (timespecSub currentTime s.mStartTime)
      else { tv_sec := 0, tv_nsec := 0 }
    let found := s.mListActiveTimer.any (fun t => t.handle == handle)
    let active1 :=
      assignFirst (fun t => t.handle == handle) (fun t => { t with countdown := timeoutsCorrected })
        s.mListActiveTimer
    let timerItem : sh_timer_s :=
      if !found then { timerItem with countdown := timeoutsCorrected } else timerItem
    (E_OK, { s with mListTimer := mListTimer1
                    mListActiveTimer := listSort compareCountdown (active1 ++ [timerItem]) })

/-- The function `restartTimer` (list backend); `currentTime` is the answer of
`clock_gettime`. -/
def restartTimer (s : CAmSocketHandler) (currentTime : timespec) (handle : Nat) :
    am_Error_e × CAmSocketHandler :=
  match s.mListTimer.find? (fun t => t.handle == handle) with
  | none => (E_NON_EXISTENT, s)
  | some it =>
    let timerItem : sh_timer_s :=
      if !s.mDispatchDone then
        { it with countdown := timespecAdd it.countdown (timespecSub currentTime s.mStartTime) }
      else it
    let found := s.mListActiveTimer.any (fun t => t.handle == handle)
    let active1 :=
      assignFirst (fun t => t.handle == handle)
        (fun t => { t with countdown := timerItem.countdown }) s.mListActiveTimer
    let active2 := if !found then active1 ++ [timerItem] else active1
    (E_OK, { s with mListActiveTimer := listSort compareCountdown active2 })

/-- The function `stop_listening`; `currentTime` is the answer of `clock_gettime`. -/
def stop_listening (s : CAmSocketHandler) (currentTime : timespec) : CAmSocketHandler :=
  let s1 := { s with mDispatchDone := true }
  if s1.mListActiveTimer.isEmpty then s1
  else
    let correctionTime := timespecSub currentTime s1.mStartTime
    { s1 with mListActiveTimer :=
                s1.mListActiveTimer.map
                  (fun t => { t with countdown := timespecSub t.countdown correctionTime }) }

/-- The function `insertTime`: the timeout handed to `ppoll`, `none` for the null pointer. -/
def insertTime (s : CAmSocketHandler) : Option timespec :=
  match s.mListActiveTimer with
  | [] => none
  | t :: _ => some t.countdown

/-! ## User code and the loop -/

/-- What a call of a user callback leaves behind: the handler and the user's own data as they
are when the call ends, and the returned value, `none` when the call ends by throwing a
`std::exception`. -/
structure Outcome (U α : Type) where
  sh : CAmSocketHandler
  user : U
  value : Option α

/-- The user callbacks, by number. Each gets the arguments the handler passes (handle and user
data, for `firedCB` the `pollfd` first) and may call back into the handler, so it acts on the
handler and on the user's own data `U`. -/
structure UserCode (U : Type) where
  prepareCB : Nat → Nat → Nat → CAmSocketHandler → U → Outcome U Unit
  firedCB : Nat → pollfd → Nat → Nat → CAmSocketHandler → U → Outcome U Unit
  checkCB : Nat → Nat → Nat → CAmSocketHandler → U → Outcome U Bool
  dispatchCB : Nat → Nat → Nat → CAmSocketHandler → U → Outcome U Bool
  timerCB : Nat → Nat → Nat → CAmSocketHandler → U → Outcome U Unit

/-- The lifecycle stage a callback is called in. -/
inductive Stage where
  | prepare
  | fired
  | check
  | dispatch
  | timer
  deriving DecidableEq, Repr

/-- One call of a callback as the loop makes it: the stage, the handle passed, and the `isValid`
flag of the snapshot entry at the moment of the call (`true` for a timer). -/
structure Invocation where
  stage : Stage
  handle : Nat
  entryValid : Bool
  deriving DecidableEq, Repr

/-- The handler together with the locals of `start_listenting`, the user's data and the record
of the calls made so far. `listPoll` holds pointers into `mListActivePolls`, as positions. -/
structure Loop (U : Type) where
  sh : CAmSocketHandler
  user : U
  fdPollingArray : List pollfd
  listPoll : List Nat
  log : List Invocation

/-- How a piece of the loop ends: it runs to its end, a `std::exception` leaves it, or the
rounds allowed are used up. -/
inductive Run (α : Type) where
  | done (a : α)
  | raised (a : α)
  | endless

/-- The function `prepare`, on the snapshot entry at position `i`. -/
def prepare {U : Type} (uc : UserCode U) (i : Nat) (l : Loop U) : Loop U :=
  match l.sh.mListActivePolls[i]? with
  | none => l
  | some row =>
    match row.prepareCB with
    | none => l
    | some id =>
      let o := uc.prepareCB id row.handle row.userData l.sh l.user
      { l with sh := o.sh, user := o.user
               log := l.log ++ [{ stage := Stage.prepare, handle := row.handle,
                                  entryValid := row.isValid }] }

/-- The lambda `preparePollfd` of `start_listenting`, on the snapshot entry at position `i`. -/
def preparePollfd {U : Type} (uc : UserCode U) (i : Nat) (l : Loop U) : Loop U :=
  let l1 := prepare uc i l
  match l1.sh.mListActivePolls[i]? with
  | none => l1
  | some row =>
    { l1 with fdPollingArray := l1.fdPollingArray ++ [{ row.pollfdValue with revents := 0 }] }

/-- The `if (mRecreatePollfds) ... else ...` at the top of an iteration. -/
def prepareStage {U : Type} (uc : UserCode U) (l : Loop U) : Loop U :=
  if l.sh.mRecreatePollfds then
    let l1 : Loop U :=
      { l with fdPollingArray := [], sh := { l.sh with mListActivePolls := l.sh.mListPoll } }
    let l2 := (List.range l1.sh.mListActivePolls.length).foldl (fun a i => preparePollfd uc i a) l1
    { l2 with sh := { l2.sh with mRecreatePollfds := false } }
  else
    (List.range l.sh.mListActivePolls.length).foldl (fun a i => prepare uc i a) l

/-- The function `callTimer`. -/
def callTimer {U : Type} (uc : UserCode U) (l : Loop U) (a : sh_timer_s) : Loop U :=
  match a.callback with
  | none => l
  | some id =>
    let o := uc.timerCB id a.handle a.userData l.sh l.user
    { l with sh := o.sh, user := o.user
             log := l.log ++ [{ stage := Stage.timer, handle := a.handle, entryValid := true }] }

/-- The timer predicate `countdownZero` of `timerCorrection`. -/
def countdownZero (row : sh_timer_s) : Bool :=
  row.countdown.tv_nsec == 0 && row.countdown.tv_sec == 0

/-- The timer predicate `countdownUp` of `timerUp`. -/
def countdownUp (diffTime : timespec) (row : sh_timer_s) : Bool :=
  (timespecSub row.countdown diffTime).tv_nsec == 0
    && (timespecSub row.countdown diffTime).tv_sec == 0

/-- The function `timerUp`; `currentTime` is the answer of `clock_gettime`. The reverse iterator
`overflowIter` is a position in the reversed list; `tempList` is the range from it to `rend()`,
and `base()` of it is the position `length - overflowIter` in the list itself. -/
def timerUp {U : Type} (uc : UserCode U) (currentTime : timespec) (l : Loop U) : Loop U :=
  let diffTime := timespecSub currentTime l.sh.mStartTime
  let overflowIter := scanFor (countdownUp diffTime) l.sh.mListActiveTimer.reverse
  let tempList := l.sh.mListActiveTimer.reverse.drop overflowIter
  let it := l.sh.mListActiveTimer.length - overflowIter
  let l1 : Loop U := { l with sh := { l.sh with mListActiveTimer := l.sh.mListActiveTimer.drop it } }
  tempList.foldl (callTimer uc) l1

/-- The function `timerCorrection`; `currentTime` is the answer of `clock_gettime`. -/
def timerCorrection {U : Type} (uc : UserCode U) (currentTime : timespec) (l : Loop U) : Loop U :=
  let correctionTime := timespecSub currentTime l.sh.mStartTime
  let l1 : Loop U := { l with sh := { l.sh with mStartTime := currentTime } }
  if l1.sh.mListActiveTimer.isEmpty then l1
  else
    let substractTime : sh_timer_s → sh_timer_s :=
      fun t => { t with countdown := timespecSub t.countdown correctionTime }
    let l2 : Loop U :=
      { l1 with sh := { l1.sh with mListActiveTimer := l1.sh.mListActiveTimer.map substractTime } }
    let overflowIter := scanFor countdownZero l2.sh.mListActiveTimer.reverse
    if overflowIter ≠ l2.sh.mListActiveTimer.reverse.length then
      let tempList := l2.sh.mListActiveTimer.reverse.drop overflowIter
      let it := l2.sh.mListActiveTimer.length - overflowIter
      let l3 : Loop U :=
        { l2 with sh := { l2.sh with mListActiveTimer := l2.sh.mListActiveTimer.drop it } }
      tempList.foldl (callTimer uc) l3
    else l2

/-- The answer of `ppoll`: the returned value, whether `errno` is `EINTR`, and the `revents` it
wrote, one for each element of the polling array. -/
structure PpollAnswer where
  status : Int
  errnoIsEINTR : Bool
  revents : List Nat

/-- The event bit `POLLERR`. -/
def POLLERR : Nat := 8

/-- The event bit `POLLHUP`. -/
def POLLHUP : Nat := 16

/-- The function `fire`, on the snapshot entry at position `i`. Calling an empty
`std::function` throws `std::bad_function_call`, which the handler catches like any other. -/
def fire {U : Type} (uc : UserCode U) (i : Nat) (l : Loop U) : Loop U :=
  match l.sh.mListActivePolls[i]? with
  | none => l
  | some a =>
    match a.firedCB with
    | none => l
    | some FiredFn.pipeFired =>
      { l with log := l.log ++ [{ stage := Stage.fired, handle := a.handle,
                                  entryValid := a.isValid }] }
    | some (FiredFn.user id) =>
      let o := uc.firedCB id a.pollfdValue a.handle a.userData l.sh l.user
      { l with sh := o.sh, user := o.user
               log := l.log ++ [{ stage := Stage.fired, handle := a.handle,
                                  entryValid := a.isValid }] }

/-- The body of the `for` over the polling array in stage 0+1, for the array element at
position `i`. -/
def fireStep {U : Type} (uc : UserCode U) (l : Loop U) (i : Nat) : Loop U :=
  match l.fdPollingArray[i]? with
  | none => l
  | some p =>
    let revents := p.revents &&& (p.events ||| POLLERR ||| POLLHUP)
    if revents ≠ 0 then
      let l1 : Loop U := { l with listPoll := l.listPoll ++ [i] }
      let l2 := fire uc i l1
      { l2 with fdPollingArray := l2.fdPollingArray.set i { p with revents := 0 } }
    else
      { l with fdPollingArray := l.fdPollingArray.set i { p with revents := revents } }

/-- Stage 0+1 of an iteration: `listPoll.clear()` and the `for` over the polling array. -/
def fireStage {U : Type} (uc : UserCode U) (l : Loop U) : Loop U :=
  (List.range l.fdPollingArray.length).foldl (fireStep uc) { l with listPoll := [] }

/-- The function `noDispatching`, on the snapshot entry at position `i`: the answer, `none` when
the check callback throws (nothing catches here). -/
def noDispatching {U : Type} (uc : UserCode U) (i : Nat) (l : Loop U) : Option Bool × Loop U :=
  match l.sh.mListActivePolls[i]? with
  | none => (some true, l)
  | some a =>
    match a.checkCB with
    | none => (some true, l)
    | some fn =>
      if a.isValid = false then (some true, l)
      else
        match fn with
        | CheckFn.returnsFalse =>
          (some true, { l with log := l.log ++ [{ stage := Stage.check, handle := a.handle,
                                                  entryValid := a.isValid }] })
        | CheckFn.user id =>
          let o := uc.checkCB id a.handle a.userData l.sh l.user
          (o.value.map (fun b => !b),
            { l with sh := o.sh, user := o.user
                     log := l.log ++ [{ stage := Stage.check, handle := a.handle,
                                        entryValid := a.isValid }] })

/-- The function `dispatchingFinished`, on the snapshot entry at position `i`: the answer,
`none` when the dispatch callback throws (nothing catches here). -/
def dispatchingFinished {U : Type} (uc : UserCode U) (i : Nat) (l : Loop U) :
    Option Bool × Loop U :=
  match l.sh.mListActivePolls[i]? with
  | none => (some true, l)
  | some a =>
    match a.dispatchCB with
    | none => (some true, l)
    | some id =>
      if a.isValid = false then (some true, l)
      else
        let o := uc.dispatchCB id a.handle a.userData l.sh l.user
        (o.value.map (fun b => !b),
          { l with sh := o.sh, user := o.user
                   log := l.log ++ [{ stage := Stage.dispatch, handle := a.handle,
                                      entryValid := a.isValid }] })

/-- The call `std::list::remove_if(pred)` on a list of pointers: the elements are visited in
order, those with `pred` are dropped; `none` for the list when `pred` throws. -/
def removeIf {U : Type} (pred : Nat → Loop U → Option Bool × Loop U) :
    List Nat → Loop U → Option (List Nat) × Loop U
  | [], l => (some [], l)
  | p :: ps, l =>
    match pred p l with
    | (none, l1) => (none, l1)
    | (some b, l1) =>
      match removeIf pred ps l1 with
      | (none, l2) => (none, l2)
      | (some rest, l2) => (some (if b then rest else p :: rest), l2)

/-- Stage 2 of an iteration: `listPoll.remove_if(noDispatching)`. -/
def checkStage {U : Type} (uc : UserCode U) (l : Loop U) : Run (Loop U) :=
  match removeIf (noDispatching uc) l.listPoll l with
  | (none, l1) => Run.raised l1
  | (some rest, l1) => Run.done { l1 with listPoll := rest }

/-- Stage 3 of an iteration: `do listPoll.remove_if(dispatchingFinished); while (!empty)`, at
most `fuel` rounds of it. -/
def dispatchStage {U : Type} (uc : UserCode U) : Nat → Loop U → Run (Loop U)
  | 0, _ => Run.endless
  | fuel + 1, l =>
    match removeIf (dispatchingFinished uc) l.listPoll l with
    | (none, l1) => Run.raised l1
    | (some rest, l1) =>
      if rest.isEmpty then Run.done { l1 with listPoll := rest }
      else dispatchStage uc fuel { l1 with listPoll := rest }

/-- The array after `ppoll` has written the `revents` it reports. -/
def writeRevents : List pollfd → List Nat → List pollfd
  | p :: ps, r :: rs => { p with revents := r } :: writeRevents ps rs
  | ps, _ => ps

/-- What the operating system answers during one iteration of the loop: the clock read by
`timerCorrection`, the answer of `ppoll`, and the clock read by `timerUp`. -/
structure Wake where
  correctionClock : timespec
  ppoll : PpollAnswer
  upClock : timespec

/-- One iteration of the `while (!mDispatchDone)` of `start_listenting`; the dispatch stage
gets `fuel` rounds. -/
def iteration {U : Type} (uc : UserCode U) (fuel : Nat) (w : Wake) (l : Loop U) : Run (Loop U) :=
  let l1 := prepareStage uc l
  let l2 := timerCorrection uc w.correctionClock l1
  let l3 : Loop U := { l2 with fdPollingArray := writeRevents l2.fdPollingArray w.ppoll.revents }
  if w.ppoll.status < 0 ∧ w.ppoll.errnoIsEINTR = false then
    Run.raised l3
  else
    let pollStatus : Int := if w.ppoll.status < 0 then 0 else w.ppoll.status
    if pollStatus ≠ 0 then
      match checkStage uc (fireStage uc l3) with
      | Run.done l4 => dispatchStage uc fuel l4
      | Run.raised l4 => Run.raised l4
      | Run.endless => Run.endless
    else
      Run.done (timerUp uc w.upClock l3)

/-- The `while (!mDispatchDone)` of `start_listenting`, one iteration for each answer of the
operating system in the list. -/
def listenLoop {U : Type} (uc : UserCode U) (fuel : Nat) : List Wake → Loop U → Run (Loop U)
  | [], l => if l.sh.mDispatchDone then Run.done l else Run.endless
  | w :: rest, l =>
    if l.sh.mDispatchDone then Run.done l
    else
      match iteration uc fuel w l with
      | Run.done l1 => listenLoop uc fuel rest l1
      | Run.raised l1 => Run.raised l1
      | Run.endless => Run.endless

/-- The lines of `start_listenting` before its `while`; `startClock` is the answer of the
first `clock_gettime`. -/
def loopEntry {U : Type} (startClock : timespec) (s : CAmSocketHandler) (u : U) : Loop U :=
  { sh := { s with mDispatchDone := false, mStartTime := startClock }
    user := u, fdPollingArray := [], listPoll := [], log := [] }

/-- The function `start_listenting`. -/
def start_listenting {U : Type} (uc : UserCode U) (fuel : Nat) (startClock : timespec)
    (ws : List Wake) (s : CAmSocketHandler) (u : U) : Run (Loop U) :=
  listenLoop uc fuel ws (loopEntry startClock s u)

/-- The state a piece of the loop ends in, when it ends. -/
def Run.state? {α : Type} : Run α → Option α
  | Run.done a => some a
  | Run.raised a => some a
  | Run.endless => none

/-- Whether a `std::exception` leaves the piece of the loop. -/
def Run.isRaised {α : Type} : Run α → Bool
  | Run.raised _ => true
  | _ => false

/-- Whether the piece of the loop runs to its end. -/
def Run.isDone {α : Type} : Run α → Bool
  | Run.done _ => true
  | _ => false

/-- The event bit `POLLIN`. -/
def POLLIN : Nat := 1

/-- The handler after a call of `addFDPoll` or `addTimer` that returns. -/
def handlerAfter (r : Option (am_Error_e × Nat × CAmSocketHandler)) (s : CAmSocketHandler) :
    CAmSocketHandler :=
  match r with
  | some (_, _, t) => t
  | none => s

/-- The constructor: the member initializers, then the read end of the pipe is registered with
the two lambdas. (`pipe` and the error codes in `mInternalCodes` are left out.) -/
def CAmSocketHandler.ctor (fdIsValid : Int → Bool) (MAX_POLLHANDLE MAX_TIMERHANDLE : Nat)
    (pipeRead : Int) : CAmSocketHandler :=
  handlerAfter
    (addFDPoll fdIsValid (CAmSocketHandler.new MAX_POLLHANDLE MAX_TIMERHANDLE) pipeRead POLLIN
      none (some FiredFn.pipeFired) (some CheckFn.returnsFalse) none 0 0)
    (CAmSocketHandler.new MAX_POLLHANDLE MAX_TIMERHANDLE)

/-! ## Reachable states and invariants -/

/-- The cursor after one round of the allocator loop. -/
def nextCursor (limit x : Nat) : Nat :=
  if (x + 1) % handleWidth = limit then 1 else (x + 1) % handleWidth

/-- The states of the poll registry and of its allocator that the handler gets into: the state
the constructor starts from, and whatever calls of `addFDPoll`, `removeFDPoll` and
`updateEventFlags` make of it, in any order and with any arguments, successful or not. No
other function of the handler writes `mListPoll` or `mSetPollKeys`; the last rule stands for
all of them (timers, the loop, `stop_listening`). -/
inductive PollReachable (MAX_POLLHANDLE : Nat) : CAmSocketHandler → Prop where
  | ctor (s : CAmSocketHandler) :
      s.mSetPollKeys = sh_identifier_s.new MAX_POLLHANDLE → s.mListPoll = [] →
      PollReachable MAX_POLLHANDLE s
  | addFDPoll (fdIsValid : Int → Bool) (s : CAmSocketHandler) (fd : Int) (event : Nat)
      (prepare : Option Nat) (fired : Option FiredFn) (check : Option CheckFn)
      (dispatch : Option Nat) (userData handle : Nat)
      (r : am_Error_e × Nat × CAmSocketHandler) :
      PollReachable MAX_POLLHANDLE s →
      addFDPoll fdIsValid s fd event prepare fired check dispatch userData handle = some r →
      PollReachable MAX_POLLHANDLE r.2.2
  | removeFDPoll (s : CAmSocketHandler) (handle : Nat) :
      PollReachable MAX_POLLHANDLE s → PollReachable MAX_POLLHANDLE (removeFDPoll s handle).2
  | updateEventFlags (s : CAmSocketHandler) (handle events : Nat) :
      PollReachable MAX_POLLHANDLE s →
      PollReachable MAX_POLLHANDLE (updateEventFlags s handle events).2
  | other (s t : CAmSocketHandler) :
      PollReachable MAX_POLLHANDLE s → t.mSetPollKeys = s.mSetPollKeys →
      t.mListPoll = s.mListPoll → PollReachable MAX_POLLHANDLE t

/-- The registered handles are pairwise distinct and all in the live set of the allocator. -/
structure RegistryInv (s : CAmSocketHandler) : Prop where
  nodup : (s.mListPoll.map sh_poll_s.handle).Nodup
  live : ∀ e ∈ s.mListPoll, e.handle ∈ s.mSetPollKeys.pollHandles

/-- The allocator of the poll handles has the limit `L`, its cursor is below the limit, and
while the cursor is still on the reserved handle 0 nothing has been allocated. -/
structure CursorInv (L : Nat) (s : CAmSocketHandler) : Prop where
  limit_eq : s.mSetPollKeys.limit = L
  cursor_lt : s.mSetPollKeys.lastUsedID < L
  cursor_zero : s.mSetPollKeys.lastUsedID = 0 → s.mSetPollKeys.pollHandles = ∅

/-! ## Scenarios -/

/-- Every descriptor is open. -/
def allOpen : Int → Bool := fun _ => true

/-- User code of the scenarios; the user's own data counts the calls of `prepareCB` 1.

* `prepareCB` 0 calls `removeFDPoll` on its own handle; `prepareCB` 1 calls
  `addFDPoll(7, POLLIN, ...)` the first time it runs and nothing afterwards.
* `firedCB` 0 calls `removeFDPoll` on its own handle; any other does nothing.
* `checkCB` 0 returns `true`; any other throws a `std::runtime_error`.
* `dispatchCB` 0 returns `false`; any other throws a `std::runtime_error`.
* timer callbacks do nothing. -/
def scenarioCode : UserCode Nat where
  prepareCB := fun id handle _ sh u =>
    match id with
    | 0 => { sh := (removeFDPoll sh handle).2, user := u, value := some () }
    | _ =>
      if u = 0 then
        { sh := handlerAfter (addFDPoll allOpen sh 7 POLLIN none none none none 0 0) sh
          user := u + 1, value := some () }
      else { sh := sh, user := u + 1, value := some () }
  firedCB := fun id _ handle _ sh u =>
    match id with
    | 0 => { sh := (removeFDPoll sh handle).2, user := u, value := some () }
    | _ => { sh := sh, user := u, value := some () }
  checkCB := fun id _ _ sh u =>
    match id with
    | 0 => { sh := sh, user := u, value := some true }
    | _ => { sh := sh, user := u, value := none }
  dispatchCB := fun id _ _ sh u =>
    match id with
    | 0 => { sh := sh, user := u, value := some false }
    | _ => { sh := sh, user := u, value := none }
  timerCB := fun _ _ _ sh u => { sh := sh, user := u, value := some () }

/-- The handler as constructed, the pipe on descriptor 3 (poll handle 1). -/
def fresh : CAmSocketHandler := CAmSocketHandler.ctor allOpen 65535 65535 3

/-- Scenario: descriptor 5 registered after the pipe, without callbacks (poll handle 2, the last
entry of the registry). -/
def plainLast : CAmSocketHandler :=
  handlerAfter (addFDPoll allOpen fresh 5 POLLIN none none none none 0 0) fresh

/-- Scenario of self-removal: descriptor 5 registered after the pipe (poll handle 2, the last
entry of the registry); its `fired` removes its own handle, its `check` returns `true`, its
`dispatch` returns `false`. -/
def selfRemoving : CAmSocketHandler :=
  handlerAfter
    (addFDPoll allOpen fresh 5 POLLIN none (some (FiredFn.user 0)) (some (CheckFn.user 0))
      (some 0) 0 0) fresh

/-- Scenario of removal in `prepare`: descriptor 5 (poll handle 2) removes its own handle in
`prepare` and has `fired`, `check` and `dispatch`; descriptor 6 (poll handle 3) follows it in the
registry. -/
def removedInPrepare : CAmSocketHandler :=
  handlerAfter (addFDPoll allOpen
    (handlerAfter
      (addFDPoll allOpen fresh 5 POLLIN (some 0) (some (FiredFn.user 1)) (some (CheckFn.user 0))
        (some 0) 0 0) fresh)
    6 POLLIN none none none none 0 0) fresh

/-- Scenario of registration in `prepare`: descriptor 5 (poll handle 2) registers descriptor 7
the first time its `prepare` runs. -/
def addingInPrepare : CAmSocketHandler :=
  handlerAfter (addFDPoll allOpen fresh 5 POLLIN (some 1) none none none 0 0) fresh

/-- Scenario of a throwing `check`: descriptor 5 (poll handle 2) has a `fired` that does nothing
and a `check` that throws. -/
def throwingCheck : CAmSocketHandler :=
  handlerAfter
    (addFDPoll allOpen fresh 5 POLLIN none (some (FiredFn.user 1)) (some (CheckFn.user 1))
      (some 0) 0 0) fresh

/-- Scenario of a throwing `dispatch`: descriptor 5 (poll handle 2) has a `fired` that does
nothing, a `check` that returns `true` and a `dispatch` that throws. -/
def throwingDispatch : CAmSocketHandler :=
  handlerAfter
    (addFDPoll allOpen fresh 5 POLLIN none (some (FiredFn.user 1)) (some (CheckFn.user 0))
      (some 1) 0 0) fresh

/-- The answer of the operating system in the scenarios: the clock stands at zero, `ppoll`
reports one ready descriptor, the second of the polling array, readable. -/
def secondReady : Wake :=
  { correctionClock := { tv_sec := 0, tv_nsec := 0 }
    ppoll := { status := 1, errnoIsEINTR := false, revents := [0, POLLIN, 0] }
    upClock := { tv_sec := 0, tv_nsec := 0 } }

/-- The answer of the operating system when `ppoll` times out with nothing ready. -/
def nothingReady : Wake :=
  { correctionClock := { tv_sec := 0, tv_nsec := 0 }
    ppoll := { status := 0, errnoIsEINTR := false, revents := [0, 0, 0] }
    upClock := { tv_sec := 0, tv_nsec := 0 } }

/-- A time value of whole seconds. -/
def seconds (n : Nat) : timespec := { tv_sec := n, tv_nsec := 0 }

/-- Scenario: a timer of 5 s added to the fresh handler, the loop not started (timer handle
1). -/
def oneTimer : CAmSocketHandler :=
  handlerAfter (addTimer fresh (seconds 100) (seconds 5) (some 0) 0 0) fresh

/-- Scenario: the loop was entered when the clock read 10 s, and a timer of 5 s is added when
the clock reads 12 s (timer handle 1). -/
def timerAddedWhileRunning : CAmSocketHandler :=
  handlerAfter
    (addTimer (loopEntry (seconds 10) fresh 0).sh (seconds 12) (seconds 5) (some 0) 0 0) fresh

/-- Scenario of self-removal with the loop running: the handler at the end of the prepare stage
of the first iteration, the snapshot taken. -/
def selfRemovingPrepared : CAmSocketHandler :=
  (prepareStage scenarioCode (loopEntry (seconds 0) selfRemoving 0)).sh

/-- Scenario of exhaustion: a handler whose poll handles are limited by 3, with the pipe (poll
handle 1) and descriptor 5 (poll handle 2) registered, so that every handle below the limit is
live. -/
def exhausted : CAmSocketHandler :=
  handlerAfter
    (addFDPoll allOpen (CAmSocketHandler.ctor allOpen 3 3 3) 5 POLLIN none none none none 0 0)
    (CAmSocketHandler.ctor allOpen 3 3 3)

/-! ## Definitions for the further claims -/

/-- The live handles are handles of registry entries and are not zero. -/
structure LiveInv (s : CAmSocketHandler) : Prop where
  registered : ∀ x ∈ s.mSetPollKeys.pollHandles, ∃ e ∈ s.mListPoll, e.handle = x
  nonzero : ∀ x ∈ s.mSetPollKeys.pollHandles, 1 ≤ x

/-- The id after `x` in the cyclic order of the ids `1 .. L-1`: the cursor advances and wraps
at `L`. -/
def cyclicSucc (L x : Nat) : Nat := if x + 1 = L then 1 else x + 1

/-- The first `n` ids of the cyclic sequence `x+1, x+2, ...` that wraps from `L-1` back to 1. -/
def cyclicSeq (L : Nat) : Nat → Nat → List Nat
  | _, 0 => []
  | x, n + 1 => cyclicSucc L x :: cyclicSeq L (cyclicSucc L x) n

/-- The allocator in the words of the specification: given the limit `L`, the set of the ids in
use and the cursor `c`, the next free id is the first id of the cyclic sequence `c+1, c+2, ...`
(one full cycle, which ends with `c` itself) that is not in the set; `none` when the full cycle
has nothing free. -/
def firstFreeAfter (L : Nat) (S : Finset Nat) (c : Nat) : Option Nat :=
  (cyclicSeq L c (L - 1)).find? (fun i => decide (i ∉ S))

/-- One pair of the exhaustion experiment: an id is allocated with `nextHandle` and then erased
from the live set, as `removeFDPoll`, `removeTimer` and `removeSignalHandler` do; `none` when
the allocation fails or does not end. -/
def allocateThenErase (k : sh_identifier_s) : Option sh_identifier_s :=
  match nextHandle k with
  | some (true, k1) => some { k1 with pollHandles := k1.pollHandles.erase k1.lastUsedID }
  | _ => none

/-- The exhaustion experiment: `n` consecutive pairs of allocation and erasure. -/
def allocateThenErasePairs : Nat → sh_identifier_s → Option sh_identifier_s
  | 0, k => some k
  | n + 1, k =>
    match allocateThenErase k with
    | some k1 => allocateThenErasePairs n k1
    | none => none

/-- Scenario: in the handler `exhausted` (limit 3, poll handles 1 and 2 live, the cursor on 2)
handle 2 is removed again, so that the only free id is the one the cursor is on. -/
def cursorFreed : CAmSocketHandler := (removeFDPoll exhausted 2).2

/-- The system `itimerspec`. -/
structure itimerspec where
  it_interval : timespec
  it_value : timespec
  deriving DecidableEq, Repr

/-- The timer entry `sh_timer_s` as the source uses it when built with `WITH_TIMERFD`: handle,
descriptor of the kernel timer, its `itimerspec` and the user data. -/
structure sh_timerfd_s where
  handle : Nat
  fd : Int
  countdown : itimerspec
  userData : Nat
  deriving DecidableEq, Repr

/-- The handler when built with `WITH_TIMERFD`, as far as `removeTimer` goes: the handler with
its poll registry, the timer list and the list of the removed timers whose descriptors wait to
be closed. -/
structure TimerFdHandler where
  base : CAmSocketHandler
  mListTimer : List sh_timerfd_s
  mListRemovedTimers : List sh_timerfd_s
  deriving DecidableEq

/-- The function `removeTimer` when built with `WITH_TIMERFD` (the `#ifdef` branch). -/
def removeTimerWithTimerFd (s : TimerFdHandler) (handle : Nat) : am_Error_e × TimerFdHandler :=
  let it := scanFor (fun t => t.handle == handle) s.mListTimer
  match s.mListTimer[it]? with
  | none => (E_NON_EXISTENT, s)
  | some t =>
    let r := removeFDPoll s.base handle
    (r.1, { base := r.2
            mListTimer := s.mListTimer.eraseIdx it
            mListRemovedTimers := s.mListRemovedTimers ++ [t] })

/-- Scenario: the handler as constructed in a build with `WITH_TIMERFD`, no timer added. -/
def freshWithTimerFd : TimerFdHandler :=
  { base := fresh, mListTimer := [], mListRemovedTimers := [] }

/-- Scenario (list backend): the timer of 5 s (handle 1) is active, the loop not started, and
`updateTimer(1, 3 s)` has been called. -/
def updatedTimer : CAmSocketHandler := (updateTimer oneTimer (seconds 100) 1 (seconds 3)).2

/-- A poll entry with its `isValid` flag put aside. -/
def sh_poll_s.unflagged (e : sh_poll_s) : sh_poll_s := { e with isValid := true }

/-- The `fired` callbacks of the user leave the active snapshot as it is but for the `isValid`
flags of its entries; this is what a callback does that works on the handler through
`addFDPoll`, `removeFDPoll`, `updateEventFlags` and the timer functions. -/
def FiredKeepsSnapshot {U : Type} (uc : UserCode U) : Prop :=
  ∀ (id : Nat) (p : pollfd) (h ud : Nat) (sh : CAmSocketHandler) (u : U),
    (uc.firedCB id p h ud sh u).sh.mListActivePolls.map sh_poll_s.unflagged
      = sh.mListActivePolls.map sh_poll_s.unflagged

/-- The test of the fire stage on an element of the polling array:
`revents & (events | POLLERR | POLLHUP)` is not zero. -/
def ready (p : pollfd) : Bool :=
  decide (p.revents &&& (p.events ||| POLLERR ||| POLLHUP) ≠ 0)

/-- Whether the element at position `i` of the polling array passes the test of the fire
stage. -/
def readyAt (arr : List pollfd) (i : Nat) : Bool :=
  match arr[i]? with
  | some p => ready p
  | none => false

/-- The positions of the polling array that pass the test of the fire stage, ascending. -/
def readyPositions (arr : List pollfd) : List Nat :=
  (List.range arr.length).filter (readyAt arr)

/-- The calls of `fired` that the specification asks for: one for each of the given positions
whose snapshot entry has a `fired` callback, in the order of the positions, with the handle of
the entry. -/
def firedCalls (snapshot : List sh_poll_s) (positions : List Nat) : List (Stage × Nat) :=
  positions.filterMap (fun i =>
    match snapshot[i]? with
    | some a => if a.firedCB.isSome then some (Stage.fired, a.handle) else none
    | none => none)

/-- The stage and the handle of a recorded call. -/
def Invocation.call (v : Invocation) : Stage × Nat := (v.stage, v.handle)

/-- The record of calls of `l1` is that of `l` followed by calls that all have the property
`P`. -/
def LogGrows {U : Type} (P : Invocation → Prop) (l l1 : Loop U) : Prop :=
  ∃ added, l1.log = l.log ++ added ∧ ∀ v ∈ added, P v

/-- Scenario: the loop of the handler `selfRemoving` in its first iteration, after the prepare
stage and after `ppoll` has reported descriptor 5 readable. -/
def selfRemovingWoken : Loop Nat :=
  { prepareStage scenarioCode (loopEntry (seconds 0) selfRemoving 0) with
    fdPollingArray :=
      writeRevents (prepareStage scenarioCode (loopEntry (seconds 0) selfRemoving 0)).fdPollingArray
        secondReady.ppoll.revents }

/-- What the `check` callback of a snapshot entry returns when it is called in the state `l`;
`none` when it throws. -/
def checkReturns {U : Type} (uc : UserCode U) (fn : CheckFn) (a : sh_poll_s) (l : Loop U) :
    Option Bool :=
  match fn with
  | CheckFn.returnsFalse => some false
  | CheckFn.user id => (uc.checkCB id a.handle a.userData l.sh l.user).value

/-- The rule of the check stage in the words of the specification: the fired entry at position
`i` stays on the list exactly when it has a `check` callback, its `valid` flag is set, and its
`check` returns `true`. -/
def staysAfterCheck {U : Type} (uc : UserCode U) (i : Nat) (l : Loop U) : Bool :=
  match l.sh.mListActivePolls[i]? with
  | none => false
  | some a =>
    match a.checkCB with
    | none => false
    | some fn => a.isValid && (checkReturns uc fn a l == some true)

/-- The fired list after the check stage in the words of the specification: the list is
filtered by the rule, each entry judged in the state the handler is in when its turn comes
(the state that examining the entries before it has left). -/
def keptByCheck {U : Type} (uc : UserCode U) : List Nat → Loop U → List Nat
  | [], _ => []
  | p :: ps, l =>
    if staysAfterCheck uc p l then p :: keptByCheck uc ps (noDispatching uc p l).2
    else keptByCheck uc ps (noDispatching uc p l).2

/-- The handle of the snapshot entry at a position (0 when there is none). -/
def handleAt (snapshot : List sh_poll_s) (p : Nat) : Nat :=
  match snapshot[p]? with
  | some a => a.handle
  | none => 0

/-- Whether the snapshot entry at a position has a `dispatch` callback. -/
def hasDispatch (snapshot : List sh_poll_s) (p : Nat) : Bool :=
  match snapshot[p]? with
  | some a => a.dispatchCB.isSome
  | none => false

/-- The `dispatch` callbacks of the user return `true` a given number of times and then
`false`: `budget u h` is how often the callback of handle `h` will still return `true` when the
user's data is `u`. A call for `h` returns, tells whether the budget of `h` is not used up,
takes one from it, leaves the budgets of the other handles alone, and leaves the active
snapshot alone (so the entries stay valid). -/
structure DispatchBudget {U : Type} (uc : UserCode U) (budget : U → Nat → Nat) : Prop where
  snapshot : ∀ id h ud sh u,
    (uc.dispatchCB id h ud sh u).sh.mListActivePolls = sh.mListActivePolls
  value : ∀ id h ud sh u, (uc.dispatchCB id h ud sh u).value = some (decide (0 < budget u h))
  spend : ∀ id h ud sh u, budget (uc.dispatchCB id h ud sh u).user h = budget u h - 1
  others : ∀ id h ud sh u k, k ≠ h → budget (uc.dispatchCB id h ud sh u).user k = budget u k

/-- User code of the back-pressure scenario; the user's own data says, for each handle, how
often its `dispatch` will still return `true`. `prepare`, `fired` and timer callbacks do
nothing, `check` returns `true`, `dispatch` returns `true` while the count of its handle is not
zero and takes one from it. -/
def countingCode : UserCode (Nat → Nat) where
  prepareCB := fun _ _ _ sh u => { sh := sh, user := u, value := some () }
  firedCB := fun _ _ _ _ sh u => { sh := sh, user := u, value := some () }
  checkCB := fun _ _ _ sh u => { sh := sh, user := u, value := some true }
  dispatchCB := fun _ h _ sh u =>
    { sh := sh, user := fun k => if k = h then u h - 1 else u k, value := some (decide (0 < u h)) }
  timerCB := fun _ _ _ sh u => { sh := sh, user := u, value := some () }

/-- Scenario of back-pressure: descriptor 5 registered after the pipe (poll handle 2) with
`fired`, `check` and `dispatch` callbacks. -/
def backPressure : CAmSocketHandler :=
  handlerAfter
    (addFDPoll allOpen fresh 5 POLLIN none (some (FiredFn.user 0)) (some (CheckFn.user 0))
      (some 0) 0 0) fresh

/-- Scenario of back-pressure: the `dispatch` of handle 2 returns `true` twice and then
`false`. -/
def twiceThenFalse : Nat → Nat := fun h => if h = 2 then 2 else 0

/-- Scenario of back-pressure: the loop in its first iteration, after the prepare stage and
after `ppoll` has reported descriptor 5 readable. -/
def backPressureWoken : Loop (Nat → Nat) :=
  { prepareStage countingCode (loopEntry (seconds 0) backPressure twiceThenFalse) with
    fdPollingArray :=
      writeRevents
        (prepareStage countingCode
          (loopEntry (seconds 0) backPressure twiceThenFalse)).fdPollingArray
        secondReady.ppoll.revents }

/-- Scenario of back-pressure: the loop after the fire stage. -/
def backPressureFired : Loop (Nat → Nat) := fireStage countingCode backPressureWoken

/-- Scenario of back-pressure: the loop after the check stage. -/
def backPressureChecked : Loop (Nat → Nat) :=
  match checkStage countingCode backPressureFired with
  | Run.done l => l
  | _ => backPressureFired

/-! ## Definitions for the claims on the snapshot and the polling array -/

/-- What the polling array keeps of a `pollfd` from one rebuild to the next: the descriptor and
the event mask (`ppoll` and the fire stage write `revents` only). -/
def pollfd.watch (p : pollfd) : Int × Nat := (p.fd, p.events)

/-- The callbacks of the user, of every kind, leave the active snapshot as it is but for the
`isValid` flags of its entries; this is what a callback does that works on the handler through
`addFDPoll`, `removeFDPoll`, `updateEventFlags` and the timer functions. -/
structure KeepsSnapshot {U : Type} (uc : UserCode U) : Prop where
  prepare : ∀ (id h ud : Nat) (sh : CAmSocketHandler) (u : U),
    (uc.prepareCB id h ud sh u).sh.mListActivePolls.map sh_poll_s.unflagged
      = sh.mListActivePolls.map sh_poll_s.unflagged
  fired : ∀ (id : Nat) (p : pollfd) (h ud : Nat) (sh : CAmSocketHandler) (u : U),
    (uc.firedCB id p h ud sh u).sh.mListActivePolls.map sh_poll_s.unflagged
      = sh.mListActivePolls.map sh_poll_s.unflagged
  check : ∀ (id h ud : Nat) (sh : CAmSocketHandler) (u : U),
    (uc.checkCB id h ud sh u).sh.mListActivePolls.map sh_poll_s.unflagged
      = sh.mListActivePolls.map sh_poll_s.unflagged
  dispatch : ∀ (id h ud : Nat) (sh : CAmSocketHandler) (u : U),
    (uc.dispatchCB id h ud sh u).sh.mListActivePolls.map sh_poll_s.unflagged
      = sh.mListActivePolls.map sh_poll_s.unflagged
  timer : ∀ (id h ud : Nat) (sh : CAmSocketHandler) (u : U),
    (uc.timerCB id h ud sh u).sh.mListActivePolls.map sh_poll_s.unflagged
      = sh.mListActivePolls.map sh_poll_s.unflagged

/-- The polling array agrees with the active snapshot index for index: same length, and the
element at each position has the descriptor and the event mask of the snapshot entry there. -/
def Projection {U : Type} (l : Loop U) : Prop :=
  l.fdPollingArray.map pollfd.watch = l.sh.mListActivePolls.map (fun e => e.pollfdValue.watch)

/-- From `l` to `l1` the active snapshot keeps its entries but for the flags, and the polling
array keeps the descriptor and the event mask of each element. -/
def SameShape {U : Type} (l l1 : Loop U) : Prop :=
  l1.sh.mListActivePolls.map sh_poll_s.unflagged = l.sh.mListActivePolls.map sh_poll_s.unflagged
    ∧ l1.fdPollingArray.map pollfd.watch = l.fdPollingArray.map pollfd.watch

/-- Scenario of a rebuild with registry changes in `prepare`: the loop of the handler
`removedInPrepare` when it is entered (its first iteration rebuilds, and the `prepare` of
handle 2 removes its own handle meanwhile). -/
def rebuildWithRemoval : Loop Nat := loopEntry (seconds 0) removedInPrepare 0

/-! ## Definitions for the claims on the list timers -/

/-- A proper time value: the nanoseconds are below one second, as `clock_gettime` gives them
and as `ppoll` asks for them. -/
abbrev timespec.Normal (t : timespec) : Prop := t.tv_nsec < MAX_NS

/-- A time value in nanoseconds. -/
def timespec.toNs (t : timespec) : Nat := t.tv_sec * MAX_NS + t.tv_nsec

/-- The order "at most" of two time values, in the words of the specification ("countdown <=
delta"): fewer seconds, or the same seconds and no more nanoseconds. -/
def timespecLe (a b : timespec) : Bool :=
  decide (a.tv_sec < b.tv_sec ∨ (a.tv_sec = b.tv_sec ∧ a.tv_nsec ≤ b.tv_nsec))

/-- The active list is sorted by ascending countdown: no entry is followed by one with a
strictly smaller countdown. -/
abbrev ActiveSorted (l : List sh_timer_s) : Prop :=
  l.Pairwise (fun a b => compareCountdown b a = false)

/-- What the timer functions of the list backend keep: the active list is sorted and the time
values are proper; the registered timer handles are pairwise distinct and live in the
allocator; the allocator has the limit `T`, its cursor is below the limit, and while the cursor
is on the reserved handle 0 nothing has been allocated. -/
structure TimerInv (T : Nat) (s : CAmSocketHandler) : Prop where
  sorted : ActiveSorted s.mListActiveTimer
  activeNormal : ∀ t ∈ s.mListActiveTimer, t.countdown.Normal
  timerNormal : ∀ t ∈ s.mListTimer, t.countdown.Normal
  startNormal : s.mStartTime.Normal
  nodup : (s.mListTimer.map sh_timer_s.handle).Nodup
  live : ∀ t ∈ s.mListTimer, t.handle ∈ s.mSetTimerKeys.pollHandles
  limit_eq : s.mSetTimerKeys.limit = T
  cursor_lt : s.mSetTimerKeys.lastUsedID < T
  cursor_zero : s.mSetTimerKeys.lastUsedID = 0 → s.mSetTimerKeys.pollHandles = ∅

/-- The timer callbacks of the user keep what the timer functions keep; this is what a
callback does that works on the timers through `addTimer`, `updateTimer`, `restartTimer`,
`stopTimer` and `removeTimer`, with proper time values. -/
def TimerCallbacksKeep {U : Type} (T : Nat) (uc : UserCode U) : Prop :=
  ∀ (id h ud : Nat) (sh : CAmSocketHandler) (u : U),
    TimerInv T sh → TimerInv T (uc.timerCB id h ud sh u).sh

/-- The states of the list timers that the handler gets into: the state the constructor starts
from, and whatever calls of `addTimer`, `removeTimer`, `stopTimer`, `updateTimer`,
`restartTimer`, `stop_listening`, `timerCorrection` and `timerUp` make of it, in any order and
with any arguments, successful or not; the durations and the clock readings are proper time
values. No other function of the handler writes the timer members but `start_listenting`, which
sets `mStartTime` to the clock; the last rule stands for all of them. -/
inductive TimerReachable (MAX_TIMERHANDLE : Nat) : CAmSocketHandler → Prop where
  | ctor (s : CAmSocketHandler) :
      s.mSetTimerKeys = sh_identifier_s.new MAX_TIMERHANDLE → s.mListTimer = [] →
      s.mListActiveTimer = [] → s.mStartTime.Normal → TimerReachable MAX_TIMERHANDLE s
  | addTimer (s : CAmSocketHandler) (currentTime timeouts : timespec) (callback : Option Nat)
      (userData handle : Nat) (r : am_Error_e × Nat × CAmSocketHandler) :
      TimerReachable MAX_TIMERHANDLE s → currentTime.Normal → timeouts.Normal →
      addTimer s currentTime timeouts callback userData handle = some r →
      TimerReachable MAX_TIMERHANDLE r.2.2
  | removeTimer (s : CAmSocketHandler) (handle : Nat) :
      TimerReachable MAX_TIMERHANDLE s → TimerReachable MAX_TIMERHANDLE (removeTimer s handle).2
  | stopTimer (s : CAmSocketHandler) (handle : Nat) :
      TimerReachable MAX_TIMERHANDLE s → TimerReachable MAX_TIMERHANDLE (stopTimer s handle).2
  | updateTimer (s : CAmSocketHandler) (currentTime : timespec) (handle : Nat)
      (timeouts : timespec) :
      TimerReachable MAX_TIMERHANDLE s → currentTime.Normal → timeouts.Normal →
      TimerReachable MAX_TIMERHANDLE (updateTimer s currentTime handle timeouts).2
  | restartTimer (s : CAmSocketHandler) (currentTime : timespec) (handle : Nat) :
      TimerReachable MAX_TIMERHANDLE s → currentTime.Normal →
      TimerReachable MAX_TIMERHANDLE (restartTimer s currentTime handle).2
  | stop_listening (s : CAmSocketHandler) (currentTime : timespec) :
      TimerReachable MAX_TIMERHANDLE s → currentTime.Normal →
      TimerReachable MAX_TIMERHANDLE (stop_listening s currentTime)
  | timerCorrection {U : Type} (uc : UserCode U) (currentTime : timespec) (l : Loop U) :
      TimerReachable MAX_TIMERHANDLE l.sh → currentTime.Normal →
      TimerCallbacksKeep MAX_TIMERHANDLE uc →
      TimerReachable MAX_TIMERHANDLE (timerCorrection uc currentTime l).sh
  | timerUp {U : Type} (uc : UserCode U) (currentTime : timespec) (l : Loop U) :
      TimerReachable MAX_TIMERHANDLE l.sh → currentTime.Normal →
      TimerCallbacksKeep MAX_TIMERHANDLE uc →
      TimerReachable MAX_TIMERHANDLE (timerUp uc currentTime l).sh
  | other (s t : CAmSocketHandler) :
      TimerReachable MAX_TIMERHANDLE s → t.mSetTimerKeys = s.mSetTimerKeys →
      t.mListTimer = s.mListTimer → t.mListActiveTimer = s.mListActiveTimer →
      t.mStartTime.Normal → TimerReachable MAX_TIMERHANDLE t

/-- The timer callbacks of the user leave the active list and the start time of the loop as
they are. -/
def TimerCallbacksIdle {U : Type} (uc : UserCode U) : Prop :=
  ∀ (id h ud : Nat) (sh : CAmSocketHandler) (u : U),
    (uc.timerCB id h ud sh u).sh.mListActiveTimer = sh.mListActiveTimer
      ∧ (uc.timerCB id h ud sh u).sh.mStartTime = sh.mStartTime

/-- The calls of timer callbacks that the loop makes for a list of timers handed to
`callTimer` one after the other: one for each timer that has a callback, with its handle. -/
def timerCalls (ts : List sh_timer_s) : List Invocation :=
  ts.filterMap (fun t =>
    match t.callback with
    | some _ => some { stage := Stage.timer, handle := t.handle, entryValid := true }
    | none => none)

/-- Scenario: a timer of 5 s (timer handle 1) and then a timer of 3 s (timer handle 2) added to
the fresh handler, the loop not started. -/
def twoTimers : CAmSocketHandler :=
  handlerAfter (addTimer oneTimer (seconds 100) (seconds 3) (some 0) 0 0) oneTimer

/-- Scenario: the loop of the handler `twoTimers`, entered when the clock reads 10 s. -/
def twoTimersRunning : Loop Nat := loopEntry (seconds 10) twoTimers 0

/-! ## Definitions for the claims on the timer descriptors -/

/-- What the operating system answers to `createTimeFD`: the value of `timerfd_create`, and
whether `timerfd_settime` fails. -/
structure TimerFdAnswer where
  created : Int
  settimeFails : Bool

/-- The function `createTimeFD` (built with `WITH_TIMERFD`): the error code, and the value
written to `fd`. -/
def createTimeFD (os : TimerFdAnswer) : am_Error_e × Int :=
  if os.created < 0 then (E_NOT_POSSIBLE, os.created)
  else if os.settimeFails then (E_NOT_POSSIBLE, os.created)
  else (E_OK, os.created)

/-- The function `addTimer` when built with `WITH_TIMERFD` (the `#else` branch). The two
lambdas handed to `addFDPoll` read the descriptor and call the timer callback of the user, so
what they do is given by the callback table like a user callback: `actionPoll` and
`checkLambda` are their numbers there. `none`: the allocator loop does not end. -/
def addTimerWithTimerFd (fdIsValid : Int → Bool) (os : TimerFdAnswer)
    (actionPoll checkLambda : Nat) (s : TimerFdHandler) (timeouts : timespec)
    (userData handle : Nat) (repeats : Bool) : Option (am_Error_e × Nat × TimerFdHandler) :=
  let countdown : itimerspec :=
    { it_value := timeouts
      it_interval := if repeats then timeouts else { tv_sec := 0, tv_nsec := 0 } }
  let created := createTimeFD os
  if created.1 ≠ E_OK then some (created.1, handle, s)
  else
    match addFDPoll fdIsValid s.base created.2 POLLIN none (some (FiredFn.user actionPoll))
        (some (CheckFn.user checkLambda)) none userData handle with
    | none => none
    | some (E_OK, h, base) =>
      some (E_OK, h,
        { s with base := base
                 mListTimer := s.mListTimer ++
                   [{ handle := h, fd := created.2, countdown := countdown, userData := userData }] })
    | some (err, h, base) => some (err, h, { s with base := base })

/-- The function `closeRemovedTimers` (built with `WITH_TIMERFD`): the descriptors it hands to
`close`, in the order of the calls, and the handler afterwards. -/
def closeRemovedTimers (s : TimerFdHandler) : List Int × TimerFdHandler :=
  ((s.mListRemovedTimers.filter (fun t => decide (t.fd > -1))).map sh_timerfd_s.fd,
    { s with mListRemovedTimers := [] })

/-- The top of an iteration of `start_listenting` when built with `WITH_TIMERFD`:
`if (mRecreatePollfds) { closeRemovedTimers(); ...`; the descriptors closed there and the
handler as the rebuild finds it. -/
def rebuildTopWithTimerFd (s : TimerFdHandler) : List Int × TimerFdHandler :=
  if s.base.mRecreatePollfds then closeRemovedTimers s else ([], s)

/-- The destructor when built with `WITH_TIMERFD`: the descriptors it hands to `close`, in the
order of the calls (those of the removed timers, those of the registry, the two ends of the
pipe). -/
def destructorWithTimerFd (mPipe : Int × Int) (s : TimerFdHandler) : List Int :=
  (closeRemovedTimers s).1 ++ s.base.mListPoll.map (fun e => e.pollfdValue.fd)
    ++ [mPipe.1, mPipe.2]

/-- The handler after a call of `addTimer` (built with `WITH_TIMERFD`) that returns. -/
def timerFdHandlerAfter (r : Option (am_Error_e × Nat × TimerFdHandler)) (s : TimerFdHandler) :
    TimerFdHandler :=
  match r with
  | some (_, _, t) => t
  | none => s

/-- Scenario (built with `WITH_TIMERFD`): a timer of 5 s added to the fresh handler;
`timerfd_create` gives the descriptor 8, the poll handle and timer handle is 2, and the two
lambdas are number 1 of the callback table. -/
def oneTimerFd : TimerFdHandler :=
  timerFdHandlerAfter
    (addTimerWithTimerFd allOpen { created := 8, settimeFails := false } 1 1 freshWithTimerFd
      (seconds 5) 0 0 false) freshWithTimerFd

/-- Scenario (built with `WITH_TIMERFD`): after the timer of 5 s a second one of 7 s is added;
`timerfd_create` gives the descriptor 9, the handle is 3. -/
def twoTimerFds : TimerFdHandler :=
  timerFdHandlerAfter
    (addTimerWithTimerFd allOpen { created := 9, settimeFails := false } 1 1 oneTimerFd
      (seconds 7) 0 0 false) oneTimerFd

/-! ## Definitions for the claims on the signals -/

/-- The system `signalfd_siginfo`, of which the signal number is kept. -/
structure signalfd_siginfo where
  ssi_signo : Nat
  deriving DecidableEq, Repr

/-- The size of a `signalfd_siginfo`, 128 bytes. -/
def sizeofSiginfo : Int := 128

/-- The size of the `uint64_t` that a timer descriptor is read into, 8 bytes. -/
def sizeofExpirations : Int := 8

/-- The entry of `mSignalHandlers`, with the members the source uses. -/
structure sh_signal_s where
  handle : Nat
  callback : Option Nat
  userData : Nat
  deriving DecidableEq, Repr

/-- The handler with the members of the signal handling. -/
structure HandlerWithSignals where
  base : CAmSocketHandler
  mSetSignalhandlerKeys : sh_identifier_s
  mSignalHandlers : List sh_signal_s
  mSignalFdHandle : Nat
  deriving DecidableEq

/-- The constructor as far as the signal members go: `mSetSignalhandlerKeys(MAX_POLLHANDLE)`,
`mSignalHandlers()`, `mSignalFdHandle(0)`. -/
def HandlerWithSignals.ctor (fdIsValid : Int → Bool) (MAX_POLLHANDLE MAX_TIMERHANDLE : Nat)
    (pipeRead : Int) : HandlerWithSignals :=
  { base := CAmSocketHandler.ctor fdIsValid MAX_POLLHANDLE MAX_TIMERHANDLE pipeRead
    mSetSignalhandlerKeys := sh_identifier_s.new MAX_POLLHANDLE
    mSignalHandlers := []
    mSignalFdHandle := 0 }

/-- The function `addSignalHandler`; the caller's `handle` comes back as the second component.
`none`: the allocator loop does not end. -/
def addSignalHandler (s : HandlerWithSignals) (callback : Option Nat) (handle : Nat)
    (userData : Nat) : Option (am_Error_e × Nat × HandlerWithSignals) :=
  match nextHandle s.mSetSignalhandlerKeys with
  | none => none
  | some (false, keys) => some (E_NOT_POSSIBLE, handle, { s with mSetSignalhandlerKeys := keys })
  | some (true, keys) =>
    some (E_OK, keys.lastUsedID,
      { s with mSetSignalhandlerKeys := keys
               mSignalHandlers := s.mSignalHandlers ++
                 [{ handle := keys.lastUsedID, callback := callback, userData := userData }] })

/-- The function `removeSignalHandler`. -/
def removeSignalHandler (s : HandlerWithSignals) (handle : Nat) :
    am_Error_e × HandlerWithSignals :=
  let it := scanFor (fun e => e.handle == handle) s.mSignalHandlers
  if it < s.mSignalHandlers.length then
    (E_OK, { s with mSignalHandlers := s.mSignalHandlers.eraseIdx it
                    mSetSignalhandlerKeys :=
                      { s.mSetSignalhandlerKeys with
                        pollHandles := s.mSetSignalhandlerKeys.pollHandles.erase handle } })
  else
    (E_UNKNOWN, s)

/-- The signal callbacks of the user, by number. Each gets the handle, the `signalfd_siginfo`
and the user data, and acts on the handler and on the user's own data. -/
abbrev SignalCode (U : Type) : Type :=
  Nat → Nat → signalfd_siginfo → Nat → CAmSocketHandler → U → Outcome U Unit

/-- One call of a signal callback as the handler makes it: the handle, the `signalfd_siginfo`
and the user data passed. -/
structure SignalCall where
  handle : Nat
  info : signalfd_siginfo
  userData : Nat
  deriving DecidableEq, Repr

/-- The loop `for (auto it : signalHandlers) it.callback(it.handle, info, it.userData);` of the
lambda `actionPoll`, with the record of the calls made. Nothing catches inside the lambda: a
callback that throws, and an empty `std::function`, ends the loop. (A callback that changes
`mSignalHandlers` while the loop walks it is outside this model.) -/
def notifyListeners {U : Type} (sc : SignalCode U) (info : signalfd_siginfo) :
    List sh_signal_s → CAmSocketHandler → U → List SignalCall → Outcome U Unit × List SignalCall
  | [], sh, u, calls => ({ sh := sh, user := u, value := some () }, calls)
  | it :: rest, sh, u, calls =>
    match it.callback with
    | none => ({ sh := sh, user := u, value := none }, calls)
    | some id =>
      let o := sc id it.handle info it.userData sh u
      let calls1 := calls ++ [{ handle := it.handle, info := info, userData := it.userData }]
      match o.value with
      | none => ({ sh := o.sh, user := o.user, value := none }, calls1)
      | some _ => notifyListeners sc info rest o.sh o.user calls1

/-- What `read` on the signal descriptor answers: the returned value and the
`signalfd_siginfo` read. -/
structure SignalRead where
  bytes : Int
  info : signalfd_siginfo

/-- The lambda `actionPoll` of `listenToSignals`: the outcome (`value = none` when a
`std::exception` leaves the lambda) and the record of the calls of signal callbacks made. -/
def signalActionPoll {U : Type} (sc : SignalCode U) (signalHandlers : List sh_signal_s)
    (r : SignalRead) (sh : CAmSocketHandler) (u : U) : Outcome U Unit × List SignalCall :=
  if r.bytes ≠ sizeofSiginfo then ({ sh := sh, user := u, value := none }, [])
  else notifyListeners sc r.info signalHandlers sh u []

/-- The lambda `actionPoll` of `addTimer` when built with `WITH_TIMERFD`; `bytes` is what
`read` on the timer descriptor returns. -/
def timerActionPoll {U : Type} (bytes : Int) (sh : CAmSocketHandler) (u : U) : Outcome U Unit :=
  if bytes ≠ sizeofExpirations then { sh := sh, user := u, value := none }
  else { sh := sh, user := u, value := some () }

/-- What the operating system answers to `listenToSignals`: the values of `sigemptyset`, of
`sigaddset` for each signal, of `sigprocmask` and of `signalfd`. -/
structure SignalOs where
  sigemptyset : Int
  sigaddset : Nat → Int
  sigprocmask : Int
  signalfd : Int

/-- The function `listenToSignals`. The lambda `actionPoll` reads the descriptor, so what it
does is given by the callback table like a user callback: `actionPoll` is its number there.
The counter `addedSignals` is a `uint8_t`. `none`: the allocator loop does not end. -/
def listenToSignals (fdIsValid : Int → Bool) (os : SignalOs) (actionPoll : Nat)
    (s : HandlerWithSignals) (listSignals : List Nat) : Option (am_Error_e × HandlerWithSignals) :=
  if listSignals.length = 0 then some (E_NOT_POSSIBLE, s)
  else if os.sigemptyset ≠ 0 then some (E_NOT_POSSIBLE, s)
  else
    let addedSignals := (listSignals.filter (fun sig => os.sigaddset sig == 0)).length % 256
    if addedSignals = 0 then some (E_NOT_POSSIBLE, s)
    else if os.sigprocmask ≠ 0 then some (E_NOT_POSSIBLE, s)
    else
      let sgPollData := getFDPollData s.base s.mSignalFdHandle sh_poll_s.new
      let s1 : HandlerWithSignals :=
        if s.mSignalFdHandle ≠ 0 ∧ sgPollData.1 ≠ E_OK then { s with mSignalFdHandle := 0 } else s
      if s1.mSignalFdHandle = 0 then
        if os.signalfd = -1 then some (E_NOT_POSSIBLE, s1)
        else
          match addFDPoll fdIsValid s1.base os.signalfd (POLLIN ||| POLLERR ||| POLLHUP) none
              (some (FiredFn.user actionPoll)) (some CheckFn.returnsFalse) none 0
              s1.mSignalFdHandle with
          | none => none
          | some (err, h, base) => some (err, { s1 with base := base, mSignalFdHandle := h })
      else
        if os.signalfd = -1 then some (E_NOT_POSSIBLE, s1) else some (E_OK, s1)

/-- The states of the signal handlers and of their allocator that the handler gets into: the
state the constructor starts from, and whatever calls of `addSignalHandler` and
`removeSignalHandler` make of it, in any order and with any arguments, successful or not. No
other function of the handler writes `mSignalHandlers` or `mSetSignalhandlerKeys`; the last
rule stands for all of them. -/
inductive SignalReachable (MAX_POLLHANDLE : Nat) : HandlerWithSignals → Prop where
  | ctor (s : HandlerWithSignals) :
      s.mSetSignalhandlerKeys = sh_identifier_s.new MAX_POLLHANDLE → s.mSignalHandlers = [] →
      SignalReachable MAX_POLLHANDLE s
  | addSignalHandler (s : HandlerWithSignals) (callback : Option Nat) (handle userData : Nat)
      (r : am_Error_e × Nat × HandlerWithSignals) :
      SignalReachable MAX_POLLHANDLE s →
      addSignalHandler s callback handle userData = some r →
      SignalReachable MAX_POLLHANDLE r.2.2
  | removeSignalHandler (s : HandlerWithSignals) (handle : Nat) :
      SignalReachable MAX_POLLHANDLE s →
      SignalReachable MAX_POLLHANDLE (removeSignalHandler s handle).2
  | other (s t : HandlerWithSignals) :
      SignalReachable MAX_POLLHANDLE s → t.mSetSignalhandlerKeys = s.mSetSignalhandlerKeys →
      t.mSignalHandlers = s.mSignalHandlers → SignalReachable MAX_POLLHANDLE t

/-- What `addSignalHandler` and `removeSignalHandler` keep: the handles of the signal handlers
are pairwise distinct and live in the allocator; the allocator has the limit `L`, its cursor is
below the limit, and while the cursor is on the reserved handle 0 nothing has been allocated. -/
structure SignalInv (L : Nat) (s : HandlerWithSignals) : Prop where
  nodup : (s.mSignalHandlers.map sh_signal_s.handle).Nodup
  live : ∀ e ∈ s.mSignalHandlers, e.handle ∈ s.mSetSignalhandlerKeys.pollHandles
  limit_eq : s.mSetSignalhandlerKeys.limit = L
  cursor_lt : s.mSetSignalhandlerKeys.lastUsedID < L
  cursor_zero : s.mSetSignalhandlerKeys.lastUsedID = 0 → s.mSetSignalhandlerKeys.pollHandles = ∅

/-- The handler after a call of `addSignalHandler` that returns. -/
def signalsAfter (r : Option (am_Error_e × Nat × HandlerWithSignals)) (s : HandlerWithSignals) :
    HandlerWithSignals :=
  match r with
  | some (_, _, t) => t
  | none => s

/-- The handler after a call of `listenToSignals` that returns. -/
def listeningAfter (r : Option (am_Error_e × HandlerWithSignals)) (s : HandlerWithSignals) :
    HandlerWithSignals :=
  match r with
  | some (_, t) => t
  | none => s

/-- Every call of the operating system succeeds, and `signalfd` gives the descriptor 4. -/
def signalsGranted : SignalOs :=
  { sigemptyset := 0, sigaddset := fun _ => 0, sigprocmask := 0, signalfd := 4 }

/-- Scenario: the fresh handler listens to the signal 15; the signal descriptor is 4 and gets
the poll handle 2, and the lambda `actionPoll` is number 0 of the callback table. -/
def listening : HandlerWithSignals :=
  listeningAfter
    (listenToSignals allOpen signalsGranted 0 (HandlerWithSignals.ctor allOpen 65535 65535 3) [15])
    (HandlerWithSignals.ctor allOpen 65535 65535 3)

/-- Scenario: a signal handler is added, with the callback 0 and the user data 10 (handle
1). -/
def oneListener : HandlerWithSignals :=
  signalsAfter (addSignalHandler listening (some 0) 0 10) listening

/-- Scenario: a second signal handler is added, with the callback 1 and the user data 11
(handle 2). -/
def twoListeners : HandlerWithSignals :=
  signalsAfter (addSignalHandler oneListener (some 1) 0 11) oneListener

/-- Signal callbacks of the scenarios: each counts itself in the user's data. -/
def countingSignals : SignalCode Nat :=
  fun _ _ _ _ sh u => { sh := sh, user := u + 1, value := some () }

/-! ## Definitions for the claims on short reads and on the calling thread -/

/-- User code of the scenarios on the descriptors the handler reads itself; the user's data
is the value that `read` returns.

* `firedCB` 0 is the lambda `actionPoll` of `listenToSignals`, no signal handler registered;
  `firedCB` 1 is the lambda `actionPoll` of `addTimer` built with `WITH_TIMERFD`; any other
  `firedCB` calls `stop_listening`.
* `checkCB` returns `false`, as the check lambda of `addTimer` built with `WITH_TIMERFD` does
  after it has called the timer callback.
* the other callbacks do nothing; `dispatchCB` returns `false`. -/
def descriptorCode : UserCode Int where
  prepareCB := fun _ _ _ sh u => { sh := sh, user := u, value := some () }
  firedCB := fun id _ _ _ sh u =>
    match id with
    | 0 =>
      (signalActionPoll (fun _ _ _ _ sh1 u1 => { sh := sh1, user := u1, value := some () }) []
        { bytes := u, info := { ssi_signo := 15 } } sh u).1
    | 1 => timerActionPoll u sh u
    | _ => { sh := stop_listening sh (seconds 0), user := u, value := some () }
  checkCB := fun _ _ _ sh u => { sh := sh, user := u, value := some false }
  dispatchCB := fun _ _ _ sh u => { sh := sh, user := u, value := some false }
  timerCB := fun _ _ _ sh u => { sh := sh, user := u, value := some () }

/-- Scenario of a short read of the signal descriptor: the handler listens to the signal 15
(descriptor 4, poll handle 2), and descriptor 5 is registered after it (poll handle 3) with a
`fired` that calls `stop_listening`. -/
def signalThenStop : CAmSocketHandler :=
  handlerAfter (addFDPoll allOpen listening.base 5 POLLIN none (some (FiredFn.user 2)) none none 0 0)
    listening.base

/-- Scenario of a short read of a timer descriptor (built with `WITH_TIMERFD`): the timer of
5 s is registered (descriptor 8, poll handle 2), and descriptor 5 is registered after it (poll
handle 3) with a `fired` that calls `stop_listening`. -/
def timerThenStop : CAmSocketHandler :=
  handlerAfter
    (addFDPoll allOpen oneTimerFd.base 5 POLLIN none (some (FiredFn.user 2)) none none 0 0)
    oneTimerFd.base

/-- The answer of the operating system when `ppoll` reports the third descriptor of the
polling array readable. -/
def thirdReady : Wake :=
  { correctionClock := { tv_sec := 0, tv_nsec := 0 }
    ppoll := { status := 1, errnoIsEINTR := false, revents := [0, 0, POLLIN] }
    upClock := { tv_sec := 0, tv_nsec := 0 } }

/-- The calls that a run of the loop has made when it ends, by stage and handle. -/
def Run.calls {U : Type} (r : Run (Loop U)) : Option (List (Stage × Nat)) :=
  r.state?.map (fun l => l.log.map Invocation.call)

/-- How a call of a member function ends that the macro `CHECK_CALLER_THREAD_ID` guards, the
assertion being compiled in: the assertion ends the program, or the function runs. -/
inductive Checked (α : Type) where
  | aborted
  | ran (a : α)

/-- The macro `CHECK_CALLER_THREAD_ID()` in front of the rest of a function: the calling thread
is compared with `mThreadID`, the thread that constructed the handler, and `assert(false)` is
hit when they differ. Threads are numbered. -/
def CHECK_CALLER_THREAD_ID {α : Type} (mThreadID caller : Nat) (rest : α) : Checked α :=
  if caller ≠ mThreadID then Checked.aborted else Checked.ran rest

/-- The function `addFDPoll` called on the thread `caller`. -/
def addFDPollOn (mThreadID caller : Nat) (fdIsValid : Int → Bool) (s : CAmSocketHandler)
    (fd : Int) (event : Nat) (prepare : Option Nat) (fired : Option FiredFn)
    (check : Option CheckFn) (dispatch : Option Nat) (userData handle : Nat) :
    Checked (Option (am_Error_e × Nat × CAmSocketHandler)) :=
  CHECK_CALLER_THREAD_ID mThreadID caller
    (addFDPoll fdIsValid s fd event prepare fired check dispatch userData handle)

/-- The function `removeFDPoll` called on the thread `caller`. -/
def removeFDPollOn (mThreadID caller : Nat) (s : CAmSocketHandler) (handle : Nat) :
    Checked (am_Error_e × CAmSocketHandler) :=
  CHECK_CALLER_THREAD_ID mThreadID caller (removeFDPoll s handle)

/-- The function `updateEventFlags` called on the thread `caller`. -/
def updateEventFlagsOn (mThreadID caller : Nat) (s : CAmSocketHandler) (handle events : Nat) :
    Checked (am_Error_e × CAmSocketHandler) :=
  CHECK_CALLER_THREAD_ID mThreadID caller (updateEventFlags s handle events)

/-- The function `addSignalHandler` called on the thread `caller`. -/
def addSignalHandlerOn (mThreadID caller : Nat) (s : HandlerWithSignals)
    (callback : Option Nat) (handle userData : Nat) :
    Checked (Option (am_Error_e × Nat × HandlerWithSignals)) :=
  CHECK_CALLER_THREAD_ID mThreadID caller (addSignalHandler s callback handle userData)

/-- The function `removeSignalHandler` called on the thread `caller`. -/
def removeSignalHandlerOn (mThreadID caller : Nat) (s : HandlerWithSignals) (handle : Nat) :
    Checked (am_Error_e × HandlerWithSignals) :=
  CHECK_CALLER_THREAD_ID mThreadID caller (removeSignalHandler s handle)

/-- The function `listenToSignals` called on the thread `caller`. -/
def listenToSignalsOn (mThreadID caller : Nat) (fdIsValid : Int → Bool) (os : SignalOs)
    (actionPoll : Nat) (s : HandlerWithSignals) (listSignals : List Nat) :
    Checked (Option (am_Error_e × HandlerWithSignals)) :=
  CHECK_CALLER_THREAD_ID mThreadID caller (listenToSignals fdIsValid os actionPoll s listSignals)

/-- The function `addTimer` (the `std::function` overload) called on the thread `caller`. -/
def addTimerOn (mThreadID caller : Nat) (s : CAmSocketHandler) (currentTime timeouts : timespec)
    (callback : Option Nat) (userData handle : Nat) :
    Checked (Option (am_Error_e × Nat × CAmSocketHandler)) :=
  CHECK_CALLER_THREAD_ID mThreadID caller
    (addTimer s currentTime timeouts callback userData handle)

/-- The function `removeTimer` called on the thread `caller`. -/
def removeTimerOn (mThreadID caller : Nat) (s : CAmSocketHandler) (handle : Nat) :
    Checked (am_Error_e × CAmSocketHandler) :=
  CHECK_CALLER_THREAD_ID mThreadID caller (removeTimer s handle)

/-- The function `updateTimer` called on the thread `caller`. -/
def updateTimerOn (mThreadID caller : Nat) (s : CAmSocketHandler) (currentTime : timespec)
    (handle : Nat) (timeouts : timespec) : Checked (am_Error_e × CAmSocketHandler) :=
  CHECK_CALLER_THREAD_ID mThreadID caller (updateTimer s currentTime handle timeouts)

/-- The function `restartTimer` called on the thread `caller`. -/
def restartTimerOn (mThreadID caller : Nat) (s : CAmSocketHandler) (currentTime : timespec)
    (handle : Nat) : Checked (am_Error_e × CAmSocketHandler) :=
  CHECK_CALLER_THREAD_ID mThreadID caller (restartTimer s currentTime handle)

/-- The function `stopTimer` called on the thread `caller`. -/
def stopTimerOn (mThreadID caller : Nat) (s : CAmSocketHandler) (handle : Nat) :
    Checked (am_Error_e × CAmSocketHandler) :=
  CHECK_CALLER_THREAD_ID mThreadID caller (stopTimer s handle)

/-- The function `stop_listening` called on the thread `caller`: its body does not have the
macro, and `exit_mainloop`, which is meant for any thread, starts by calling it. -/
def stop_listeningOn (_mThreadID _caller : Nat) (s : CAmSocketHandler) (currentTime : timespec) :
    Checked CAmSocketHandler :=
  Checked.ran (stop_listening s currentTime)

/-! ## Lemmas -/

theorem scanFor_le {α : Type} (p : α → Bool) (l : List α) : scanFor p l ≤ l.length := by
  induction l with
  | nil => simp [scanFor]
  | cons x xs ih =>
    by_cases hx : p x = true
    · simp [scanFor, hx]
    · simp [scanFor, hx, ih]

theorem scanFor_lt_iff {α : Type} (p : α → Bool) (l : List α) :
    scanFor p l < l.length ↔ ∃ x ∈ l, p x = true := by
  induction l with
  | nil => simp [scanFor]
  | cons x xs ih =>
    by_cases hx : p x = true
    · simp [scanFor, hx]
    · simp [scanFor, hx, ih]

theorem scanFor_eq_length_iff {α : Type} (p : α → Bool) (l : List α) :
    scanFor p l = l.length ↔ ∀ x ∈ l, p x = false := by
  have h1 := scanFor_le p l
  have h2 := scanFor_lt_iff p l
  constructor
  · intro h x hx
    by_contra hc
    have : scanFor p l < l.length := h2.mpr ⟨x, hx, by simpa using hc⟩
    omega
  · intro h
    by_contra hc
    have hlt : scanFor p l < l.length := by omega
    obtain ⟨x, hx, hpx⟩ := h2.mp hlt
    rw [h x hx] at hpx
    exact Bool.noConfusion hpx

theorem map_handle_eraseIdx_scanFor (h : Nat) (l : List sh_poll_s) :
    (l.eraseIdx (scanFor (fun e => e.handle == h) l)).map sh_poll_s.handle
      = (l.map sh_poll_s.handle).erase h := by
  induction l with
  | nil => simp [scanFor]
  | cons x xs ih =>
    by_cases hx : x.handle = h
    · simp [scanFor, hx]
    · have hx2 : (x.handle == h) = false := by simpa using hx
      simp [scanFor, hx2, List.erase_cons, ih]

theorem map_handle_assignFirst (p : sh_poll_s → Bool) (f : sh_poll_s → sh_poll_s)
    (hf : ∀ e, (f e).handle = e.handle) (l : List sh_poll_s) :
    (assignFirst p f l).map sh_poll_s.handle = l.map sh_poll_s.handle := by
  induction l with
  | nil => simp [assignFirst]
  | cons x xs ih =>
    by_cases hx : p x = true
    · simp [assignFirst, hx, hf]
    · simp [assignFirst, hx, ih]

theorem length_assignFirst {α : Type} (p : α → Bool) (f : α → α) (l : List α) :
    (assignFirst p f l).length = l.length := by
  induction l with
  | nil => simp [assignFirst]
  | cons x xs ih =>
    by_cases hx : p x = true
    · simp [assignFirst, hx]
    · simp [assignFirst, hx, ih]

/-- `removeFDPoll` on a handle that is not registered. -/
theorem removeFDPoll_not_registered (s : CAmSocketHandler) (h : Nat)
    (hn : ∀ e ∈ s.mListPoll, e.handle ≠ h) : removeFDPoll s h = (E_UNKNOWN, s) := by
  have hs : scanFor (fun e => e.handle == h) s.mListPoll = s.mListPoll.length := by
    rw [scanFor_eq_length_iff]
    intro x hx
    simpa using hn x hx
  simp [removeFDPoll, hs]

/-- The registry, the live set and the dirty flag after `removeFDPoll` on a registered
handle. -/
theorem removeFDPoll_registered (s : CAmSocketHandler) (h : Nat)
    (hr : ∃ e ∈ s.mListPoll, e.handle = h) :
    (removeFDPoll s h).2.mListPoll
        = s.mListPoll.eraseIdx (scanFor (fun e => e.handle == h) s.mListPoll)
      ∧ (removeFDPoll s h).2.mSetPollKeys
        = { s.mSetPollKeys with pollHandles := s.mSetPollKeys.pollHandles.erase h }
      ∧ (removeFDPoll s h).2.mRecreatePollfds = true := by
  have hs : scanFor (fun e => e.handle == h) s.mListPoll < s.mListPoll.length := by
    rw [scanFor_lt_iff]
    obtain ⟨e, he, heh⟩ := hr
    exact ⟨e, he, by simpa using heh⟩
  unfold removeFDPoll
  simp only [hs, if_true]
  split <;> simp

/-- The value `removeFDPoll` returns: `E_OK` exactly when the first entry with the handle is
followed by another entry. -/
theorem removeFDPoll_eq_OK_iff (s : CAmSocketHandler) (h : Nat) :
    (removeFDPoll s h).1 = E_OK
      ↔ scanFor (fun e => e.handle == h) s.mListPoll + 1 < s.mListPoll.length := by
  have hle := scanFor_le (fun e => e.handle == h) s.mListPoll
  unfold removeFDPoll
  by_cases hs : scanFor (fun e => e.handle == h) s.mListPoll < s.mListPoll.length
  · simp only [hs, if_true]
    split
    · rename_i heq
      simp [List.length_eraseIdx, hs] at heq
      simp
      omega
    · rename_i heq
      simp [List.length_eraseIdx, hs] at heq
      simp
      omega
  · simp only [hs, if_false]
    have : scanFor (fun e => e.handle == h) s.mListPoll = s.mListPoll.length := by omega
    simp [this]



theorem nextHandleLoop_succ (c n : Nat) (k : sh_identifier_s) :
    nextHandleLoop c (n + 1) k =
      if nextCursor k.limit k.lastUsedID = c then
        some (false, { k with lastUsedID := nextCursor k.limit k.lastUsedID })
      else if nextCursor k.limit k.lastUsedID ∈ k.pollHandles then
        nextHandleLoop c n { k with lastUsedID := nextCursor k.limit k.lastUsedID }
      else
        some (true, { k with lastUsedID := nextCursor k.limit k.lastUsedID,
                             pollHandles := insert (nextCursor k.limit k.lastUsedID) k.pollHandles }) := by
  simp only [nextHandleLoop, nextCursor]
  by_cases h : (k.lastUsedID + 1) % handleWidth = k.limit
  · simp [h]
  · simp [h]

/-- What a successful run of the allocator loop returns: a cursor outside the live set it
started with, added to that set; the limit stays. -/
theorem nextHandleLoop_true (c : Nat) :
    ∀ (fuel : Nat) (k k1 : sh_identifier_s), nextHandleLoop c fuel k = some (true, k1) →
      k1.lastUsedID ∉ k.pollHandles
        ∧ k1.pollHandles = insert k1.lastUsedID k.pollHandles ∧ k1.limit = k.limit := by
  intro fuel
  induction fuel with
  | zero => intro k k1 h; simp [nextHandleLoop] at h
  | succ n ih =>
    intro k k1 h
    rw [nextHandleLoop_succ] at h
    by_cases h1 : nextCursor k.limit k.lastUsedID = c
    · simp [h1] at h
    · by_cases h2 : nextCursor k.limit k.lastUsedID ∈ k.pollHandles
      · simp only [h1, h2, if_true, if_false] at h
        simpa using ih _ _ h
      · simp only [h1, h2, if_false, Option.some.injEq, Prod.mk.injEq, true_and] at h
        subst h
        simp [h2]

/-- What a failed run of the allocator loop returns: the record it started with, the cursor
back on the handle the search started from. -/
theorem nextHandleLoop_false (c : Nat) :
    ∀ (fuel : Nat) (k k1 : sh_identifier_s), nextHandleLoop c fuel k = some (false, k1) →
      k1 = { k with lastUsedID := c } := by
  intro fuel
  induction fuel with
  | zero => intro k k1 h; simp [nextHandleLoop] at h
  | succ n ih =>
    intro k k1 h
    rw [nextHandleLoop_succ] at h
    by_cases h1 : nextCursor k.limit k.lastUsedID = c
    · simp only [h1, if_true, Option.some.injEq, Prod.mk.injEq, true_and] at h
      exact h.symm
    · by_cases h2 : nextCursor k.limit k.lastUsedID ∈ k.pollHandles
      · simp only [h1, h2, if_true, if_false] at h
        simpa using ih _ _ h
      · simp [h1, h2] at h

theorem nextHandle_false (k k1 : sh_identifier_s) (h : nextHandle k = some (false, k1)) :
    k1 = k := by
  have := nextHandleLoop_false _ _ _ _ h
  simpa using this

theorem nextCursor_range (L x : Nat) (hL : 2 ≤ L) (h16 : L ≤ 65535) (hx : x < L) :
    1 ≤ nextCursor L x ∧ nextCursor L x < L
      ∧ nextCursor L x = (if x + 1 = L then 1 else x + 1) := by
  unfold nextCursor handleWidth
  have hm : (x + 1) % 65536 = x + 1 := Nat.mod_eq_of_lt (by omega)
  rw [hm]
  by_cases h : x + 1 = L
  · simp [h]; omega
  · simp [h]; omega

/-- The cursor of a successful run lies in `[1, limit - 1]`. -/
theorem nextHandleLoop_true_range (c L : Nat) (hL : 2 ≤ L) (h16 : L ≤ 65535) :
    ∀ (fuel : Nat) (k k1 : sh_identifier_s), k.limit = L → k.lastUsedID < L →
      nextHandleLoop c fuel k = some (true, k1) → 1 ≤ k1.lastUsedID ∧ k1.lastUsedID < L := by
  intro fuel
  induction fuel with
  | zero => intro k k1 _ _ h; simp [nextHandleLoop] at h
  | succ n ih =>
    intro k k1 hl hx h
    rw [nextHandleLoop_succ] at h
    have hr := nextCursor_range L k.lastUsedID hL h16 hx
    rw [hl] at h
    by_cases h1 : nextCursor L k.lastUsedID = c
    · simp [h1] at h
    · by_cases h2 : nextCursor L k.lastUsedID ∈ k.pollHandles
      · simp only [h1, h2, if_true, if_false] at h
        exact ih _ _ rfl hr.2.1 h
      · simp only [h1, h2, if_false, Option.some.injEq, Prod.mk.injEq, true_and] at h
        subst h
        exact ⟨hr.1, hr.2.1⟩

/-- The allocator loop ends: from a cursor `x` in `[1, limit - 1]`, searching from a handle `c` in
that range, it takes no more rounds than there are steps from `x` round to `c`. -/
theorem nextHandleLoop_ends (c L : Nat) (hL : 2 ≤ L) (h16 : L ≤ 65535) (hc1 : 1 ≤ c) (hc : c < L) :
    ∀ (n fuel : Nat) (k : sh_identifier_s), k.limit = L → 1 ≤ k.lastUsedID → k.lastUsedID < L →
      (if k.lastUsedID < c then c - k.lastUsedID else L - 1 - k.lastUsedID + c) ≤ n → n ≤ fuel →
      ∃ r, nextHandleLoop c fuel k = some r := by
  intro n
  induction n with
  | zero =>
    intro fuel k _ h1 h2 hn _
    split at hn <;> omega
  | succ n ih =>
    intro fuel k hl hx1 hx hn hf
    obtain ⟨f, rfl⟩ : ∃ f, fuel = f + 1 := ⟨fuel - 1, by omega⟩
    rw [nextHandleLoop_succ]
    have hr := nextCursor_range L k.lastUsedID hL h16 hx
    rw [hl]
    by_cases h1 : nextCursor L k.lastUsedID = c
    · simp [h1]
    · by_cases h2 : nextCursor L k.lastUsedID ∈ k.pollHandles
      · simp only [h1, h2, if_true, if_false]
        refine ih f _ rfl hr.1 hr.2.1 ?_ (by omega)
        simp only
        rw [hr.2.2] at h1 ⊢
        by_cases hw : k.lastUsedID + 1 = L
        · simp only [hw, if_true] at h1 ⊢
          have hxc : ¬ k.lastUsedID < c := by omega
          simp only [hxc, if_false] at hn
          have h1c : 1 < c := by omega
          simp only [h1c, if_true]
          omega
        · simp only [hw, if_false] at h1 ⊢
          by_cases hxc : k.lastUsedID < c
          · simp only [hxc, if_true] at hn
            have hlt : k.lastUsedID + 1 < c := by omega
            simp only [hlt, if_true]
            omega
          · simp only [hxc, if_false] at hn
            have hlt : ¬ k.lastUsedID + 1 < c := by omega
            simp only [hlt, if_false]
            omega
      · simp [h1, h2]




/-- What `addFDPoll` does, by the three ways it ends. -/
theorem addFDPoll_cases (fdIsValid : Int → Bool) (s : CAmSocketHandler) (fd : Int) (event : Nat)
    (prepare : Option Nat) (fired : Option FiredFn) (check : Option CheckFn)
    (dispatch : Option Nat) (userData handle : Nat) (r : am_Error_e × Nat × CAmSocketHandler)
    (h : addFDPoll fdIsValid s fd event prepare fired check dispatch userData handle = some r) :
    (fdIsValid fd = false ∧ r = (E_NON_EXISTENT, handle, s))
    ∨ (fdIsValid fd = true ∧ nextHandle s.mSetPollKeys = some (false, s.mSetPollKeys)
        ∧ r = (E_NOT_POSSIBLE, handle, s))
    ∨ (fdIsValid fd = true ∧ ∃ keys, nextHandle s.mSetPollKeys = some (true, keys)
        ∧ r = (E_OK, keys.lastUsedID,
            { s with mSetPollKeys := keys
                     mListPoll := s.mListPoll ++
                       [{ isValid := true, handle := keys.lastUsedID
                          pollfdValue := { fd := fd, events := event, revents := 0 }
                          prepareCB := prepare, firedCB := fired, checkCB := check
                          dispatchCB := dispatch, userData := userData }]
                     mRecreatePollfds := true })) := by
  unfold addFDPoll at h
  by_cases hv : fdIsValid fd = true
  · simp only [hv, Bool.not_true, Bool.false_eq_true, if_false] at h
    cases hn : nextHandle s.mSetPollKeys with
    | none => simp [hn] at h
    | some p =>
      obtain ⟨b, keys⟩ := p
      cases b with
      | false =>
        have hk := nextHandle_false _ _ hn
        subst hk
        simp only [hn, Option.some.injEq] at h
        right; left
        exact ⟨hv, rfl, h.symm⟩
      | true =>
        simp only [hn, Option.some.injEq] at h
        right; right
        exact ⟨hv, keys, rfl, by rw [← h]; rfl⟩
  · have hv2 : fdIsValid fd = false := by simpa using hv
    simp only [hv2, Bool.not_false, if_true, Option.some.injEq] at h
    left
    exact ⟨hv2, h.symm⟩

theorem registryInv_of_reachable (L : Nat) (s : CAmSocketHandler) (hs : PollReachable L s) :
    RegistryInv s := by
  induction hs with
  | ctor s h1 h2 => exact ⟨by simp [h2], by simp [h2]⟩
  | addFDPoll fdIsValid s fd event prepare fired check dispatch userData handle r _ hr ih =>
    rcases addFDPoll_cases _ _ _ _ _ _ _ _ _ _ _ hr with ⟨_, rfl⟩ | ⟨_, _, rfl⟩ | ⟨_, keys, hk, rfl⟩
    · exact ih
    · exact ih
    · have ht := nextHandleLoop_true _ _ _ _ hk
      constructor
      · simp only [List.map_append, List.map_cons, List.map_nil]
        rw [List.nodup_append]
        refine ⟨ih.nodup, by simp, ?_⟩
        intro a ha hb
        simp only [List.mem_singleton] at hb
        subst hb
        obtain ⟨e, he, hea⟩ := List.mem_map.mp ha
        exact ht.1 (hea ▸ ih.live e he)
      · intro e he
        simp only [List.mem_append, List.mem_singleton] at he
        rw [ht.2.1]
        rcases he with he | he
        · exact Finset.mem_insert_of_mem (ih.live e he)
        · subst he
          exact Finset.mem_insert_self _ _
  | removeFDPoll s handle _ ih =>
    by_cases hr : ∃ e ∈ s.mListPoll, e.handle = handle
    · obtain ⟨h1, h2, _⟩ := removeFDPoll_registered s handle hr
      have hmap := map_handle_eraseIdx_scanFor handle s.mListPoll
      constructor
      · rw [h1, hmap]
        exact ih.nodup.erase _
      · intro e he
        rw [h1] at he
        have hmem : e.handle ∈ (s.mListPoll.map sh_poll_s.handle).erase handle := by
          rw [← hmap]
          exact List.mem_map_of_mem _ he
        rw [h2]
        have hne : e.handle ≠ handle := fun hc => by
          rw [hc] at hmem
          exact (List.Nodup.not_mem_erase ih.nodup) hmem
        have hin : e.handle ∈ s.mListPoll.map sh_poll_s.handle := List.mem_of_mem_erase hmem
        obtain ⟨e2, he2, heq⟩ := List.mem_map.mp hin
        simp only [Finset.mem_erase]
        exact ⟨hne, heq ▸ ih.live e2 he2⟩
    · have hn : ∀ e ∈ s.mListPoll, e.handle ≠ handle := fun e he hc => hr ⟨e, he, hc⟩
      rw [removeFDPoll_not_registered s handle hn]
      exact ih
  | updateEventFlags s handle events _ ih =>
    unfold updateEventFlags
    split
    · have hmap := map_handle_assignFirst (fun e => e.handle == handle)
        (fun e => { e with pollfdValue := { e.pollfdValue with events := events } })
        (fun _ => rfl) s.mListPoll
      constructor
      · simp only [hmap]
        exact ih.nodup
      · intro e he
        have : e.handle ∈ s.mListPoll.map sh_poll_s.handle := by
          rw [← hmap]
          exact List.mem_map_of_mem _ he
        obtain ⟨e2, he2, heq⟩ := List.mem_map.mp this
        exact heq ▸ ih.live e2 he2
    · exact ih
  | other s t _ h1 h2 ih =>
    exact ⟨by rw [h2]; exact ih.nodup, by rw [h1, h2]; exact ih.live⟩

theorem cursorInv_of_reachable (L : Nat) (hL : 2 ≤ L) (h16 : L ≤ 65535) (s : CAmSocketHandler)
    (hs : PollReachable L s) : CursorInv L s := by
  induction hs with
  | ctor s h1 h2 =>
    refine ⟨by simp [h1, sh_identifier_s.new], by simp [h1, sh_identifier_s.new]; omega, ?_⟩
    intro _
    simp [h1, sh_identifier_s.new]
  | addFDPoll fdIsValid s fd event prepare fired check dispatch userData handle r _ hr ih =>
    rcases addFDPoll_cases _ _ _ _ _ _ _ _ _ _ _ hr with ⟨_, rfl⟩ | ⟨_, _, rfl⟩ | ⟨_, keys, hk, rfl⟩
    · exact ih
    · exact ih
    · have ht := nextHandleLoop_true _ _ _ _ hk
      have hr := nextHandleLoop_true_range _ L hL h16 _ _ _ ih.limit_eq ih.cursor_lt hk
      refine ⟨by simp only; rw [ht.2.2]; exact ih.limit_eq, hr.2, ?_⟩
      intro h0
      simp only at h0
      omega
  | removeFDPoll s handle _ ih =>
    by_cases hr : ∃ e ∈ s.mListPoll, e.handle = handle
    · obtain ⟨_, h2, _⟩ := removeFDPoll_registered s handle hr
      refine ⟨by rw [h2]; exact ih.limit_eq, by rw [h2]; exact ih.cursor_lt, ?_⟩
      intro h0
      rw [h2] at h0 ⊢
      simp only at h0 ⊢
      rw [ih.cursor_zero h0]
      rfl
    · have hn : ∀ e ∈ s.mListPoll, e.handle ≠ handle := fun e he hc => hr ⟨e, he, hc⟩
      rw [removeFDPoll_not_registered s handle hn]
      exact ih
  | updateEventFlags s handle events _ ih =>
    unfold updateEventFlags
    split
    · exact ⟨ih.limit_eq, ih.cursor_lt, ih.cursor_zero⟩
    · exact ih
  | other s t _ h1 h2 ih =>
    exact ⟨by rw [h1]; exact ih.limit_eq, by rw [h1]; exact ih.cursor_lt,
      by rw [h1]; exact ih.cursor_zero⟩

/-- In a state the handler gets into, the allocator loop of the poll handles ends. -/
theorem nextHandle_ends_of_reachable (L : Nat) (hL : 2 ≤ L) (h16 : L ≤ 65535)
    (s : CAmSocketHandler) (hs : PollReachable L s) : ∃ r, nextHandle s.mSetPollKeys = some r := by
  have hc := cursorInv_of_reachable L hL h16 s hs
  unfold nextHandle
  by_cases h0 : s.mSetPollKeys.lastUsedID = 0
  · have he := hc.cursor_zero h0
    have hstep := nextHandleLoop_succ s.mSetPollKeys.lastUsedID 65535 s.mSetPollKeys
    have hr := nextCursor_range L s.mSetPollKeys.lastUsedID hL h16 hc.cursor_lt
    rw [hc.limit_eq] at hstep
    have h1 : ¬ nextCursor L s.mSetPollKeys.lastUsedID = s.mSetPollKeys.lastUsedID := by omega
    have h2 : nextCursor L s.mSetPollKeys.lastUsedID ∉ s.mSetPollKeys.pollHandles := by
      rw [he]; simp
    simp only [h1, h2, if_false] at hstep
    exact ⟨_, hstep⟩
  · exact nextHandleLoop_ends _ L hL h16 (by omega) hc.cursor_lt (L - 1) handleWidth _
      hc.limit_eq (by omega) hc.cursor_lt (by have := hc.cursor_lt; simp; omega)
      (by unfold handleWidth; omega)


/-- The result of `addFDPoll` when the descriptor is valid and the allocator hands out a
handle. -/
theorem addFDPoll_of_alloc (fdIsValid : Int → Bool) (s : CAmSocketHandler) (fd : Int)
    (event : Nat) (prepare : Option Nat) (fired : Option FiredFn) (check : Option CheckFn)
    (dispatch : Option Nat) (userData handle : Nat) (keys : sh_identifier_s)
    (hfd : fdIsValid fd = true) (halloc : nextHandle s.mSetPollKeys = some (true, keys)) :
    addFDPoll fdIsValid s fd event prepare fired check dispatch userData handle
      = some (E_OK, keys.lastUsedID,
          { s with mSetPollKeys := keys
                   mListPoll := s.mListPoll ++
                     [{ isValid := true, handle := keys.lastUsedID
                        pollfdValue := { fd := fd, events := event, revents := 0 }
                        prepareCB := prepare, firedCB := fired, checkCB := check
                        dispatchCB := dispatch, userData := userData }]
                   mRecreatePollfds := true }) := by
  simp only [addFDPoll, hfd, halloc]
  rfl

/-- The handler after `addFDPoll` is a state the handler gets into. -/
theorem reachable_handlerAfter (L : Nat) (fdIsValid : Int → Bool) (s : CAmSocketHandler) (fd : Int)
    (event : Nat) (prepare : Option Nat) (fired : Option FiredFn) (check : Option CheckFn)
    (dispatch : Option Nat) (userData handle : Nat) (hs : PollReachable L s) :
    PollReachable L
      (handlerAfter (addFDPoll fdIsValid s fd event prepare fired check dispatch userData handle)
        s) := by
  cases h : addFDPoll fdIsValid s fd event prepare fired check dispatch userData handle with
  | none => exact hs
  | some r =>
    obtain ⟨a, b, c⟩ := r
    exact PollReachable.addFDPoll fdIsValid s fd event prepare fired check dispatch userData
      handle (a, b, c) hs h

/-- The constructed handler is a state the handler gets into. -/
theorem reachable_ctor (fdIsValid : Int → Bool) (L T : Nat) (pipeRead : Int) :
    PollReachable L (CAmSocketHandler.ctor fdIsValid L T pipeRead) :=
  reachable_handlerAfter L fdIsValid _ _ _ _ _ _ _ _ _ (PollReachable.ctor _ rfl rfl)

/-- The scenario `plainLast` is a state the handler gets into. -/
theorem reachable_plainLast : PollReachable 65535 plainLast :=
  reachable_handlerAfter 65535 allOpen _ _ _ _ _ _ _ _ _ (reachable_ctor allOpen 65535 65535 3)

/-- The scenario `exhausted` is a state the handler gets into. -/
theorem reachable_exhausted : PollReachable 3 exhausted :=
  reachable_handlerAfter 3 allOpen _ _ _ _ _ _ _ _ _ (reachable_ctor allOpen 3 3 3)

/-- The function `updateTimer` on a handle that is not a registered timer: `E_NON_EXISTENT`,
nothing changes. -/
theorem updateTimer_not_registered (s : CAmSocketHandler) (currentTime : timespec) (handle : Nat)
    (timeouts : timespec) (hn : ∀ t ∈ s.mListTimer, t.handle ≠ handle) :
    updateTimer s currentTime handle timeouts = (E_NON_EXISTENT, s) := by
  have hf : s.mListTimer.find? (fun t => t.handle == handle) = none := by
    rw [List.find?_eq_none]
    intro t ht
    simpa using hn t ht
  simp only [updateTimer, hf]

/-- The function `restartTimer` on a handle that is not a registered timer: `E_NON_EXISTENT`,
nothing changes. -/
theorem restartTimer_not_registered (s : CAmSocketHandler) (currentTime : timespec) (handle : Nat)
    (hn : ∀ t ∈ s.mListTimer, t.handle ≠ handle) :
    restartTimer s currentTime handle = (E_NON_EXISTENT, s) := by
  have hf : s.mListTimer.find? (fun t => t.handle == handle) = none := by
    rw [List.find?_eq_none]
    intro t ht
    simpa using hn t ht
  simp only [restartTimer, hf]

/-- The function `noDispatching` on a snapshot entry with `isValid == false`: the entry is
dropped and no callback is called. -/
theorem noDispatching_of_invalid {U : Type} (uc : UserCode U) (i : Nat) (l : Loop U)
    (a : sh_poll_s) (ha : l.sh.mListActivePolls[i]? = some a) (hv : a.isValid = false) :
    noDispatching uc i l = (some true, l) := by
  unfold noDispatching
  rw [ha]
  cases hc : a.checkCB with
  | none => simp [hc]
  | some fn => simp [hc, hv]

/-- The function `dispatchingFinished` on a snapshot entry with `isValid == false`: the entry is
dropped and no callback is called. -/
theorem dispatchingFinished_of_invalid {U : Type} (uc : UserCode U) (i : Nat) (l : Loop U)
    (a : sh_poll_s) (ha : l.sh.mListActivePolls[i]? = some a) (hv : a.isValid = false) :
    dispatchingFinished uc i l = (some true, l) := by
  unfold dispatchingFinished
  rw [ha]
  cases hc : a.dispatchCB with
  | none => simp [hc]
  | some fn => simp [hc, hv]

/-! ## Lemmas on the registry and the allocator, continued -/

theorem scanFor_append_of_last {α : Type} (p : α → Bool) (l : List α) (x : α)
    (hl : ∀ y ∈ l, p y = false) (hx : p x = true) : scanFor p (l ++ [x]) = l.length := by
  induction l with
  | nil => simp [scanFor, hx]
  | cons y ys ih =>
    have hy : p y = false := hl y (List.mem_cons_self _ _)
    have hys : ∀ z ∈ ys, p z = false := fun z hz => hl z (List.mem_cons_of_mem _ hz)
    simp [scanFor, hy, ih hys]

theorem eraseIdx_append_singleton {α : Type} (l : List α) (x : α) :
    (l ++ [x]).eraseIdx l.length = l := by
  induction l with
  | nil => rfl
  | cons y ys ih => simp [ih]



theorem liveInv_of_reachable (L : Nat) (hL : 2 ≤ L) (h16 : L ≤ 65535) (s : CAmSocketHandler)
    (hs : PollReachable L s) : LiveInv s := by
  induction hs with
  | ctor s h1 h2 =>
    constructor <;> intro x hx <;> simp [h1, sh_identifier_s.new] at hx
  | addFDPoll fdIsValid s fd event prepare fired check dispatch userData handle r hs0 hr ih =>
    rcases addFDPoll_cases _ _ _ _ _ _ _ _ _ _ _ hr with ⟨_, rfl⟩ | ⟨_, _, rfl⟩ | ⟨_, keys, hk, rfl⟩
    · exact ih
    · exact ih
    · have ht := nextHandleLoop_true _ _ _ _ hk
      have hcur := cursorInv_of_reachable L hL h16 s hs0
      have hrg := nextHandleLoop_true_range _ L hL h16 _ _ _ hcur.limit_eq hcur.cursor_lt hk
      constructor
      · intro x hx
        simp only [ht.2.1, Finset.mem_insert] at hx
        rcases hx with hx | hx
        · exact ⟨_, List.mem_append_right _ (List.mem_singleton_self _), hx.symm⟩
        · obtain ⟨e, he, hex⟩ := ih.registered x hx
          exact ⟨e, List.mem_append_left _ he, hex⟩
      · intro x hx
        simp only [ht.2.1, Finset.mem_insert] at hx
        rcases hx with hx | hx
        · rw [hx]; exact hrg.1
        · exact ih.nonzero x hx
  | removeFDPoll s handle _ ih =>
    by_cases hr : ∃ e ∈ s.mListPoll, e.handle = handle
    · obtain ⟨h1, h2, _⟩ := removeFDPoll_registered s handle hr
      have hmap := map_handle_eraseIdx_scanFor handle s.mListPoll
      constructor
      · intro x hx
        rw [h2] at hx
        simp only [Finset.mem_erase] at hx
        obtain ⟨e, he, hex⟩ := ih.registered x hx.2
        have hmem : x ∈ (s.mListPoll.map sh_poll_s.handle).erase handle :=
          (List.mem_erase_of_ne hx.1).mpr (hex ▸ List.mem_map_of_mem _ he)
        rw [← hmap] at hmem
        obtain ⟨e2, he2, hex2⟩ := List.mem_map.mp hmem
        exact ⟨e2, by rw [h1]; exact he2, hex2⟩
      · intro x hx
        rw [h2] at hx
        simp only [Finset.mem_erase] at hx
        exact ih.nonzero x hx.2
    · have hn : ∀ e ∈ s.mListPoll, e.handle ≠ handle := fun e he hc => hr ⟨e, he, hc⟩
      rw [removeFDPoll_not_registered s handle hn]
      exact ih
  | updateEventFlags s handle events _ ih =>
    unfold updateEventFlags
    split
    · have hmap := map_handle_assignFirst (fun e => e.handle == handle)
        (fun e => { e with pollfdValue := { e.pollfdValue with events := events } })
        (fun _ => rfl) s.mListPoll
      constructor
      · intro x hx
        obtain ⟨e, he, hex⟩ := ih.registered x hx
        have hmem : x ∈ s.mListPoll.map sh_poll_s.handle := hex ▸ List.mem_map_of_mem _ he
        rw [← hmap] at hmem
        obtain ⟨e2, he2, hex2⟩ := List.mem_map.mp hmem
        exact ⟨e2, he2, hex2⟩
      · exact ih.nonzero
    · exact ih
  | other s t _ h1 h2 ih =>
    exact ⟨by rw [h1, h2]; exact ih.registered, by rw [h1]; exact ih.nonzero⟩

/-- The first registry entry with a handle, as `getFDPollData` finds it, splits the registry. -/
theorem find_split (h : Nat) (l : List sh_poll_s) (e0 : sh_poll_s)
    (hf : l.find? (fun e => e.handle == h) = some e0) :
    ∃ pre post, l = pre ++ e0 :: post ∧ e0.handle = h ∧ (∀ x ∈ pre, x.handle ≠ h) := by
  induction l with
  | nil => simp at hf
  | cons y ys ih =>
    by_cases hy : y.handle = h
    · have : (y.handle == h) = true := by simpa using hy
      simp only [List.find?, this, Option.some.injEq] at hf
      subst hf
      exact ⟨[], ys, rfl, hy, by simp⟩
    · have hyb : (y.handle == h) = false := by simpa using hy
      simp only [List.find?, hyb] at hf
      obtain ⟨pre, post, h1, h2, h3⟩ := ih hf
      refine ⟨y :: pre, post, by rw [h1]; rfl, h2, ?_⟩
      intro x hx
      rcases List.mem_cons.mp hx with hx | hx
      · rw [hx]; exact hy
      · exact h3 x hx

theorem assignFirst_split (h : Nat) (f : sh_poll_s → sh_poll_s) (pre post : List sh_poll_s)
    (e0 : sh_poll_s) (he : e0.handle = h) (hpre : ∀ x ∈ pre, x.handle ≠ h) :
    assignFirst (fun e => e.handle == h) f (pre ++ e0 :: post) = pre ++ f e0 :: post := by
  induction pre with
  | nil => simp [assignFirst, he]
  | cons y ys ih =>
    have hy : (y.handle == h) = false := by simpa using hpre y (List.mem_cons_self _ _)
    have := ih (fun x hx => hpre x (List.mem_cons_of_mem _ hx))
    simp [assignFirst, hy, this]

theorem find_of_split (h : Nat) (pre post : List sh_poll_s) (e0 : sh_poll_s) (he : e0.handle = h)
    (hpre : ∀ x ∈ pre, x.handle ≠ h) :
    (pre ++ e0 :: post).find? (fun e => e.handle == h) = some e0 := by
  induction pre with
  | nil => simp [List.find?, he]
  | cons y ys ih =>
    have hy : (y.handle == h) = false := by simpa using hpre y (List.mem_cons_self _ _)
    have := ih (fun x hx => hpre x (List.mem_cons_of_mem _ hx))
    simp only [List.cons_append, List.find?, hy]
    exact this

/-- A successful run of the allocator loop does not end on the handle the search started
from. -/
theorem nextHandleLoop_true_ne (c : Nat) :
    ∀ (fuel : Nat) (k k1 : sh_identifier_s), nextHandleLoop c fuel k = some (true, k1) →
      k1.lastUsedID ≠ c := by
  intro fuel
  induction fuel with
  | zero => intro k k1 h; simp [nextHandleLoop] at h
  | succ n ih =>
    intro k k1 h
    rw [nextHandleLoop_succ] at h
    by_cases h1 : nextCursor k.limit k.lastUsedID = c
    · simp [h1] at h
    · by_cases h2 : nextCursor k.limit k.lastUsedID ∈ k.pollHandles
      · simp only [h1, h2, if_true, if_false] at h
        exact ih _ _ h
      · simp only [h1, h2, if_false, Option.some.injEq, Prod.mk.injEq, true_and] at h
        subst h
        exact h1

/-- The allocator fails when the only free id is the one its cursor is on: for a cursor `c`
in `[1, L-1]` and every other id of `[1, L-1]` live, `nextHandle` returns `false`, whether `c`
is live or not. -/
theorem nextHandle_false_of_others_live (L : Nat) (hL : 2 ≤ L) (h16 : L ≤ 65535)
    (k : sh_identifier_s) (hl : k.limit = L) (hc1 : 1 ≤ k.lastUsedID) (hc : k.lastUsedID < L)
    (hfull : ∀ i, 1 ≤ i → i < L → i ≠ k.lastUsedID → i ∈ k.pollHandles) :
    nextHandle k = some (false, k) := by
  obtain ⟨⟨b, k1⟩, hr⟩ := nextHandleLoop_ends k.lastUsedID L hL h16 hc1 hc (L - 1) handleWidth k hl
    hc1 hc (by simp; omega) (by unfold handleWidth; omega)
  cases b with
  | false =>
    have := nextHandle_false k k1 hr
    subst this
    exact hr
  | true =>
    have h1 := nextHandleLoop_true _ _ _ _ hr
    have h2 := nextHandleLoop_true_range _ L hL h16 _ _ _ hl hc hr
    have h3 := nextHandleLoop_true_ne _ _ _ _ hr
    exact absurd (hfull _ h2.1 h2.2 h3) h1.1

/-- The allocator loop finds the first free id of the cyclic sequence: when it succeeds from
the cursor `x`, searching from `c`, its result is the first id outside the live set among
the ids after `x`, however many of them are taken, as long as they reach round to `c`. -/
theorem nextHandleLoop_first_free (c L : Nat) (S : Finset Nat) (hL : 2 ≤ L) (h16 : L ≤ 65535)
    (hc1 : 1 ≤ c) (hc : c < L) :
    ∀ (fuel x : Nat) (k1 : sh_identifier_s), 1 ≤ x → x < L →
      nextHandleLoop c fuel { pollHandles := S, limit := L, lastUsedID := x } = some (true, k1) →
      ∀ m, (if x < c then c - x else L - 1 - x + c) ≤ m →
        (cyclicSeq L x m).find? (fun i => decide (i ∉ S)) = some k1.lastUsedID := by
  intro fuel
  induction fuel with
  | zero => intro x k1 _ _ h; simp [nextHandleLoop] at h
  | succ n ih =>
    intro x k1 hx1 hx h m hm
    rw [nextHandleLoop_succ] at h
    have hr := nextCursor_range L x hL h16 hx
    simp only at h
    have hy : nextCursor L x = cyclicSucc L x := by rw [hr.2.2]; rfl
    rw [hy] at h hr
    obtain ⟨m1, rfl⟩ : ∃ m1, m = m1 + 1 := ⟨m - 1, by split at hm <;> omega⟩
    by_cases h1 : cyclicSucc L x = c
    · simp [h1] at h
    · by_cases h2 : cyclicSucc L x ∈ S
      · simp only [h1, h2, if_true, if_false] at h
        have hrec := ih (cyclicSucc L x) k1 hr.1 hr.2.1 h m1 (by
          have h3 := hr.2.2
          by_cases hw : x + 1 = L
          · simp only [hw, if_true] at h3
            rw [h3] at h1 ⊢
            have hxc : ¬ x < c := by omega
            simp only [hxc, if_false] at hm
            have h1c : 1 < c := by omega
            simp only [h1c, if_true]
            omega
          · simp only [hw, if_false] at h3
            rw [h3] at h1 ⊢
            by_cases hxc : x < c
            · simp only [hxc, if_true] at hm
              have hlt : x + 1 < c := by omega
              simp only [hlt, if_true]
              omega
            · simp only [hxc, if_false] at hm
              have hlt : ¬ x + 1 < c := by omega
              simp only [hlt, if_false]
              omega)
        simp only [cyclicSeq, List.find?, h2, not_true_eq_false, decide_False]
        exact hrec
      · simp only [h1, h2, if_false, Option.some.injEq, Prod.mk.injEq, true_and] at h
        subst h
        simp [cyclicSeq, List.find?, h2]

/-- From an empty live set the allocator succeeds, when the limit is at least 3. -/
theorem nextHandle_of_empty (L : Nat) (hL : 3 ≤ L) (h16 : L ≤ 65535) (k : sh_identifier_s)
    (hl : k.limit = L) (he : k.pollHandles = ∅) (hc : k.lastUsedID < L) :
    nextHandle k
      = some (true, { pollHandles := {cyclicSucc L k.lastUsedID}, limit := L
                      lastUsedID := cyclicSucc L k.lastUsedID })
      ∧ cyclicSucc L k.lastUsedID < L := by
  have hr := nextCursor_range L k.lastUsedID (by omega) h16 hc
  have hy : nextCursor L k.lastUsedID = cyclicSucc L k.lastUsedID := by rw [hr.2.2]; rfl
  have hstep := nextHandleLoop_succ k.lastUsedID 65535 k
  rw [hl, hy] at hstep
  rw [hy] at hr
  have h1 : ¬ cyclicSucc L k.lastUsedID = k.lastUsedID := by
    have h3 := hr.2.2
    split at h3 <;> omega
  have h2 : cyclicSucc L k.lastUsedID ∉ k.pollHandles := by rw [he]; simp
  simp only [h1, h2, if_false] at hstep
  refine ⟨?_, hr.2.1⟩
  unfold nextHandle handleWidth
  rw [hstep, he]
  rfl

/-- One pair of the exhaustion experiment, from an empty live set. -/
theorem allocateThenErase_of_empty (L : Nat) (hL : 3 ≤ L) (h16 : L ≤ 65535)
    (k : sh_identifier_s) (hl : k.limit = L) (he : k.pollHandles = ∅) (hc : k.lastUsedID < L) :
    ∃ k1, allocateThenErase k = some k1 ∧ k1.limit = L ∧ k1.pollHandles = ∅
      ∧ k1.lastUsedID < L := by
  obtain ⟨h1, h2⟩ := nextHandle_of_empty L hL h16 k hl he hc
  have h3 : allocateThenErase k
      = some { pollHandles :=
                 ({cyclicSucc L k.lastUsedID} : Finset Nat).erase (cyclicSucc L k.lastUsedID),
               limit := L, lastUsedID := cyclicSucc L k.lastUsedID } := by
    simp only [allocateThenErase, h1]
  exact ⟨_, h3, rfl, by simp, h2⟩

theorem stopTimer_mListTimer (s : CAmSocketHandler) (handle : Nat) :
    (stopTimer s handle).2.mListTimer = s.mListTimer
      ∧ (stopTimer s handle).2.mSetTimerKeys = s.mSetTimerKeys := by
  unfold stopTimer
  simp only
  split <;> exact ⟨rfl, rfl⟩

/-- The value `removeTimer` returns in the list backend: `E_OK` exactly when a timer with the
handle is registered, `E_UNKNOWN` otherwise. -/
theorem removeTimer_eq_OK_iff (s : CAmSocketHandler) (handle : Nat) :
    ((removeTimer s handle).1 = E_OK ↔ ∃ t ∈ s.mListTimer, t.handle = handle)
      ∧ ((removeTimer s handle).1 = E_OK ∨ (removeTimer s handle).1 = E_UNKNOWN) := by
  have h1 := (stopTimer_mListTimer s handle).1
  have h2 := scanFor_lt_iff (fun t : sh_timer_s => t.handle == handle) s.mListTimer
  unfold removeTimer
  simp only [h1]
  by_cases hlt : scanFor (fun t : sh_timer_s => t.handle == handle) s.mListTimer
      < s.mListTimer.length
  · simp only [hlt, if_true, true_iff, true_or, and_true]
    obtain ⟨t, ht, hth⟩ := h2.mp hlt
    exact ⟨t, ht, by simpa using hth⟩
  · simp only [hlt, if_false, or_true, and_true]
    constructor
    · intro h; exact absurd h (by decide)
    · rintro ⟨t, ht, hth⟩
      exact absurd (h2.mpr ⟨t, ht, by simpa using hth⟩) hlt

/-! ## Lemmas on the stages of the loop -/

theorem unflagged_lookup (s1 s2 : List sh_poll_s)
    (h : s1.map sh_poll_s.unflagged = s2.map sh_poll_s.unflagged) (i : Nat) :
    (s1[i]?).map sh_poll_s.unflagged = (s2[i]?).map sh_poll_s.unflagged := by
  have := congrArg (fun l => l[i]?) h
  simpa [List.getElem?_map] using this

theorem firedCalls_congr (s1 s2 : List sh_poll_s)
    (h : s1.map sh_poll_s.unflagged = s2.map sh_poll_s.unflagged) (ps : List Nat) :
    firedCalls s1 ps = firedCalls s2 ps := by
  unfold firedCalls
  congr 1
  funext i
  have hi := unflagged_lookup s1 s2 h i
  cases h1 : s1[i]? with
  | none =>
    cases h2 : s2[i]? with
    | none => rfl
    | some b => simp [h1, h2] at hi
  | some a =>
    cases h2 : s2[i]? with
    | none => simp [h1, h2] at hi
    | some b =>
      simp only [h1, h2, Option.map_some', Option.some.injEq] at hi
      have hh : a.handle = b.handle := by
        have := congrArg sh_poll_s.handle hi
        simpa [sh_poll_s.unflagged] using this
      have hf : a.firedCB = b.firedCB := by
        have := congrArg sh_poll_s.firedCB hi
        simpa [sh_poll_s.unflagged] using this
      simp only [hh, hf]

/-- What `fire` does on the snapshot entry at position `i`: the locals of the loop stay, the
snapshot keeps its entries but for the flags, and the record of calls grows by the call of
`fired` of that entry, if it has one. -/
theorem fire_spec {U : Type} (uc : UserCode U) (hkeep : FiredKeepsSnapshot uc) (i : Nat)
    (l : Loop U) :
    (fire uc i l).listPoll = l.listPoll
      ∧ (fire uc i l).fdPollingArray = l.fdPollingArray
      ∧ (fire uc i l).sh.mListActivePolls.map sh_poll_s.unflagged
          = l.sh.mListActivePolls.map sh_poll_s.unflagged
      ∧ (fire uc i l).log.map Invocation.call
          = l.log.map Invocation.call ++ firedCalls l.sh.mListActivePolls [i] := by
  unfold fire firedCalls
  cases h1 : l.sh.mListActivePolls[i]? with
  | none => simp [h1]
  | some a =>
    cases h2 : a.firedCB with
    | none => simp [h1, h2]
    | some fn =>
      cases fn with
      | pipeFired => simp [h1, h2, Invocation.call]
      | user id =>
        simp only [h1, h2, List.filterMap_cons, List.filterMap_nil, Option.isSome_some, if_true,
          List.map_append, List.map_cons, List.map_nil, Invocation.call, true_and]
        exact ⟨hkeep id a.pollfdValue a.handle a.userData l.sh l.user, trivial⟩

/-- What the body of the `for` of the fire stage does at position `i` of the polling array. -/
theorem fireStep_spec {U : Type} (uc : UserCode U) (hkeep : FiredKeepsSnapshot uc) (i : Nat)
    (l : Loop U) (p : pollfd) (hp : l.fdPollingArray[i]? = some p) :
    (fireStep uc l i).listPoll = l.listPoll ++ (if ready p then [i] else [])
      ∧ (fireStep uc l i).fdPollingArray.length = l.fdPollingArray.length
      ∧ (∀ j, j ≠ i → (fireStep uc l i).fdPollingArray[j]? = l.fdPollingArray[j]?)
      ∧ (fireStep uc l i).sh.mListActivePolls.map sh_poll_s.unflagged
          = l.sh.mListActivePolls.map sh_poll_s.unflagged
      ∧ (fireStep uc l i).log.map Invocation.call
          = l.log.map Invocation.call
              ++ firedCalls l.sh.mListActivePolls (if ready p then [i] else []) := by
  unfold fireStep
  simp only [hp]
  by_cases hr : p.revents &&& (p.events ||| POLLERR ||| POLLHUP) ≠ 0
  · have hrd : ready p = true := by simp [ready, hr]
    obtain ⟨f1, f2, f3, f4⟩ := fire_spec uc hkeep i { l with listPoll := l.listPoll ++ [i] }
    rw [if_pos hr]
    simp only [hrd, if_true]
    refine ⟨f1, ?_, ?_, f3, f4⟩
    · simp [f2]
    · intro j hj
      rw [List.getElem?_set_ne (Ne.symm hj), f2]
  · have hrd : ready p = false := by simp [ready, hr]
    rw [if_neg hr]
    simp only [hrd]
    refine ⟨by simp, by simp, ?_, by simp, by simp [firedCalls]⟩
    intro j hj
    rw [List.getElem?_set_ne (Ne.symm hj)]

/-- The fire stage after the first `m` positions of the polling array. -/
theorem fireStage_upto {U : Type} (uc : UserCode U) (hkeep : FiredKeepsSnapshot uc) (l : Loop U) :
    ∀ m, m ≤ l.fdPollingArray.length →
      ((List.range m).foldl (fireStep uc) { l with listPoll := [] }).listPoll
          = (List.range m).filter (readyAt l.fdPollingArray)
        ∧ ((List.range m).foldl (fireStep uc) { l with listPoll := [] }).fdPollingArray.length
            = l.fdPollingArray.length
        ∧ (∀ j, m ≤ j →
            ((List.range m).foldl (fireStep uc) { l with listPoll := [] }).fdPollingArray[j]?
              = l.fdPollingArray[j]?)
        ∧ ((List.range m).foldl (fireStep uc)
              { l with listPoll := [] }).sh.mListActivePolls.map sh_poll_s.unflagged
            = l.sh.mListActivePolls.map sh_poll_s.unflagged
        ∧ ((List.range m).foldl (fireStep uc) { l with listPoll := [] }).log.map Invocation.call
            = l.log.map Invocation.call
                ++ firedCalls l.sh.mListActivePolls
                    ((List.range m).filter (readyAt l.fdPollingArray)) := by
  intro m
  induction m with
  | zero => intro _; simp [firedCalls]
  | succ m ih =>
    intro hm
    obtain ⟨i1, i2, i3, i4, i5⟩ := ih (by omega)
    have hlt : m < l.fdPollingArray.length := by omega
    have hp0 : l.fdPollingArray[m]? = some (l.fdPollingArray[m]) := List.getElem?_eq_getElem hlt
    have hp : ((List.range m).foldl (fireStep uc) { l with listPoll := [] }).fdPollingArray[m]?
        = some (l.fdPollingArray[m]) := by rw [i3 m (le_refl m)]; exact hp0
    obtain ⟨s1, s2, s3, s4, s5⟩ := fireStep_spec uc hkeep m _ _ hp
    have hra : readyAt l.fdPollingArray m = ready (l.fdPollingArray[m]) := by
      simp [readyAt, hp0]
    rw [List.range_succ, List.foldl_append, List.foldl_cons, List.foldl_nil, List.filter_append]
    refine ⟨?_, ?_, ?_, ?_, ?_⟩
    · rw [s1, i1]
      congr 1
      simp only [List.filter_cons, List.filter_nil, hra]
    · rw [s2, i2]
    · intro j hj
      rw [s3 j (by omega), i3 j (by omega)]
    · rw [s4, i4]
    · rw [s5, i5, firedCalls_congr _ _ i4, List.append_assoc]
      congr 1
      simp only [firedCalls, List.filterMap_append, List.filter_cons, List.filter_nil, hra]

theorem logGrows_refl {U : Type} (P : Invocation → Prop) (l : Loop U) : LogGrows P l l :=
  ⟨[], by simp, by simp⟩

theorem logGrows_of_log_eq {U : Type} (P : Invocation → Prop) (l l1 : Loop U)
    (h : l1.log = l.log) : LogGrows P l l1 :=
  ⟨[], by simp [h], by simp⟩

theorem logGrows_trans {U : Type} (P : Invocation → Prop) (l l1 l2 : Loop U)
    (h1 : LogGrows P l l1) (h2 : LogGrows P l1 l2) : LogGrows P l l2 := by
  obtain ⟨a1, e1, p1⟩ := h1
  obtain ⟨a2, e2, p2⟩ := h2
  refine ⟨a1 ++ a2, by rw [e2, e1, List.append_assoc], ?_⟩
  intro v hv
  rcases List.mem_append.mp hv with hv | hv
  · exact p1 v hv
  · exact p2 v hv

theorem logGrows_mono {U : Type} (P Q : Invocation → Prop) (hPQ : ∀ v, P v → Q v) (l l1 : Loop U)
    (h : LogGrows P l l1) : LogGrows Q l l1 := by
  obtain ⟨a, e, p⟩ := h
  exact ⟨a, e, fun v hv => hPQ v (p v hv)⟩

theorem logGrows_foldl {U α : Type} (P : Invocation → Prop) (f : Loop U → α → Loop U)
    (hf : ∀ a x, LogGrows P a (f a x)) (xs : List α) (l : Loop U) :
    LogGrows P l (xs.foldl f l) := by
  induction xs generalizing l with
  | nil => exact logGrows_refl P l
  | cons x xs ih => exact logGrows_trans P _ _ _ (hf l x) (ih (f l x))

theorem logGrows_foldl_from {U α : Type} (P : Invocation → Prop) (f : Loop U → α → Loop U)
    (hf : ∀ a x, LogGrows P a (f a x)) (xs : List α) (l0 l : Loop U) (h : l.log = l0.log) :
    LogGrows P l0 (xs.foldl f l) :=
  logGrows_trans P l0 l _ (logGrows_of_log_eq P l0 l h) (logGrows_foldl P f hf xs l)

theorem logGrows_to {U : Type} (P : Invocation → Prop) (l l1 l2 : Loop U)
    (h1 : LogGrows P l l1) (h : l2.log = l1.log) : LogGrows P l l2 :=
  logGrows_trans P l l1 l2 h1 (logGrows_of_log_eq P l1 l2 h)

theorem prepare_logGrows {U : Type} (uc : UserCode U) (i : Nat) (l : Loop U) :
    LogGrows (fun v => v.stage = Stage.prepare) l (prepare uc i l) := by
  unfold prepare
  cases h1 : l.sh.mListActivePolls[i]? with
  | none => exact logGrows_refl _ l
  | some row =>
    cases h2 : row.prepareCB with
    | none =>
      dsimp only
      rw [h2]
      exact logGrows_refl _ l
    | some id =>
      dsimp only
      rw [h2]
      exact ⟨[{ stage := Stage.prepare, handle := row.handle, entryValid := row.isValid }], rfl,
        by simp⟩

theorem preparePollfd_logGrows {U : Type} (uc : UserCode U) (i : Nat) (l : Loop U) :
    LogGrows (fun v => v.stage = Stage.prepare) l (preparePollfd uc i l) := by
  unfold preparePollfd
  dsimp only
  split
  · exact prepare_logGrows uc i l
  · exact logGrows_to _ _ _ _ (prepare_logGrows uc i l) rfl

theorem prepareStage_logGrows {U : Type} (uc : UserCode U) (l : Loop U) :
    LogGrows (fun v => v.stage = Stage.prepare) l (prepareStage uc l) := by
  unfold prepareStage
  dsimp only
  split
  · obtain ⟨a, e, p⟩ := logGrows_foldl (fun v => v.stage = Stage.prepare)
      (fun a i => preparePollfd uc i a) (fun a i => preparePollfd_logGrows uc i a)
      (List.range l.sh.mListPoll.length)
      ({ l with fdPollingArray := []
                sh := { l.sh with mListActivePolls := l.sh.mListPoll } } : Loop U)
    exact ⟨a, e, p⟩
  · exact logGrows_foldl _ (fun a i => prepare uc i a) (fun a i => prepare_logGrows uc i a) _ _

theorem callTimer_logGrows {U : Type} (uc : UserCode U) (l : Loop U) (a : sh_timer_s) :
    LogGrows (fun v => v.stage = Stage.timer) l (callTimer uc l a) := by
  unfold callTimer
  cases h : a.callback with
  | none => exact logGrows_refl _ l
  | some id =>
    exact ⟨[{ stage := Stage.timer, handle := a.handle, entryValid := true }], rfl, by simp⟩

theorem timerUp_logGrows {U : Type} (uc : UserCode U) (t : timespec) (l : Loop U) :
    LogGrows (fun v => v.stage = Stage.timer) l (timerUp uc t l) := by
  unfold timerUp
  dsimp only
  exact logGrows_foldl_from _ (callTimer uc) (callTimer_logGrows uc) _ l _ (by rfl)

theorem timerCorrection_logGrows {U : Type} (uc : UserCode U) (t : timespec) (l : Loop U) :
    LogGrows (fun v => v.stage = Stage.timer) l (timerCorrection uc t l) := by
  unfold timerCorrection
  dsimp only
  split
  · exact logGrows_of_log_eq _ l _ rfl
  · split
    · exact logGrows_foldl_from _ (callTimer uc) (callTimer_logGrows uc) _ l _ (by rfl)
    · exact logGrows_of_log_eq _ l _ rfl

/-- An iteration in which `ppoll` reports nothing ready, or is interrupted, runs to its end and
calls nothing but `prepare` and timer callbacks. -/
theorem iteration_nothing_ready {U : Type} (uc : UserCode U) (fuel : Nat) (w : Wake) (l : Loop U)
    (hw : w.ppoll.status = 0 ∨ (w.ppoll.status < 0 ∧ w.ppoll.errnoIsEINTR = true)) :
    ∃ l1, iteration uc fuel w l = Run.done l1
      ∧ LogGrows (fun v => v.stage = Stage.prepare ∨ v.stage = Stage.timer) l l1 := by
  have hnot : ¬ (w.ppoll.status < 0 ∧ w.ppoll.errnoIsEINTR = false) := by
    rcases hw with h | ⟨_, h⟩
    · omega
    · simp [h]
  have hzero : (if w.ppoll.status < 0 then (0 : Int) else w.ppoll.status) = 0 := by
    rcases hw with h | ⟨h, _⟩
    · simp [h]
    · simp [h]
  have heq : iteration uc fuel w l
      = Run.done (timerUp uc w.upClock
          { timerCorrection uc w.correctionClock (prepareStage uc l) with
            fdPollingArray :=
              writeRevents (timerCorrection uc w.correctionClock (prepareStage uc l)).fdPollingArray
                w.ppoll.revents }) := by
    unfold iteration
    simp only [hnot, if_false, hzero, ne_eq, not_true_eq_false]
  refine ⟨_, heq, ?_⟩
  refine logGrows_trans _ l _ _
    (logGrows_mono _ _ (fun _ h => Or.inl h) _ _ (prepareStage_logGrows uc l)) ?_
  refine logGrows_trans _ _ _ _
    (logGrows_mono _ _ (fun _ h => Or.inr h) _ _
      (timerCorrection_logGrows uc w.correctionClock _)) ?_
  refine logGrows_trans _ _ _ _ (logGrows_of_log_eq _ _ _ (by rfl)) ?_
  exact logGrows_mono _ _ (fun _ h => Or.inr h) _ _ (timerUp_logGrows uc w.upClock _)

theorem assignFirst_unflagged (p : sh_poll_s → Bool) (l : List sh_poll_s) :
    (assignFirst p (fun e => { e with isValid := false }) l).map sh_poll_s.unflagged
      = l.map sh_poll_s.unflagged := by
  induction l with
  | nil => rfl
  | cons x xs ih =>
    by_cases hx : p x = true
    · simp [assignFirst, hx, sh_poll_s.unflagged]
    · simp [assignFirst, hx, ih]

/-- The function `removeFDPoll` leaves the active snapshot as it is but for the `isValid`
flags. -/
theorem removeFDPoll_unflagged (s : CAmSocketHandler) (h : Nat) :
    (removeFDPoll s h).2.mListActivePolls.map sh_poll_s.unflagged
      = s.mListActivePolls.map sh_poll_s.unflagged := by
  unfold removeFDPoll
  dsimp only
  by_cases h1 : scanFor (fun e => e.handle == h) s.mListPoll < s.mListPoll.length
  · simp only [h1, if_true]
    split
    · rfl
    · simp only [assignFirst_unflagged]
  · simp only [h1, if_false]
    split
    · rfl
    · simp only [assignFirst_unflagged]

/-- The `fired` callbacks of the scenarios leave the active snapshot as it is but for the
flags. -/
theorem scenarioCode_firedKeepsSnapshot : FiredKeepsSnapshot scenarioCode := by
  intro id p h ud sh u
  cases id with
  | zero => exact removeFDPoll_unflagged sh h
  | succ n => rfl

/-- The three ways `noDispatching` ends on a position: nothing is called and the entry goes;
or `check` is called once, on a valid entry, and the entry stays exactly when `check` returns
`true`. -/
theorem noDispatching_cases {U : Type} (uc : UserCode U) (i : Nat) (l : Loop U) :
    (noDispatching uc i l = (some true, l) ∧ staysAfterCheck uc i l = false)
      ∨ ∃ v, (noDispatching uc i l).2.log = l.log ++ [v]
          ∧ v.stage = Stage.check ∧ v.entryValid = true
          ∧ (∀ b, (noDispatching uc i l).1 = some b → staysAfterCheck uc i l = !b)
          ∧ ((noDispatching uc i l).1 = none →
              ∃ id h ud sh u, (uc.checkCB id h ud sh u).value = none) := by
  unfold noDispatching staysAfterCheck
  cases h1 : l.sh.mListActivePolls[i]? with
  | none => left; exact ⟨rfl, rfl⟩
  | some a =>
    cases h2 : a.checkCB with
    | none => left; simp [h2]
    | some fn =>
      by_cases hv : a.isValid = false
      · left; simp [h2, hv]
      · have hv1 : a.isValid = true := by simpa using hv
        right
        cases fn with
        | returnsFalse =>
          refine ⟨{ stage := Stage.check, handle := a.handle, entryValid := a.isValid }, ?_, rfl,
            hv1, ?_, ?_⟩
          · simp [h2, hv1]
          · intro b hb
            simp [h2, hv1, checkReturns] at hb ⊢
            exact hb
          · intro hn
            simp [h2, hv1] at hn
        | user id =>
          refine ⟨{ stage := Stage.check, handle := a.handle, entryValid := a.isValid }, ?_, rfl,
            hv1, ?_, ?_⟩
          · simp [h2, hv1]
          · intro b hb
            simp only [h2, hv1, checkReturns] at hb ⊢
            cases hval : (uc.checkCB id a.handle a.userData l.sh l.user).value with
            | none => simp [hval] at hb
            | some c =>
              simp [hval] at hb ⊢
              rw [← hb]
          · intro hn
            simp only [h2, hv1] at hn
            refine ⟨id, a.handle, a.userData, l.sh, l.user, ?_⟩
            simpa using hn

/-- The call `remove_if(noDispatching)`: what is left is the list filtered by the rule of the
specification, in the original order, and `check` is called at most once for each entry,
always on a valid one. -/
theorem removeIf_noDispatching {U : Type} (uc : UserCode U) :
    ∀ (ps : List Nat) (l : Loop U) (rest : List Nat) (l1 : Loop U),
      removeIf (noDispatching uc) ps l = (some rest, l1) →
      rest = keptByCheck uc ps l ∧ rest.Sublist ps
        ∧ ∃ added, l1.log = l.log ++ added
            ∧ (∀ v ∈ added, v.stage = Stage.check ∧ v.entryValid = true)
            ∧ added.length ≤ ps.length := by
  intro ps
  induction ps with
  | nil =>
    intro l rest l1 h
    simp only [removeIf, Prod.mk.injEq, Option.some.injEq] at h
    obtain ⟨h1, h2⟩ := h
    subst h1; subst h2
    exact ⟨rfl, List.Sublist.refl _, [], by simp, by simp, by simp⟩
  | cons p ps ih =>
    intro l rest l1 h
    simp only [removeIf] at h
    cases hnd : noDispatching uc p l with
    | mk v la =>
      rw [hnd] at h
      cases v with
      | none => simp at h
      | some b =>
        simp only at h
        cases hrec : removeIf (noDispatching uc) ps la with
        | mk r lb =>
          rw [hrec] at h
          cases r with
          | none => simp at h
          | some rest0 =>
            simp only [Prod.mk.injEq, Option.some.injEq] at h
            obtain ⟨h1, h2⟩ := h
            subst h2
            obtain ⟨k1, k2, added, k3, k4, k5⟩ := ih la rest0 lb hrec
            have hla : (noDispatching uc p l).2 = la := by rw [hnd]
            have hb1 : (noDispatching uc p l).1 = some b := by rw [hnd]
            have hstay : staysAfterCheck uc p l = !b ∧
                ∃ a0, la.log = l.log ++ a0 ∧ (∀ v ∈ a0, v.stage = Stage.check ∧ v.entryValid = true)
                  ∧ a0.length ≤ 1 := by
              rcases noDispatching_cases uc p l with ⟨c1, c2⟩ | ⟨v, c1, c2, c3, c4, _⟩
              · rw [c1] at hnd
                simp only [Prod.mk.injEq, Option.some.injEq] at hnd
                refine ⟨by rw [c2, ← hnd.1]; rfl, [], by rw [← hnd.2]; simp, by simp, by simp⟩
              · refine ⟨c4 b hb1, [v], by rw [← hla]; exact c1, ?_, by simp⟩
                intro w hw
                simp only [List.mem_singleton] at hw
                subst hw
                exact ⟨c2, c3⟩
            obtain ⟨hs, a0, e0, p0, n0⟩ := hstay
            refine ⟨?_, ?_, a0 ++ added, by rw [k3, e0, List.append_assoc], ?_, ?_⟩
            · simp only [keptByCheck, hs, hla]
              cases b with
              | true => simp at h1 ⊢; rw [← h1]; exact k1
              | false => simp at h1 ⊢; rw [← h1, k1]
            · cases b with
              | true => simp at h1; rw [← h1]; exact List.Sublist.cons _ k2
              | false => simp at h1; rw [← h1]; exact List.Sublist.cons₂ _ k2
            · intro v hv
              rcases List.mem_append.mp hv with hv | hv
              · exact p0 v hv
              · exact k4 v hv
            · simp only [List.length_append, List.length_cons]
              omega

/-- When no `check` callback throws, `remove_if(noDispatching)` runs to its end. -/
theorem removeIf_noDispatching_ends {U : Type} (uc : UserCode U)
    (hret : ∀ id h ud sh u, (uc.checkCB id h ud sh u).value ≠ none) :
    ∀ (ps : List Nat) (l : Loop U), ∃ rest l1,
      removeIf (noDispatching uc) ps l = (some rest, l1) := by
  intro ps
  induction ps with
  | nil => intro l; exact ⟨[], l, rfl⟩
  | cons p ps ih =>
    intro l
    cases hnd : noDispatching uc p l with
    | mk v la =>
      cases v with
      | none =>
        exfalso
        rcases noDispatching_cases uc p l with ⟨c1, _⟩ | ⟨_, _, _, _, _, c5⟩
        · rw [c1] at hnd; simp at hnd
        · obtain ⟨id, h, ud, sh, u, hv⟩ := c5 (by rw [hnd])
          exact hret id h ud sh u hv
      | some b =>
        obtain ⟨rest, l1, hr⟩ := ih la
        exact ⟨if b then rest else p :: rest, l1, by simp only [removeIf, hnd, hr]⟩

theorem handleAt_of_lookup (Sn : List sh_poll_s) (p : Nat) (a : sh_poll_s)
    (h : Sn[p]? = some a) : handleAt Sn p = a.handle := by
  simp [handleAt, h]

theorem hasDispatch_of_lookup (Sn : List sh_poll_s) (p : Nat) (a : sh_poll_s)
    (h : Sn[p]? = some a) : hasDispatch Sn p = a.dispatchCB.isSome := by
  simp [hasDispatch, h]

/-- One call of `remove_if(dispatchingFinished)` with budgeted callbacks: every entry with a
`dispatch` callback is called once, those whose budget is used up and those without callback
go, and every budget touched is one less. -/
theorem dispatch_round {U : Type} (uc : UserCode U) (budget : U → Nat → Nat)
    (hb : DispatchBudget uc budget) (Sn : List sh_poll_s) :
    ∀ (ps : List Nat) (l : Loop U), l.sh.mListActivePolls = Sn →
      (∀ p ∈ ps, ∃ a, Sn[p]? = some a ∧ a.isValid = true) →
      (ps.map (handleAt Sn)).Nodup →
      ∃ l1, removeIf (dispatchingFinished uc) ps l
              = (some (ps.filter (fun p => hasDispatch Sn p
                    && decide (0 < budget l.user (handleAt Sn p)))), l1)
        ∧ l1.sh.mListActivePolls = Sn
        ∧ l1.log = l.log ++ (ps.filter (hasDispatch Sn)).map
            (fun p => { stage := Stage.dispatch, handle := handleAt Sn p, entryValid := true })
        ∧ (∀ h, budget l1.user h
            = if h ∈ (ps.filter (hasDispatch Sn)).map (handleAt Sn) then budget l.user h - 1
              else budget l.user h) := by
  intro ps
  induction ps with
  | nil =>
    intro l _ _ _
    exact ⟨l, rfl, by assumption, by simp, by simp⟩
  | cons p ps ih =>
    intro l hsn hent hnd
    obtain ⟨a, ha, hav⟩ := hent p (List.mem_cons_self _ _)
    have hent1 : ∀ q ∈ ps, ∃ a, Sn[q]? = some a ∧ a.isValid = true :=
      fun q hq => hent q (List.mem_cons_of_mem _ hq)
    rw [List.map_cons, List.nodup_cons] at hnd
    obtain ⟨hpnot, hnd1⟩ := hnd
    have hhp := handleAt_of_lookup Sn p a ha
    have hdp := hasDispatch_of_lookup Sn p a ha
    have hla : l.sh.mListActivePolls[p]? = some a := by rw [hsn]; exact ha
    cases hcb : a.dispatchCB with
    | none =>
      have hdf : dispatchingFinished uc p l = (some true, l) := by
        unfold dispatchingFinished
        simp [hla, hcb]
      have hd0 : hasDispatch Sn p = false := by rw [hdp, hcb]; rfl
      obtain ⟨l1, e1, e2, e3, e4⟩ := ih l hsn hent1 hnd1
      refine ⟨l1, ?_, e2, ?_, ?_⟩
      · simp only [removeIf, hdf, e1, List.filter_cons, hd0, Bool.false_and, if_true]
        rfl
      · rw [e3, List.filter_cons_of_neg (by simp [hd0])]
      · intro h
        rw [e4 h, List.filter_cons_of_neg (by simp [hd0])]
    | some id =>
      have hd1 : hasDispatch Sn p = true := by rw [hdp, hcb]; rfl
      have hdf : dispatchingFinished uc p l
          = (some (!decide (0 < budget l.user a.handle)),
              { l with sh := (uc.dispatchCB id a.handle a.userData l.sh l.user).sh
                       user := (uc.dispatchCB id a.handle a.userData l.sh l.user).user
                       log := l.log ++ [{ stage := Stage.dispatch, handle := a.handle
                                          entryValid := a.isValid }] }) := by
        unfold dispatchingFinished
        simp [hla, hcb, hav, hb.value]
      have hsn1 : (uc.dispatchCB id a.handle a.userData l.sh l.user).sh.mListActivePolls = Sn := by
        rw [hb.snapshot, hsn]
      obtain ⟨l1, e1, e2, e3, e4⟩ := ih
        { l with sh := (uc.dispatchCB id a.handle a.userData l.sh l.user).sh
                 user := (uc.dispatchCB id a.handle a.userData l.sh l.user).user
                 log := l.log ++ [{ stage := Stage.dispatch, handle := a.handle
                                    entryValid := a.isValid }] } hsn1 hent1 hnd1
      have hfilter : ps.filter (fun q => hasDispatch Sn q
            && decide (0 < budget (uc.dispatchCB id a.handle a.userData l.sh l.user).user
                (handleAt Sn q)))
          = ps.filter (fun q => hasDispatch Sn q
              && decide (0 < budget l.user (handleAt Sn q))) := by
        apply List.filter_congr
        intro q hq
        have hne : handleAt Sn q ≠ a.handle := by
          intro hc
          exact hpnot (by rw [hhp, ← hc]; exact List.mem_map_of_mem _ hq)
        rw [hb.others id a.handle a.userData l.sh l.user _ hne]
      simp only at e1 e3 e4
      rw [hfilter] at e1
      have hpf : handleAt Sn p ∉ (ps.filter (hasDispatch Sn)).map (handleAt Sn) := by
        intro hc
        obtain ⟨q, hq, hqe⟩ := List.mem_map.mp hc
        exact hpnot (hqe ▸ List.mem_map_of_mem _ (List.mem_of_mem_filter hq))
      refine ⟨l1, ?_, e2, ?_, ?_⟩
      · simp only [removeIf, hdf, e1, List.filter_cons, hd1, Bool.true_and, hhp]
        by_cases hpos : 0 < budget l.user a.handle
        · simp [hpos]
        · simp [hpos]
      · rw [e3]
        simp [List.filter_cons, hd1, hhp, hav]
      · intro h
        rw [e4 h]
        simp only [List.filter_cons, hd1, if_true, List.map_cons, List.mem_cons]
        by_cases hh : h = handleAt Sn p
        · subst hh
          simp only [hpf, if_false, true_or, if_true]
          rw [hhp]
          exact hb.spend id a.handle a.userData l.sh l.user
        · have hne : h ≠ a.handle := by rw [← hhp]; exact hh
          simp only [hh, false_or]
          rw [hb.others id a.handle a.userData l.sh l.user h hne]

theorem countP_dispatch_entries (Sn : List sh_poll_s) (L : List Nat) (h : Nat) :
    (L.map (fun p => ({ stage := Stage.dispatch, handle := handleAt Sn p, entryValid := true }
        : Invocation))).countP (fun v => v.handle == h)
      = (L.map (handleAt Sn)).count h := by
  induction L with
  | nil => rfl
  | cons x xs ih =>
    simp only [List.map_cons, List.countP_cons, List.count_cons, ih]

/-- The dispatch stage with budgeted callbacks: with more rounds allowed than the largest budget
on the list, the stage runs to its end with an empty list, calls nothing but `dispatch`, and
calls the `dispatch` of a handle once more than its budget says. -/
theorem dispatchStage_budget {U : Type} (uc : UserCode U) (budget : U → Nat → Nat)
    (hb : DispatchBudget uc budget) (Sn : List sh_poll_s) :
    ∀ (fuel : Nat) (l : Loop U), l.sh.mListActivePolls = Sn →
      (∀ p ∈ l.listPoll, ∃ a, Sn[p]? = some a ∧ a.isValid = true) →
      (l.listPoll.map (handleAt Sn)).Nodup →
      0 < fuel →
      (∀ p ∈ l.listPoll, hasDispatch Sn p = true → budget l.user (handleAt Sn p) < fuel) →
      ∃ l1, dispatchStage uc fuel l = Run.done l1 ∧ l1.listPoll = []
        ∧ ∃ added, l1.log = l.log ++ added
            ∧ (∀ v ∈ added, v.stage = Stage.dispatch ∧ v.entryValid = true)
            ∧ ∀ h, added.countP (fun v => v.handle == h)
                = if h ∈ (l.listPoll.filter (hasDispatch Sn)).map (handleAt Sn)
                  then budget l.user h + 1 else 0 := by
  intro fuel
  induction fuel with
  | zero => intro l _ _ _ h0; omega
  | succ f ih =>
    intro l hsn hent hnd _ hfuel
    obtain ⟨l1, e1, e2, e3, e4⟩ := dispatch_round uc budget hb Sn l.listPoll l hsn hent hnd
    have hndf : ((l.listPoll.filter (hasDispatch Sn)).map (handleAt Sn)).Nodup :=
      List.Nodup.sublist (List.Sublist.map _ (List.filter_sublist _)) hnd
    have hcount1 : ∀ h,
        ((l.listPoll.filter (hasDispatch Sn)).map
          (fun p => ({ stage := Stage.dispatch, handle := handleAt Sn p, entryValid := true }
            : Invocation))).countP (fun v => v.handle == h)
          = if h ∈ (l.listPoll.filter (hasDispatch Sn)).map (handleAt Sn) then 1 else 0 := by
      intro h
      rw [countP_dispatch_entries]
      by_cases hm : h ∈ (l.listPoll.filter (hasDispatch Sn)).map (handleAt Sn)
      · simp only [hm, if_true]
        exact List.count_eq_one_of_mem hndf hm
      · simp only [hm, if_false]
        exact List.count_eq_zero_of_not_mem hm
    have hstage1 : ∀ v ∈ (l.listPoll.filter (hasDispatch Sn)).map
          (fun p => ({ stage := Stage.dispatch, handle := handleAt Sn p, entryValid := true }
            : Invocation)), v.stage = Stage.dispatch ∧ v.entryValid = true := by
      intro v hv
      obtain ⟨p, _, rfl⟩ := List.mem_map.mp hv
      exact ⟨rfl, rfl⟩
    by_cases hrest : (l.listPoll.filter (fun p => hasDispatch Sn p
        && decide (0 < budget l.user (handleAt Sn p)))) = []
    · refine ⟨{ l1 with listPoll := [] }, ?_, rfl, _, e3, hstage1, ?_⟩
      · simp only [dispatchStage, e1, hrest, List.isEmpty_nil, if_true]
      · intro h
        rw [hcount1 h]
        by_cases hm : h ∈ (l.listPoll.filter (hasDispatch Sn)).map (handleAt Sn)
        · simp only [hm, if_true]
          obtain ⟨p, hp, rfl⟩ := List.mem_map.mp hm
          rw [List.mem_filter] at hp
          have hnot : p ∉ l.listPoll.filter (fun p => hasDispatch Sn p
              && decide (0 < budget l.user (handleAt Sn p))) := by rw [hrest]; simp
          rw [List.mem_filter] at hnot
          have : ¬ 0 < budget l.user (handleAt Sn p) := by
            intro hc
            exact hnot ⟨hp.1, by simp [hp.2, hc]⟩
          omega
        · simp only [hm, if_false]
    · obtain ⟨q, hq⟩ := List.exists_mem_of_ne_nil _ hrest
      rw [List.mem_filter] at hq
      have hq2 : hasDispatch Sn q = true ∧ 0 < budget l.user (handleAt Sn q) := by
        simpa using hq.2
      have hf1 : 0 < f := by
        have := hfuel q hq.1 hq2.1
        omega
      have hsub : (l.listPoll.filter (fun p => hasDispatch Sn p
          && decide (0 < budget l.user (handleAt Sn p)))).Sublist l.listPoll :=
        List.filter_sublist _
      obtain ⟨l2, g1, g2, added2, g3, g4, g5⟩ := ih
        { l1 with listPoll := l.listPoll.filter (fun p => hasDispatch Sn p
            && decide (0 < budget l.user (handleAt Sn p))) }
        e2
        (fun p hp => hent p (hsub.subset hp))
        (List.Nodup.sublist (List.Sublist.map _ hsub) hnd)
        hf1
        (by
          intro p hp hd
          rw [List.mem_filter] at hp
          have hp2 : hasDispatch Sn p = true ∧ 0 < budget l.user (handleAt Sn p) := by
            simpa using hp.2
          have hmem : handleAt Sn p ∈ (l.listPoll.filter (hasDispatch Sn)).map (handleAt Sn) :=
            List.mem_map_of_mem _ (List.mem_filter.mpr ⟨hp.1, hd⟩)
          have hlt := hfuel p hp.1 hd
          simp only
          rw [e4 (handleAt Sn p)]
          simp only [hmem, if_true]
          omega)
      refine ⟨l2, ?_, g2,
        (l.listPoll.filter (hasDispatch Sn)).map
          (fun p => ({ stage := Stage.dispatch, handle := handleAt Sn p, entryValid := true }
            : Invocation)) ++ added2,
        by rw [g3]; simp only; rw [e3, List.append_assoc], ?_, ?_⟩
      · have hne : (l.listPoll.filter (fun p => hasDispatch Sn p
            && decide (0 < budget l.user (handleAt Sn p)))).isEmpty = false := by
          cases hl : l.listPoll.filter (fun p => hasDispatch Sn p
              && decide (0 < budget l.user (handleAt Sn p))) with
          | nil => exact absurd hl hrest
          | cons _ _ => rfl
        simp only [dispatchStage, e1, hne, Bool.false_eq_true, if_false]
        exact g1
      · intro v hv
        rcases List.mem_append.mp hv with hv | hv
        · exact hstage1 v hv
        · exact g4 v hv
      · intro h
        rw [List.countP_append, hcount1 h, g5 h]
        simp only
        by_cases hm : h ∈ (l.listPoll.filter (hasDispatch Sn)).map (handleAt Sn)
        · simp only [hm, if_true]
          obtain ⟨p, hp, rfl⟩ := List.mem_map.mp hm
          rw [List.mem_filter] at hp
          by_cases hpos : 0 < budget l.user (handleAt Sn p)
          · have hm2 : handleAt Sn p ∈ ((l.listPoll.filter (fun p => hasDispatch Sn p
                && decide (0 < budget l.user (handleAt Sn p)))).filter
                  (hasDispatch Sn)).map (handleAt Sn) := by
              apply List.mem_map_of_mem
              rw [List.mem_filter, List.mem_filter]
              exact ⟨⟨hp.1, by simp [hp.2, hpos]⟩, hp.2⟩
            simp only [hm2, if_true]
            rw [e4 (handleAt Sn p)]
            simp only [hm, if_true]
            omega
          · have hm2 : handleAt Sn p ∉ ((l.listPoll.filter (fun p => hasDispatch Sn p
                && decide (0 < budget l.user (handleAt Sn p)))).filter
                  (hasDispatch Sn)).map (handleAt Sn) := by
              intro hc
              obtain ⟨r, hr, hre⟩ := List.mem_map.mp hc
              rw [List.mem_filter, List.mem_filter] at hr
              have hrp : r = p := List.inj_on_of_nodup_map hnd hr.1.1 hp.1 hre
              subst hrp
              have : 0 < budget l.user (handleAt Sn r) := by
                have := hr.1.2
                simp at this
                exact this.2
              exact hpos this
            simp only [hm2, if_false]
            omega
        · have hm2 : h ∉ ((l.listPoll.filter (fun p => hasDispatch Sn p
              && decide (0 < budget l.user (handleAt Sn p)))).filter
                (hasDispatch Sn)).map (handleAt Sn) := by
            intro hc
            obtain ⟨r, hr, hre⟩ := List.mem_map.mp hc
            rw [List.mem_filter, List.mem_filter] at hr
            exact hm (hre ▸ List.mem_map_of_mem _ (List.mem_filter.mpr ⟨hr.1.1, hr.2⟩))
          simp only [hm, hm2, if_false]

/-- The `dispatch` callbacks of the back-pressure scenario are budgeted by the user's data. -/
theorem countingCode_budget : DispatchBudget countingCode (fun u h => u h) := by
  constructor
  · intro id h ud sh u; rfl
  · intro id h ud sh u; rfl
  · intro id h ud sh u; simp [countingCode]
  · intro id h ud sh u k hk; simp [countingCode, hk]
/-! ## Lemmas on the snapshot and the polling array -/

theorem addFDPoll_snapshot (fdIsValid : Int → Bool) (s : CAmSocketHandler) (fd : Int) (event : Nat)
    (prepare : Option Nat) (fired : Option FiredFn) (check : Option CheckFn)
    (dispatch : Option Nat) (userData handle : Nat) (r : am_Error_e × Nat × CAmSocketHandler)
    (h : addFDPoll fdIsValid s fd event prepare fired check dispatch userData handle = some r) :
    r.2.2.mListActivePolls = s.mListActivePolls := by
  rcases addFDPoll_cases _ _ _ _ _ _ _ _ _ _ _ h with ⟨_, rfl⟩ | ⟨_, _, rfl⟩ | ⟨_, keys, _, rfl⟩ <;> rfl

theorem handlerAfter_addFDPoll_snapshot (fdIsValid : Int → Bool) (s : CAmSocketHandler) (fd : Int)
    (event : Nat) (prepare : Option Nat) (fired : Option FiredFn) (check : Option CheckFn)
    (dispatch : Option Nat) (userData handle : Nat) :
    (handlerAfter (addFDPoll fdIsValid s fd event prepare fired check dispatch userData handle)
      s).mListActivePolls = s.mListActivePolls := by
  cases h : addFDPoll fdIsValid s fd event prepare fired check dispatch userData handle with
  | none => rfl
  | some r =>
    obtain ⟨a, b, c⟩ := r
    exact addFDPoll_snapshot _ _ _ _ _ _ _ _ _ _ _ h

theorem updateEventFlags_snapshot (s : CAmSocketHandler) (handle events : Nat) :
    (updateEventFlags s handle events).2.mListActivePolls = s.mListActivePolls := by
  unfold updateEventFlags
  split <;> rfl

/-- Assignment through the iterator of a scan, position by position: an entry is the one that
was there, or it is the changed image of an entry that has the property scanned for. -/
theorem assignFirst_lookup {α : Type} (p : α → Bool) (f : α → α) (l : List α) (i : Nat) (a : α)
    (h : l[i]? = some a) :
    (assignFirst p f l)[i]? = some a ∨ (p a = true ∧ (assignFirst p f l)[i]? = some (f a)) := by
  induction l generalizing i with
  | nil => simp at h
  | cons x xs ih =>
    by_cases hx : p x = true
    · simp only [assignFirst, hx, if_true]
      cases i with
      | zero =>
        simp only [List.getElem?_cons_zero, Option.some.injEq] at h ⊢
        subst h
        exact Or.inr ⟨hx, rfl⟩
      | succ j =>
        simp only [List.getElem?_cons_succ] at h ⊢
        exact Or.inl h
    · have hx2 : p x = false := by simpa using hx
      simp only [assignFirst, hx2, Bool.false_eq_true, if_false]
      cases i with
      | zero =>
        simp only [List.getElem?_cons_zero] at h ⊢
        exact Or.inl h
      | succ j =>
        simp only [List.getElem?_cons_succ] at h ⊢
        exact ih j h

/-- What `removeFDPoll` does to the active snapshot: nothing, or the `isValid` flag of the first
entry with the removed handle is cleared. -/
theorem removeFDPoll_snapshot (s : CAmSocketHandler) (h : Nat) :
    (removeFDPoll s h).2.mListActivePolls = s.mListActivePolls
      ∨ (removeFDPoll s h).2.mListActivePolls
          = assignFirst (fun e => e.handle == h) (fun e => { e with isValid := false })
              s.mListActivePolls := by
  unfold removeFDPoll
  dsimp only
  by_cases h1 : scanFor (fun e => e.handle == h) s.mListPoll < s.mListPoll.length
  · simp only [h1, if_true]
    split
    · exact Or.inl rfl
    · exact Or.inr rfl
  · simp only [h1, if_false]
    split
    · exact Or.inl rfl
    · exact Or.inr rfl

theorem sameShape_refl {U : Type} (l : Loop U) : SameShape l l := ⟨rfl, rfl⟩

theorem sameShape_trans {U : Type} (l l1 l2 : Loop U) (h1 : SameShape l l1)
    (h2 : SameShape l1 l2) : SameShape l l2 :=
  ⟨h2.1.trans h1.1, h2.2.trans h1.2⟩

theorem sameShape_foldl {U α : Type} (f : Loop U → α → Loop U)
    (hf : ∀ a x, SameShape a (f a x)) (xs : List α) (l : Loop U) :
    SameShape l (xs.foldl f l) := by
  induction xs generalizing l with
  | nil => exact sameShape_refl l
  | cons x xs ih => exact sameShape_trans _ _ _ (hf l x) (ih (f l x))

theorem projection_of_sameShape {U : Type} (l l1 : Loop U) (h : SameShape l l1)
    (hp : Projection l) : Projection l1 := by
  unfold Projection at hp ⊢
  have e : ∀ L : List sh_poll_s,
      L.map (fun e => e.pollfdValue.watch)
        = (L.map sh_poll_s.unflagged).map (fun e => e.pollfdValue.watch) := by
    intro L
    rw [List.map_map]
    rfl
  rw [h.2, hp, e l.sh.mListActivePolls, e l1.sh.mListActivePolls, h.1]

theorem prepare_sameShape {U : Type} (uc : UserCode U) (hkeep : KeepsSnapshot uc) (i : Nat)
    (l : Loop U) : SameShape l (prepare uc i l) := by
  unfold prepare
  cases h1 : l.sh.mListActivePolls[i]? with
  | none => exact sameShape_refl l
  | some row =>
    cases h2 : row.prepareCB with
    | none =>
      dsimp only
      rw [h2]
      exact sameShape_refl l
    | some id =>
      dsimp only
      rw [h2]
      exact ⟨hkeep.prepare _ _ _ _ _, rfl⟩

theorem callTimer_sameShape {U : Type} (uc : UserCode U) (hkeep : KeepsSnapshot uc) (l : Loop U)
    (a : sh_timer_s) : SameShape l (callTimer uc l a) := by
  unfold callTimer
  cases h : a.callback with
  | none => exact sameShape_refl l
  | some id => exact ⟨hkeep.timer _ _ _ _ _, rfl⟩

theorem timerUp_sameShape {U : Type} (uc : UserCode U) (hkeep : KeepsSnapshot uc) (t : timespec)
    (l : Loop U) : SameShape l (timerUp uc t l) := by
  unfold timerUp
  dsimp only
  exact sameShape_trans l _ _ ⟨rfl, rfl⟩
    (sameShape_foldl (callTimer uc) (callTimer_sameShape uc hkeep) _ _)

theorem timerCorrection_sameShape {U : Type} (uc : UserCode U) (hkeep : KeepsSnapshot uc)
    (t : timespec) (l : Loop U) : SameShape l (timerCorrection uc t l) := by
  unfold timerCorrection
  dsimp only
  split
  · exact ⟨rfl, rfl⟩
  · split
    · exact sameShape_trans l _ _ ⟨rfl, rfl⟩
        (sameShape_foldl (callTimer uc) (callTimer_sameShape uc hkeep) _ _)
    · exact ⟨rfl, rfl⟩

theorem fire_sameShape {U : Type} (uc : UserCode U) (hkeep : KeepsSnapshot uc) (i : Nat)
    (l : Loop U) : SameShape l (fire uc i l) := by
  unfold fire
  cases h1 : l.sh.mListActivePolls[i]? with
  | none => exact sameShape_refl l
  | some a =>
    cases h2 : a.firedCB with
    | none =>
      dsimp only
      rw [h2]
      exact sameShape_refl l
    | some fn =>
      dsimp only
      rw [h2]
      cases fn with
      | pipeFired => exact ⟨rfl, rfl⟩
      | user id => exact ⟨hkeep.fired _ _ _ _ _ _, rfl⟩

theorem map_set_of_eq {α β : Type} (f : α → β) (l : List α) (i : Nat) (p x : α)
    (h : l[i]? = some p) (hx : f x = f p) : (l.set i x).map f = l.map f := by
  induction l generalizing i with
  | nil => rfl
  | cons y ys ih =>
    cases i with
    | zero =>
      simp only [List.getElem?_cons_zero, Option.some.injEq] at h
      subst h
      simp [hx]
    | succ j =>
      simp only [List.getElem?_cons_succ] at h
      simp only [List.set_cons_succ, List.map_cons, ih j h]

theorem fireStep_sameShape {U : Type} (uc : UserCode U) (hkeep : KeepsSnapshot uc) (l : Loop U)
    (i : Nat) : SameShape l (fireStep uc l i) := by
  unfold fireStep
  cases h1 : l.fdPollingArray[i]? with
  | none => exact sameShape_refl l
  | some p =>
    dsimp only
    split
    · have hf := fire_sameShape uc hkeep i ({ l with listPoll := l.listPoll ++ [i] } : Loop U)
      refine ⟨hf.1, ?_⟩
      dsimp only
      have ha : (fire uc i ({ l with listPoll := l.listPoll ++ [i] } : Loop U)).fdPollingArray
          = l.fdPollingArray := by
        unfold fire
        dsimp only
        split
        · rfl
        · split <;> rfl
      rw [ha]
      exact map_set_of_eq _ _ _ p _ h1 rfl
    · exact ⟨rfl, map_set_of_eq _ _ _ p _ h1 rfl⟩

theorem fireStage_sameShape {U : Type} (uc : UserCode U) (hkeep : KeepsSnapshot uc) (l : Loop U) :
    SameShape l (fireStage uc l) := by
  unfold fireStage
  exact sameShape_trans l _ _ ⟨rfl, rfl⟩
    (sameShape_foldl (fireStep uc) (fireStep_sameShape uc hkeep) _ _)

theorem noDispatching_sameShape {U : Type} (uc : UserCode U) (hkeep : KeepsSnapshot uc) (i : Nat)
    (l : Loop U) : SameShape l (noDispatching uc i l).2 := by
  unfold noDispatching
  cases h1 : l.sh.mListActivePolls[i]? with
  | none => exact sameShape_refl l
  | some a =>
    cases h2 : a.checkCB with
    | none =>
      dsimp only
      rw [h2]
      exact sameShape_refl l
    | some fn =>
      dsimp only
      rw [h2]
      dsimp only
      split
      · exact sameShape_refl l
      · cases fn with
        | returnsFalse => exact ⟨rfl, rfl⟩
        | user id => exact ⟨hkeep.check _ _ _ _ _, rfl⟩

theorem dispatchingFinished_sameShape {U : Type} (uc : UserCode U) (hkeep : KeepsSnapshot uc)
    (i : Nat) (l : Loop U) : SameShape l (dispatchingFinished uc i l).2 := by
  unfold dispatchingFinished
  cases h1 : l.sh.mListActivePolls[i]? with
  | none => exact sameShape_refl l
  | some a =>
    cases h2 : a.dispatchCB with
    | none =>
      dsimp only
      rw [h2]
      exact sameShape_refl l
    | some id =>
      dsimp only
      rw [h2]
      dsimp only
      split
      · exact sameShape_refl l
      · exact ⟨hkeep.dispatch _ _ _ _ _, rfl⟩

theorem removeIf_sameShape {U : Type} (pred : Nat → Loop U → Option Bool × Loop U)
    (hp : ∀ i l, SameShape l (pred i l).2) (ps : List Nat) (l : Loop U) :
    SameShape l (removeIf pred ps l).2 := by
  induction ps generalizing l with
  | nil => exact sameShape_refl l
  | cons p ps ih =>
    unfold removeIf
    have h1 := hp p l
    cases hq : pred p l with
    | mk v l1 =>
      rw [hq] at h1
      cases v with
      | none => exact h1
      | some b =>
        dsimp only
        have h2 := ih l1
        cases hr : removeIf pred ps l1 with
        | mk w l2 =>
          rw [hr] at h2
          cases w with
          | none => exact sameShape_trans _ _ _ h1 h2
          | some rest => exact sameShape_trans _ _ _ h1 h2

theorem checkStage_sameShape {U : Type} (uc : UserCode U) (hkeep : KeepsSnapshot uc) (l l1 : Loop U)
    (h : (checkStage uc l).state? = some l1) : SameShape l l1 := by
  unfold checkStage at h
  have hs := removeIf_sameShape (noDispatching uc) (noDispatching_sameShape uc hkeep) l.listPoll l
  cases hr : removeIf (noDispatching uc) l.listPoll l with
  | mk w l2 =>
    rw [hr] at h hs
    cases w with
    | none =>
      simp only [Run.state?, Option.some.injEq] at h
      subst h
      exact hs
    | some rest =>
      simp only [Run.state?, Option.some.injEq] at h
      subst h
      exact sameShape_trans _ _ _ hs ⟨rfl, rfl⟩

theorem dispatchStage_sameShape {U : Type} (uc : UserCode U) (hkeep : KeepsSnapshot uc) :
    ∀ (fuel : Nat) (l l1 : Loop U), (dispatchStage uc fuel l).state? = some l1 →
      SameShape l l1 := by
  intro fuel
  induction fuel with
  | zero =>
    intro l l1 h
    simp [dispatchStage, Run.state?] at h
  | succ n ih =>
    intro l l1 h
    unfold dispatchStage at h
    have hs := removeIf_sameShape (dispatchingFinished uc)
      (dispatchingFinished_sameShape uc hkeep) l.listPoll l
    cases hr : removeIf (dispatchingFinished uc) l.listPoll l with
    | mk w l2 =>
      rw [hr] at h hs
      cases w with
      | none =>
        simp only [Run.state?, Option.some.injEq] at h
        subst h
        exact hs
      | some rest =>
        dsimp only at h
        by_cases he : rest.isEmpty = true
        · simp only [he, if_true, Run.state?, Option.some.injEq] at h
          subst h
          exact sameShape_trans _ _ _ hs ⟨rfl, rfl⟩
        · have he2 : rest.isEmpty = false := by simpa using he
          simp only [he2, Bool.false_eq_true, if_false] at h
          have h3 := ih ({ l2 with listPoll := rest } : Loop U) l1 h
          exact sameShape_trans _ _ _ hs (sameShape_trans _ _ _ ⟨rfl, rfl⟩ h3)

theorem writeRevents_watch (arr : List pollfd) (rs : List Nat) :
    (writeRevents arr rs).map pollfd.watch = arr.map pollfd.watch := by
  induction arr generalizing rs with
  | nil => cases rs <;> rfl
  | cons p ps ih =>
    cases rs with
    | nil => rfl
    | cons r rs =>
      simp only [writeRevents, List.map_cons, ih]
      rfl

theorem prepare_array {U : Type} (uc : UserCode U) (i : Nat) (l : Loop U) :
    (prepare uc i l).fdPollingArray = l.fdPollingArray := by
  unfold prepare
  split
  · rfl
  · split <;> rfl

/-- The entries of two snapshots that differ in the flags only have the same `pollfd`. -/
theorem pollfdValue_of_unflagged (s1 s2 : List sh_poll_s)
    (h : s1.map sh_poll_s.unflagged = s2.map sh_poll_s.unflagged) (f : pollfd → pollfd) :
    s1.map (fun e => f e.pollfdValue) = s2.map (fun e => f e.pollfdValue) := by
  have e : ∀ L : List sh_poll_s,
      L.map (fun e => f e.pollfdValue)
        = (L.map sh_poll_s.unflagged).map (fun e => f e.pollfdValue) := by
    intro L
    rw [List.map_map]
    rfl
  rw [e s1, e s2, h]

/-- The rebuild, entry by entry: after the first `k` entries of the snapshot have been prepared,
the snapshot has its entries but for the flags and the polling array holds the `pollfd` of the
first `k` entries with `revents` cleared. -/
theorem rebuild_upto {U : Type} (uc : UserCode U) (hkeep : KeepsSnapshot uc) (l1 : Loop U)
    (h0 : l1.fdPollingArray = []) :
    ∀ k, k ≤ l1.sh.mListActivePolls.length →
      ((List.range k).foldl (fun a i => preparePollfd uc i a) l1).sh.mListActivePolls.map
          sh_poll_s.unflagged = l1.sh.mListActivePolls.map sh_poll_s.unflagged
        ∧ ((List.range k).foldl (fun a i => preparePollfd uc i a) l1).fdPollingArray
            = (l1.sh.mListActivePolls.take k).map (fun e => { e.pollfdValue with revents := 0 }) := by
  intro k
  induction k with
  | zero =>
    intro _
    simp [h0]
  | succ k ih =>
    intro hk
    obtain ⟨ih1, ih2⟩ := ih (by omega)
    rw [List.range_succ, List.foldl_append]
    simp only [List.foldl_cons, List.foldl_nil]
    generalize (List.range k).foldl (fun a i => preparePollfd uc i a) l1 = lk at ih1 ih2 ⊢
    have hp := prepare_sameShape uc hkeep k lk
    have hpa := prepare_array uc k lk
    have hsn : (prepare uc k lk).sh.mListActivePolls.map sh_poll_s.unflagged
        = l1.sh.mListActivePolls.map sh_poll_s.unflagged := hp.1.trans ih1
    have hlook := unflagged_lookup _ _ hsn k
    have hlt : k < l1.sh.mListActivePolls.length := by omega
    rw [List.getElem?_eq_getElem hlt] at hlook
    unfold preparePollfd
    dsimp only
    cases hrow : (prepare uc k lk).sh.mListActivePolls[k]? with
    | none => simp [hrow] at hlook
    | some row =>
      simp only [hrow, Option.map_some', Option.some.injEq] at hlook
      dsimp only
      refine ⟨hsn, ?_⟩
      rw [hpa, ih2, List.take_succ, List.getElem?_eq_getElem hlt]
      simp only [Option.toList, List.map_append, List.map_cons, List.map_nil]
      have hv : row.pollfdValue = (l1.sh.mListActivePolls[k]).pollfdValue := by
        have := congrArg sh_poll_s.pollfdValue hlook
        simpa [sh_poll_s.unflagged] using this
      rw [hv]

/-- The rebuild branch of the prepare stage: the snapshot is the registry as it was at the top
of the iteration, but for the flags, and the polling array is the list of the `pollfd`s of the
snapshot with `revents` cleared. -/
theorem prepareStage_rebuild {U : Type} (uc : UserCode U) (hkeep : KeepsSnapshot uc) (l : Loop U)
    (hflag : l.sh.mRecreatePollfds = true) :
    (prepareStage uc l).sh.mListActivePolls.map sh_poll_s.unflagged
        = l.sh.mListPoll.map sh_poll_s.unflagged
      ∧ (prepareStage uc l).fdPollingArray
          = (prepareStage uc l).sh.mListActivePolls.map
              (fun e => { e.pollfdValue with revents := 0 }) := by
  have hr := rebuild_upto uc hkeep
    ({ l with fdPollingArray := [], sh := { l.sh with mListActivePolls := l.sh.mListPoll } } : Loop U)
    rfl l.sh.mListPoll.length (le_refl _)
  unfold prepareStage
  rw [if_pos hflag]
  dsimp only at hr ⊢
  refine ⟨hr.1, ?_⟩
  rw [hr.2, List.take_length]
  exact (pollfdValue_of_unflagged _ _ hr.1 (fun p => { p with revents := 0 })).symm

theorem prepareStage_projection {U : Type} (uc : UserCode U) (hkeep : KeepsSnapshot uc)
    (l : Loop U) (h0 : l.sh.mRecreatePollfds = true ∨ Projection l) :
    Projection (prepareStage uc l) := by
  by_cases hflag : l.sh.mRecreatePollfds = true
  · have hr := prepareStage_rebuild uc hkeep l hflag
    unfold Projection
    rw [hr.2, List.map_map]
    rfl
  · have hp : Projection l := by
      rcases h0 with h0 | h0
      · exact absurd h0 hflag
      · exact h0
    have hs : SameShape l (prepareStage uc l) := by
      unfold prepareStage
      have hf : l.sh.mRecreatePollfds = false := by simpa using hflag
      simp only [hf, Bool.false_eq_true, if_false]
      exact sameShape_foldl (fun a i => prepare uc i a) (fun a i => prepare_sameShape uc hkeep i a) _ _
    exact projection_of_sameShape _ _ hs hp

/-- An iteration keeps the agreement of the polling array with the snapshot, and an iteration
that rebuilds sets it up. -/
theorem iteration_projection {U : Type} (uc : UserCode U) (hkeep : KeepsSnapshot uc) (fuel : Nat)
    (w : Wake) (l l1 : Loop U) (h0 : l.sh.mRecreatePollfds = true ∨ Projection l)
    (h : (iteration uc fuel w l).state? = some l1) : Projection l1 := by
  have hp1 := prepareStage_projection uc hkeep l h0
  have hp2 : Projection (timerCorrection uc w.correctionClock (prepareStage uc l)) :=
    projection_of_sameShape _ _ (timerCorrection_sameShape uc hkeep _ _) hp1
  have hp3 : Projection
      ({ timerCorrection uc w.correctionClock (prepareStage uc l) with
         fdPollingArray :=
           writeRevents (timerCorrection uc w.correctionClock (prepareStage uc l)).fdPollingArray
             w.ppoll.revents } : Loop U) := by
    unfold Projection at hp2 ⊢
    dsimp only
    rw [writeRevents_watch]
    exact hp2
  unfold iteration at h
  dsimp only at h
  generalize ({ timerCorrection uc w.correctionClock (prepareStage uc l) with
         fdPollingArray :=
           writeRevents (timerCorrection uc w.correctionClock (prepareStage uc l)).fdPollingArray
             w.ppoll.revents } : Loop U) = l3 at hp3 h
  by_cases hA : w.ppoll.status < 0 ∧ w.ppoll.errnoIsEINTR = false
  · rw [if_pos hA] at h
    simp only [Run.state?, Option.some.injEq] at h
    subst h
    exact hp3
  · rw [if_neg hA] at h
    by_cases hB : (if w.ppoll.status < 0 then (0 : Int) else w.ppoll.status) ≠ 0
    · rw [if_pos hB] at h
      have hf := fireStage_sameShape uc hkeep l3
      cases hc : checkStage uc (fireStage uc l3) with
      | done l4 =>
        rw [hc] at h
        dsimp only at h
        have h4 := checkStage_sameShape uc hkeep (fireStage uc l3) l4 (by rw [hc]; rfl)
        have h5 := dispatchStage_sameShape uc hkeep fuel l4 l1 h
        exact projection_of_sameShape _ _
          (sameShape_trans _ _ _ hf (sameShape_trans _ _ _ h4 h5)) hp3
      | raised l4 =>
        rw [hc] at h
        simp only [Run.state?, Option.some.injEq] at h
        subst h
        have h4 := checkStage_sameShape uc hkeep (fireStage uc l3) l4 (by rw [hc]; rfl)
        exact projection_of_sameShape _ _ (sameShape_trans _ _ _ hf h4) hp3
      | endless =>
        rw [hc] at h
        simp [Run.state?] at h
    · rw [if_neg hB] at h
      simp only [Run.state?, Option.some.injEq] at h
      subst h
      exact projection_of_sameShape _ _ (timerUp_sameShape uc hkeep _ _) hp3

/-- The callbacks of the scenarios leave the active snapshot as it is but for the flags. -/
theorem scenarioCode_keepsSnapshot : KeepsSnapshot scenarioCode := by
  constructor
  · intro id h ud sh u
    cases id with
    | zero => exact removeFDPoll_unflagged sh h
    | succ n =>
      simp only [scenarioCode]
      split
      · rw [handlerAfter_addFDPoll_snapshot]
      · rfl
  · exact scenarioCode_firedKeepsSnapshot
  · intro id h ud sh u
    cases id <;> rfl
  · intro id h ud sh u
    cases id <;> rfl
  · intro id h ud sh u
    rfl

/-- The loop keeps the agreement of the polling array with the snapshot from iteration to
iteration. -/
theorem listenLoop_projection {U : Type} (uc : UserCode U) (hkeep : KeepsSnapshot uc) (fuel : Nat) :
    ∀ (ws : List Wake) (l l1 : Loop U), Projection l →
      (listenLoop uc fuel ws l).state? = some l1 → Projection l1 := by
  intro ws
  induction ws with
  | nil =>
    intro l l1 hp h
    unfold listenLoop at h
    by_cases hd : l.sh.mDispatchDone = true
    · rw [if_pos hd] at h
      simp only [Run.state?, Option.some.injEq] at h
      exact h ▸ hp
    · rw [if_neg hd] at h
      simp [Run.state?] at h
  | cons w rest ih =>
    intro l l1 hp h
    unfold listenLoop at h
    by_cases hd : l.sh.mDispatchDone = true
    · rw [if_pos hd] at h
      simp only [Run.state?, Option.some.injEq] at h
      exact h ▸ hp
    · rw [if_neg hd] at h
      cases hi : iteration uc fuel w l with
      | done l2 =>
        rw [hi] at h
        dsimp only at h
        exact ih l2 l1 (iteration_projection uc hkeep fuel w l l2 (Or.inr hp) (by rw [hi]; rfl)) h
      | raised l2 =>
        rw [hi] at h
        simp only [Run.state?, Option.some.injEq] at h
        subst h
        exact iteration_projection uc hkeep fuel w l l2 (Or.inr hp) (by rw [hi]; rfl)
      | endless =>
        rw [hi] at h
        simp [Run.state?] at h

/-- The agreement of the polling array with the snapshot, position by position. -/
theorem projection_index {U : Type} (l : Loop U) (hp : Projection l) :
    l.fdPollingArray.length = l.sh.mListActivePolls.length
      ∧ ∀ (i : Nat) (e : sh_poll_s), l.sh.mListActivePolls[i]? = some e →
          ∃ p, l.fdPollingArray[i]? = some p ∧ p.fd = e.pollfdValue.fd
            ∧ p.events = e.pollfdValue.events := by
  unfold Projection at hp
  constructor
  · have := congrArg List.length hp
    simpa using this
  · intro i e he
    have := congrArg (fun L => L[i]?) hp
    simp only [List.getElem?_map, he, Option.map_some'] at this
    cases hq : l.fdPollingArray[i]? with
    | none => simp [hq] at this
    | some p =>
      simp only [hq, Option.map_some', Option.some.injEq, pollfd.watch, Prod.mk.injEq] at this
      exact ⟨p, rfl, this.1, this.2⟩

/-! ## Lemmas on the time values and the sorted list -/

theorem timespecSub_normal (a b : timespec) (ha : a.Normal) : (timespecSub a b).Normal := by
  unfold timespec.Normal timespecSub MAX_NS at *
  split
  · simp
  · split
    · dsimp only; omega
    · dsimp only; omega

theorem toNs_timespecSub (a b : timespec) (ha : a.Normal) (hb : b.Normal) :
    (timespecSub a b).toNs = a.toNs - b.toNs := by
  unfold timespec.Normal timespecSub timespec.toNs MAX_NS at *
  split
  · dsimp only; omega
  · split
    · dsimp only; omega
    · dsimp only; omega

theorem timespecAdd_normal (a b : timespec) (ha : a.Normal) (hb : b.Normal) :
    (timespecAdd a b).Normal := by
  unfold timespec.Normal timespecAdd MAX_NS at *
  split
  · dsimp only; omega
  · dsimp only; omega

theorem toNs_timespecAdd (a b : timespec) :
    (timespecAdd a b).toNs = a.toNs + b.toNs := by
  unfold timespecAdd timespec.toNs MAX_NS at *
  split
  · dsimp only; omega
  · dsimp only; omega

theorem timespec_eq_of_toNs (a b : timespec) (ha : a.Normal) (hb : b.Normal)
    (h : a.toNs = b.toNs) : a = b := by
  cases a with
  | mk s1 n1 =>
    cases b with
    | mk s2 n2 =>
      unfold timespec.Normal timespec.toNs MAX_NS at *
      dsimp only at *
      have h1 : s1 = s2 := by omega
      have h2 : n1 = n2 := by omega
      rw [h1, h2]

theorem timespecLe_iff_toNs (a b : timespec) (ha : a.Normal) (hb : b.Normal) :
    timespecLe a b = true ↔ a.toNs ≤ b.toNs := by
  unfold timespecLe timespec.Normal timespec.toNs MAX_NS at *
  simp only [decide_eq_true_eq]
  constructor
  · intro h; omega
  · intro h; omega

theorem compareCountdown_iff_toNs (a b : sh_timer_s) (ha : a.countdown.Normal)
    (hb : b.countdown.Normal) :
    compareCountdown a b = true ↔ a.countdown.toNs < b.countdown.toNs := by
  unfold compareCountdown timespec.Normal timespec.toNs MAX_NS at *
  split
  · simp only [decide_eq_true_eq]
    constructor
    · intro h; omega
    · intro h; omega
  · simp only [decide_eq_true_eq]
    constructor
    · intro h; omega
    · intro h; omega

/-- The comparison of the sort is the strict part of "at most". -/
theorem compareCountdown_eq_not_le (a b : sh_timer_s) :
    compareCountdown a b = !timespecLe b.countdown a.countdown := by
  unfold compareCountdown timespecLe
  by_cases h : a.countdown.tv_sec = b.countdown.tv_sec
  · rw [if_pos h]
    by_cases h2 : a.countdown.tv_nsec < b.countdown.tv_nsec
    · have : ¬ (b.countdown.tv_sec < a.countdown.tv_sec
          ∨ (b.countdown.tv_sec = a.countdown.tv_sec
              ∧ b.countdown.tv_nsec ≤ a.countdown.tv_nsec)) := by omega
      simp [h2, this]
    · have : (b.countdown.tv_sec < a.countdown.tv_sec
          ∨ (b.countdown.tv_sec = a.countdown.tv_sec
              ∧ b.countdown.tv_nsec ≤ a.countdown.tv_nsec)) := by omega
      simp [h2, this]
  · rw [if_neg h]
    by_cases h2 : a.countdown.tv_sec < b.countdown.tv_sec
    · have : ¬ (b.countdown.tv_sec < a.countdown.tv_sec
          ∨ (b.countdown.tv_sec = a.countdown.tv_sec
              ∧ b.countdown.tv_nsec ≤ a.countdown.tv_nsec)) := by omega
      simp [h2, this]
    · have : (b.countdown.tv_sec < a.countdown.tv_sec
          ∨ (b.countdown.tv_sec = a.countdown.tv_sec
              ∧ b.countdown.tv_nsec ≤ a.countdown.tv_nsec)) := by omega
      simp [h2, this]

theorem timespecLe_trans (a b c : timespec) (h1 : timespecLe a b = true)
    (h2 : timespecLe b c = true) : timespecLe a c = true := by
  unfold timespecLe at *
  simp only [decide_eq_true_eq] at *
  omega

theorem timespecLe_total (a b : timespec) : timespecLe a b = true ∨ timespecLe b a = true := by
  unfold timespecLe
  simp only [decide_eq_true_eq]
  omega

theorem compareCountdown_false_iff (a b : sh_timer_s) :
    compareCountdown a b = false ↔ timespecLe b.countdown a.countdown = true := by
  rw [compareCountdown_eq_not_le]
  cases timespecLe b.countdown a.countdown <;> simp

theorem sortInsert_mem {α : Type} (lt : α → α → Bool) (x : α) (l : List α) (z : α) :
    z ∈ sortInsert lt x l ↔ z = x ∨ z ∈ l := by
  induction l with
  | nil => simp [sortInsert]
  | cons y ys ih =>
    unfold sortInsert
    split
    · simp only [List.mem_cons, ih]
      tauto
    · simp only [List.mem_cons]

theorem sortInsert_perm {α : Type} (lt : α → α → Bool) (x : α) (l : List α) :
    (sortInsert lt x l).Perm (x :: l) := by
  induction l with
  | nil => exact List.Perm.refl _
  | cons y ys ih =>
    unfold sortInsert
    split
    · exact (List.Perm.cons y ih).trans (List.Perm.swap x y ys)
    · exact List.Perm.refl _

theorem listSort_perm {α : Type} (lt : α → α → Bool) (l : List α) : (listSort lt l).Perm l := by
  induction l with
  | nil => exact List.Perm.refl _
  | cons x xs ih =>
    unfold listSort
    exact (sortInsert_perm lt x _).trans (List.Perm.cons x ih)

theorem sortInsert_sorted (x : sh_timer_s) (l : List sh_timer_s) (h : ActiveSorted l) :
    ActiveSorted (sortInsert compareCountdown x l) := by
  induction l with
  | nil => simp [sortInsert, ActiveSorted]
  | cons y ys ih =>
    unfold sortInsert
    have hy := List.pairwise_cons.mp h
    by_cases hlt : compareCountdown y x = true
    · rw [if_pos hlt]
      refine List.pairwise_cons.mpr ⟨?_, ih hy.2⟩
      intro z hz
      rcases (sortInsert_mem _ _ _ _).mp hz with hz | hz
      · subst hz
        rw [compareCountdown_false_iff]
        rw [compareCountdown_eq_not_le] at hlt
        rcases timespecLe_total y.countdown z.countdown with ht | ht
        · exact ht
        · simp [ht] at hlt
      · exact hy.1 z hz
    · rw [if_neg hlt]
      have hxy : timespecLe x.countdown y.countdown = true := by
        rw [← compareCountdown_false_iff]
        simpa using hlt
      refine List.pairwise_cons.mpr ⟨?_, h⟩
      intro z hz
      rcases List.mem_cons.mp hz with hz | hz
      · subst hz
        simpa using hlt
      · rw [compareCountdown_false_iff]
        have := hy.1 z hz
        rw [compareCountdown_false_iff] at this
        exact timespecLe_trans _ _ _ hxy this

theorem listSort_sorted (l : List sh_timer_s) : ActiveSorted (listSort compareCountdown l) := by
  induction l with
  | nil => simp [listSort, ActiveSorted]
  | cons x xs ih =>
    unfold listSort
    exact sortInsert_sorted x _ ih

theorem listSort_mem (l : List sh_timer_s) (z : sh_timer_s) :
    z ∈ listSort compareCountdown l ↔ z ∈ l :=
  (listSort_perm compareCountdown l).mem_iff

/-- Taking the same time from every countdown keeps the list sorted. -/
theorem sorted_map_sub (d : timespec) (hd : d.Normal) (l : List sh_timer_s)
    (hn : ∀ t ∈ l, t.countdown.Normal) (h : ActiveSorted l) :
    ActiveSorted (l.map (fun t => { t with countdown := timespecSub t.countdown d })) := by
  unfold ActiveSorted at *
  rw [List.pairwise_map]
  refine List.Pairwise.imp_of_mem ?_ h
  intro a b ha hb hab
  have hna := hn a ha
  have hnb := hn b hb
  have h1 : ¬ b.countdown.toNs < a.countdown.toNs := by
    intro hc
    have := (compareCountdown_iff_toNs b a hnb hna).mpr hc
    rw [hab] at this
    exact Bool.false_ne_true this
  cases hc : compareCountdown { b with countdown := timespecSub b.countdown d }
      { a with countdown := timespecSub a.countdown d } with
  | false => rfl
  | true =>
    have := (compareCountdown_iff_toNs _ _ (timespecSub_normal _ d hnb)
      (timespecSub_normal _ d hna)).mp hc
    dsimp only at this
    rw [toNs_timespecSub _ _ hnb hd, toNs_timespecSub _ _ hna hd] at this
    omega

theorem map_sub_normal (d : timespec) (l : List sh_timer_s)
    (hn : ∀ t ∈ l, t.countdown.Normal) :
    ∀ t ∈ l.map (fun t => { t with countdown := timespecSub t.countdown d }),
      t.countdown.Normal := by
  intro t ht
  obtain ⟨a, ha, rfl⟩ := List.mem_map.mp ht
  exact timespecSub_normal _ d (hn a ha)

/-! ## Lemmas on lists with handles -/

theorem map_key_eraseIdx_scanFor {α : Type} (key : α → Nat) (h : Nat) (l : List α) :
    (l.eraseIdx (scanFor (fun e => key e == h) l)).map key = (l.map key).erase h := by
  induction l with
  | nil => simp [scanFor]
  | cons x xs ih =>
    by_cases hx : key x = h
    · simp [scanFor, hx]
    · have hx2 : (key x == h) = false := by simpa using hx
      simp [scanFor, hx2, List.erase_cons, ih]

/-- Erasing the first element with the handle `h` from a list whose handles are pairwise
distinct and live: the handles stay distinct and are live in the set without `h`. -/
theorem keyed_erase {α : Type} (key : α → Nat) (h : Nat) (l : List α) (S : Finset Nat)
    (hn : (l.map key).Nodup) (hl : ∀ e ∈ l, key e ∈ S) :
    ((l.eraseIdx (scanFor (fun e => key e == h) l)).map key).Nodup
      ∧ ∀ e ∈ l.eraseIdx (scanFor (fun e => key e == h) l), key e ∈ S.erase h := by
  have hmap := map_key_eraseIdx_scanFor key h l
  constructor
  · rw [hmap]
    exact hn.erase _
  · intro e he
    have hmem : key e ∈ (l.map key).erase h := by
      rw [← hmap]
      exact List.mem_map_of_mem _ he
    have hne : key e ≠ h := fun hc => by
      rw [hc] at hmem
      exact (List.Nodup.not_mem_erase hn) hmem
    have hin : key e ∈ l.map key := List.mem_of_mem_erase hmem
    obtain ⟨e2, he2, heq⟩ := List.mem_map.mp hin
    simp only [Finset.mem_erase]
    exact ⟨hne, heq ▸ hl e2 he2⟩

/-- Appending an element with a handle that is not live to a list whose handles are pairwise
distinct and live: the handles stay distinct and are live in the set with the new handle. -/
theorem keyed_append {α : Type} (key : α → Nat) (l : List α) (x : α) (S : Finset Nat)
    (hn : (l.map key).Nodup) (hl : ∀ e ∈ l, key e ∈ S) (hx : key x ∉ S) :
    ((l ++ [x]).map key).Nodup ∧ ∀ e ∈ l ++ [x], key e ∈ insert (key x) S := by
  constructor
  · simp only [List.map_append, List.map_cons, List.map_nil]
    rw [List.nodup_append]
    refine ⟨hn, by simp, ?_⟩
    intro a ha hb
    simp only [List.mem_singleton] at hb
    subst hb
    obtain ⟨e, he, hea⟩ := List.mem_map.mp ha
    exact hx (hea ▸ hl e he)
  · intro e he
    simp only [List.mem_append, List.mem_singleton] at he
    rcases he with he | he
    · exact Finset.mem_insert_of_mem (hl e he)
    · subst he
      exact Finset.mem_insert_self _ _

theorem mem_assignFirst {α : Type} (p : α → Bool) (f : α → α) (l : List α) (z : α)
    (h : z ∈ assignFirst p f l) : z ∈ l ∨ ∃ a ∈ l, z = f a := by
  induction l with
  | nil => simp [assignFirst] at h
  | cons x xs ih =>
    unfold assignFirst at h
    by_cases hx : p x = true
    · rw [if_pos hx] at h
      rcases List.mem_cons.mp h with h | h
      · exact Or.inr ⟨x, List.mem_cons_self _ _, h⟩
      · exact Or.inl (List.mem_cons_of_mem _ h)
    · rw [if_neg hx] at h
      rcases List.mem_cons.mp h with h | h
      · exact Or.inl (h ▸ List.mem_cons_self _ _)
      · rcases ih h with h2 | ⟨a, ha, h2⟩
        · exact Or.inl (List.mem_cons_of_mem _ h2)
        · exact Or.inr ⟨a, List.mem_cons_of_mem _ ha, h2⟩

theorem map_key_assignFirst {α : Type} (key : α → Nat) (p : α → Bool) (f : α → α)
    (hf : ∀ e, key (f e) = key e) (l : List α) :
    (assignFirst p f l).map key = l.map key := by
  induction l with
  | nil => simp [assignFirst]
  | cons x xs ih =>
    by_cases hx : p x = true
    · simp [assignFirst, hx, hf]
    · simp [assignFirst, hx, ih]

/-- What a successful allocation gives on an allocator with the limit `L` and the cursor below
it: a handle in `[1, L-1]` that was not live, added to the live set. -/
theorem nextHandle_true_spec (L : Nat) (hL : 2 ≤ L) (h16 : L ≤ 65535) (k k1 : sh_identifier_s)
    (hlim : k.limit = L) (hcur : k.lastUsedID < L) (h : nextHandle k = some (true, k1)) :
    k1.lastUsedID ∉ k.pollHandles ∧ k1.pollHandles = insert k1.lastUsedID k.pollHandles
      ∧ k1.limit = L ∧ 1 ≤ k1.lastUsedID ∧ k1.lastUsedID < L := by
  have ht := nextHandleLoop_true _ _ _ _ h
  have hr := nextHandleLoop_true_range _ L hL h16 _ _ _ hlim hcur h
  exact ⟨ht.1, ht.2.1, by rw [ht.2.2]; exact hlim, hr.1, hr.2⟩

/-- The allocator loop ends on an allocator with the limit `L`, the cursor below it, and
nothing live while the cursor is on the reserved handle 0. -/
theorem nextHandle_ends (L : Nat) (hL : 2 ≤ L) (h16 : L ≤ 65535) (k : sh_identifier_s)
    (hlim : k.limit = L) (hcur : k.lastUsedID < L) (hzero : k.lastUsedID = 0 → k.pollHandles = ∅) :
    ∃ r, nextHandle k = some r := by
  unfold nextHandle
  by_cases h0 : k.lastUsedID = 0
  · have he := hzero h0
    have hstep := nextHandleLoop_succ k.lastUsedID 65535 k
    have hr := nextCursor_range L k.lastUsedID hL h16 hcur
    rw [hlim] at hstep
    have h1 : ¬ nextCursor L k.lastUsedID = k.lastUsedID := by omega
    have h2 : nextCursor L k.lastUsedID ∉ k.pollHandles := by
      rw [he]; simp
    simp only [h1, h2, if_false] at hstep
    exact ⟨_, hstep⟩
  · exact nextHandleLoop_ends _ L hL h16 (by omega) hcur (L - 1) handleWidth _
      hlim (by omega) hcur (by simp; omega)
      (by unfold handleWidth; omega)

/-! ## Lemmas on the list timers -/

/-- What `addTimer` does, by the two ways it ends. -/
theorem addTimer_cases (s : CAmSocketHandler) (currentTime timeouts : timespec)
    (callback : Option Nat) (userData handle : Nat) (r : am_Error_e × Nat × CAmSocketHandler)
    (h : addTimer s currentTime timeouts callback userData handle = some r) :
    (nextHandle s.mSetTimerKeys = some (false, s.mSetTimerKeys) ∧ r = (E_NOT_POSSIBLE, handle, s))
    ∨ (∃ keys, nextHandle s.mSetTimerKeys = some (true, keys)
        ∧ r = (E_OK, keys.lastUsedID,
            { s with mSetTimerKeys := keys
                     mListTimer := s.mListTimer ++
                       [{ handle := keys.lastUsedID
                          countdown := if s.mDispatchDone then timeouts
                            else timespecAdd timeouts (timespecSub currentTime s.mStartTime)
                          callback := callback, userData := userData }]
                     mListActiveTimer := listSort compareCountdown (s.mListActiveTimer ++
                       [{ handle := keys.lastUsedID
                          countdown := if s.mDispatchDone then timeouts
                            else timespecAdd timeouts (timespecSub currentTime s.mStartTime)
                          callback := callback, userData := userData }]) })) := by
  unfold addTimer at h
  cases hn : nextHandle s.mSetTimerKeys with
  | none => simp [hn] at h
  | some p =>
    obtain ⟨b, keys⟩ := p
    cases b with
    | false =>
      have hk := nextHandle_false _ _ hn
      subst hk
      simp only [hn, Option.some.injEq] at h
      left
      exact ⟨rfl, h.symm⟩
    | true =>
      simp only [hn, Option.some.injEq] at h
      right
      refine ⟨keys, rfl, ?_⟩
      rw [← h]
      cases hd : s.mDispatchDone <;> simp

theorem timerInv_addTimer (T : Nat) (hT : 2 ≤ T) (h16 : T ≤ 65535) (s : CAmSocketHandler)
    (currentTime timeouts : timespec) (callback : Option Nat) (userData handle : Nat)
    (r : am_Error_e × Nat × CAmSocketHandler) (hi : TimerInv T s) (hnow : currentTime.Normal)
    (hd : timeouts.Normal)
    (h : addTimer s currentTime timeouts callback userData handle = some r) :
    TimerInv T r.2.2 := by
  rcases addTimer_cases _ _ _ _ _ _ _ h with ⟨_, rfl⟩ | ⟨keys, hk, rfl⟩
  · exact hi
  · obtain ⟨k1, k2, k3, k4, k5⟩ := nextHandle_true_spec T hT h16 _ _ hi.limit_eq hi.cursor_lt hk
    have hcd : (if s.mDispatchDone then timeouts
        else timespecAdd timeouts (timespecSub currentTime s.mStartTime)).Normal := by
      split
      · exact hd
      · exact timespecAdd_normal _ _ hd (timespecSub_normal _ _ hnow)
    have hk := keyed_append sh_timer_s.handle s.mListTimer
      { handle := keys.lastUsedID
        countdown := if s.mDispatchDone then timeouts
          else timespecAdd timeouts (timespecSub currentTime s.mStartTime)
        callback := callback, userData := userData } s.mSetTimerKeys.pollHandles hi.nodup hi.live k1
    refine ⟨listSort_sorted _, ?_, ?_, hi.startNormal, hk.1, ?_, k3, k5, ?_⟩
    · intro t ht
      rw [listSort_mem] at ht
      rcases List.mem_append.mp ht with ht | ht
      · exact hi.activeNormal t ht
      · simp only [List.mem_singleton] at ht
        subst ht
        exact hcd
    · intro t ht
      rcases List.mem_append.mp ht with ht | ht
      · exact hi.timerNormal t ht
      · simp only [List.mem_singleton] at ht
        subst ht
        exact hcd
    · intro t ht
      dsimp only
      rw [k2]
      exact hk.2 t ht
    · intro h0
      dsimp only at h0
      omega

theorem timerInv_stopTimer (T : Nat) (s : CAmSocketHandler) (handle : Nat) (hi : TimerInv T s) :
    TimerInv T (stopTimer s handle).2 := by
  unfold stopTimer
  dsimp only
  split
  · exact ⟨hi.sorted.sublist (List.eraseIdx_sublist _ _),
      fun t ht => hi.activeNormal t ((List.eraseIdx_sublist _ _).subset ht),
      hi.timerNormal, hi.startNormal, hi.nodup, hi.live, hi.limit_eq, hi.cursor_lt, hi.cursor_zero⟩
  · exact hi

theorem timerInv_removeTimer (T : Nat) (s : CAmSocketHandler) (handle : Nat) (hi : TimerInv T s) :
    TimerInv T (removeTimer s handle).2 := by
  have h1 := timerInv_stopTimer T s handle hi
  unfold removeTimer
  dsimp only
  generalize (stopTimer s handle).2 = s1 at h1
  split
  · have hk := keyed_erase sh_timer_s.handle handle s1.mListTimer s1.mSetTimerKeys.pollHandles
      h1.nodup h1.live
    refine ⟨h1.sorted, h1.activeNormal,
      fun t ht => h1.timerNormal t ((List.eraseIdx_sublist _ _).subset ht),
      h1.startNormal, hk.1, hk.2, h1.limit_eq, h1.cursor_lt, ?_⟩
    intro h0
    dsimp only at h0 ⊢
    rw [h1.cursor_zero h0]
    rfl
  · exact h1

theorem timerInv_updateTimer (T : Nat) (s : CAmSocketHandler) (currentTime : timespec)
    (handle : Nat) (timeouts : timespec) (hi : TimerInv T s) (hnow : currentTime.Normal)
    (hd : timeouts.Normal) : TimerInv T (updateTimer s currentTime handle timeouts).2 := by
  unfold updateTimer
  cases hf : s.mListTimer.find? (fun t => t.handle == handle) with
  | none => exact hi
  | some it =>
    dsimp only
    have hcorr : (if (!s.mDispatchDone) = true then
        timespecAdd timeouts (timespecSub currentTime s.mStartTime)
        else ({ tv_sec := 0, tv_nsec := 0 } : timespec)).Normal := by
      split
      · exact timespecAdd_normal _ _ hd (timespecSub_normal _ _ hnow)
      · show (0 : Nat) < MAX_NS
        unfold MAX_NS
        omega
    have hmap := map_key_assignFirst sh_timer_s.handle (fun t => t.handle == handle)
      (fun t => { t with countdown := timeouts }) (fun _ => rfl) s.mListTimer
    refine ⟨listSort_sorted _, ?_, ?_, hi.startNormal, by rw [hmap]; exact hi.nodup, ?_,
      hi.limit_eq, hi.cursor_lt, hi.cursor_zero⟩
    · intro t ht
      rw [listSort_mem] at ht
      rcases List.mem_append.mp ht with ht | ht
      · rcases mem_assignFirst _ _ _ _ ht with ht | ⟨a, _, rfl⟩
        · exact hi.activeNormal t ht
        · exact hcorr
      · simp only [List.mem_singleton] at ht
        subst ht
        split
        · exact hcorr
        · exact hd
    · intro t ht
      rcases mem_assignFirst _ _ _ _ ht with ht | ⟨a, _, rfl⟩
      · exact hi.timerNormal t ht
      · exact hd
    · intro t ht
      have : t.handle ∈ s.mListTimer.map sh_timer_s.handle := by
        rw [← hmap]
        exact List.mem_map_of_mem _ ht
      obtain ⟨e2, he2, heq⟩ := List.mem_map.mp this
      exact heq ▸ hi.live e2 he2

theorem timerInv_restartTimer (T : Nat) (s : CAmSocketHandler) (currentTime : timespec)
    (handle : Nat) (hi : TimerInv T s) (hnow : currentTime.Normal) :
    TimerInv T (restartTimer s currentTime handle).2 := by
  unfold restartTimer
  cases hf : s.mListTimer.find? (fun t => t.handle == handle) with
  | none => exact hi
  | some it =>
    dsimp only
    have hit : it.countdown.Normal := hi.timerNormal it (List.mem_of_find?_eq_some hf)
    have hcorr : (if (!s.mDispatchDone) = true then
        ({ it with countdown := timespecAdd it.countdown (timespecSub currentTime s.mStartTime) }
          : sh_timer_s)
        else it).countdown.Normal := by
      split
      · exact timespecAdd_normal _ _ hit (timespecSub_normal _ _ hnow)
      · exact hit
    refine ⟨listSort_sorted _, ?_, hi.timerNormal, hi.startNormal, hi.nodup, hi.live,
      hi.limit_eq, hi.cursor_lt, hi.cursor_zero⟩
    intro t ht
    rw [listSort_mem] at ht
    have hin : ∀ t ∈ assignFirst (fun t => t.handle == handle)
        (fun t => { t with countdown :=
          (if (!s.mDispatchDone) = true then
            ({ it with countdown :=
                timespecAdd it.countdown (timespecSub currentTime s.mStartTime) } : sh_timer_s)
            else it).countdown }) s.mListActiveTimer, t.countdown.Normal := by
      intro t ht
      rcases mem_assignFirst _ _ _ _ ht with ht | ⟨a, _, rfl⟩
      · exact hi.activeNormal t ht
      · exact hcorr
    split at ht
    · rcases List.mem_append.mp ht with ht | ht
      · exact hin t ht
      · simp only [List.mem_singleton] at ht
        subst ht
        exact hcorr
    · exact hin t ht

theorem timerInv_stop_listening (T : Nat) (s : CAmSocketHandler) (currentTime : timespec)
    (hi : TimerInv T s) (hnow : currentTime.Normal) :
    TimerInv T (stop_listening s currentTime) := by
  unfold stop_listening
  dsimp only
  split
  · exact ⟨hi.sorted, hi.activeNormal, hi.timerNormal, hi.startNormal, hi.nodup, hi.live,
      hi.limit_eq, hi.cursor_lt, hi.cursor_zero⟩
  · exact ⟨sorted_map_sub _ (timespecSub_normal _ _ hnow) _ hi.activeNormal hi.sorted,
      map_sub_normal _ _ hi.activeNormal, hi.timerNormal, hi.startNormal, hi.nodup, hi.live,
      hi.limit_eq, hi.cursor_lt, hi.cursor_zero⟩

theorem timerInv_callTimer {U : Type} (T : Nat) (uc : UserCode U) (hcb : TimerCallbacksKeep T uc)
    (l : Loop U) (a : sh_timer_s) (hi : TimerInv T l.sh) : TimerInv T (callTimer uc l a).sh := by
  unfold callTimer
  cases h : a.callback with
  | none => exact hi
  | some id => exact hcb _ _ _ _ _ hi

theorem timerInv_foldl_callTimer {U : Type} (T : Nat) (uc : UserCode U)
    (hcb : TimerCallbacksKeep T uc) (ts : List sh_timer_s) (l : Loop U) (hi : TimerInv T l.sh) :
    TimerInv T (ts.foldl (callTimer uc) l).sh := by
  induction ts generalizing l with
  | nil => exact hi
  | cons t ts ih => exact ih _ (timerInv_callTimer T uc hcb l t hi)

theorem timerInv_timerUp {U : Type} (T : Nat) (uc : UserCode U) (hcb : TimerCallbacksKeep T uc)
    (currentTime : timespec) (l : Loop U) (hi : TimerInv T l.sh) :
    TimerInv T (timerUp uc currentTime l).sh := by
  unfold timerUp
  dsimp only
  apply timerInv_foldl_callTimer T uc hcb
  exact ⟨hi.sorted.sublist (List.drop_sublist _ _),
    fun t ht => hi.activeNormal t ((List.drop_sublist _ _).subset ht),
    hi.timerNormal, hi.startNormal, hi.nodup, hi.live, hi.limit_eq, hi.cursor_lt, hi.cursor_zero⟩

theorem timerInv_timerCorrection {U : Type} (T : Nat) (uc : UserCode U)
    (hcb : TimerCallbacksKeep T uc) (currentTime : timespec) (l : Loop U) (hi : TimerInv T l.sh)
    (hnow : currentTime.Normal) : TimerInv T (timerCorrection uc currentTime l).sh := by
  unfold timerCorrection
  dsimp only
  have hsub : currentTime.Normal := hnow
  have hmapS := sorted_map_sub (timespecSub currentTime l.sh.mStartTime)
    (timespecSub_normal _ _ hnow) _ hi.activeNormal hi.sorted
  have hmapN := map_sub_normal (timespecSub currentTime l.sh.mStartTime) _ hi.activeNormal
  split
  · exact ⟨hi.sorted, hi.activeNormal, hi.timerNormal, hnow, hi.nodup, hi.live,
      hi.limit_eq, hi.cursor_lt, hi.cursor_zero⟩
  · split
    · apply timerInv_foldl_callTimer T uc hcb
      exact ⟨hmapS.sublist (List.drop_sublist _ _),
        fun t ht => hmapN t ((List.drop_sublist _ _).subset ht),
        hi.timerNormal, hnow, hi.nodup, hi.live, hi.limit_eq, hi.cursor_lt, hi.cursor_zero⟩
    · exact ⟨hmapS, hmapN, hi.timerNormal, hnow, hi.nodup, hi.live,
        hi.limit_eq, hi.cursor_lt, hi.cursor_zero⟩

/-- In a state the handler gets into, the timer functions have kept what they keep. -/
theorem timerInv_of_reachable (T : Nat) (hT : 2 ≤ T) (h16 : T ≤ 65535) (s : CAmSocketHandler)
    (hs : TimerReachable T s) : TimerInv T s := by
  induction hs with
  | ctor s h1 h2 h3 h4 =>
    refine ⟨by rw [h3]; exact List.Pairwise.nil, by simp [h3], by simp [h2], h4, by simp [h2],
      by simp [h2], by simp [h1, sh_identifier_s.new], by simp [h1, sh_identifier_s.new]; omega, ?_⟩
    intro _
    simp [h1, sh_identifier_s.new]
  | addTimer s currentTime timeouts callback userData handle r _ hnow hd hr ih =>
    exact timerInv_addTimer T hT h16 s currentTime timeouts callback userData handle r ih hnow hd hr
  | removeTimer s handle _ ih => exact timerInv_removeTimer T s handle ih
  | stopTimer s handle _ ih => exact timerInv_stopTimer T s handle ih
  | updateTimer s currentTime handle timeouts _ hnow hd ih =>
    exact timerInv_updateTimer T s currentTime handle timeouts ih hnow hd
  | restartTimer s currentTime handle _ hnow ih =>
    exact timerInv_restartTimer T s currentTime handle ih hnow
  | stop_listening s currentTime _ hnow ih => exact timerInv_stop_listening T s currentTime ih hnow
  | timerCorrection uc currentTime l _ hnow hcb ih =>
    exact timerInv_timerCorrection T uc hcb currentTime l ih hnow
  | timerUp uc currentTime l _ hnow hcb ih => exact timerInv_timerUp T uc hcb currentTime l ih
  | other s t _ h1 h2 h3 h4 ih =>
    exact ⟨by rw [h3]; exact ih.sorted, by rw [h3]; exact ih.activeNormal,
      by rw [h2]; exact ih.timerNormal, h4, by rw [h2]; exact ih.nodup,
      by rw [h1, h2]; exact ih.live, by rw [h1]; exact ih.limit_eq,
      by rw [h1]; exact ih.cursor_lt, by rw [h1]; exact ih.cursor_zero⟩

/-! ## Lemmas on the timers that are up -/

theorem scanFor_append_of_none {α : Type} (p : α → Bool) (A B : List α)
    (h : ∀ x ∈ A, p x = false) : scanFor p (A ++ B) = A.length + scanFor p B := by
  induction A with
  | nil => simp
  | cons x xs ih =>
    have hx : p x = false := h x (List.mem_cons_self _ _)
    have := ih (fun y hy => h y (List.mem_cons_of_mem _ hy))
    show scanFor p (x :: (xs ++ B)) = (x :: xs).length + scanFor p B
    simp only [scanFor, hx, Bool.false_eq_true, if_false, List.length_cons]
    rw [this]
    omega

theorem scanFor_of_all {α : Type} (p : α → Bool) (A : List α) (h : ∀ x ∈ A, p x = true) :
    scanFor p A = 0 := by
  cases A with
  | nil => rfl
  | cons x xs => simp [scanFor, h x (List.mem_cons_self _ _)]

/-- The reverse scan of `timerUp` and `timerCorrection` on a list that is a run of elements with
the property followed by a run of elements without it: it stops after the second run, the
range from there to `rend()` is the first run backwards, and erasing up to `base()` leaves the
second run. -/
theorem reverse_scan_split {α : Type} (p : α → Bool) (P Q : List α)
    (hP : ∀ x ∈ P, p x = true) (hQ : ∀ x ∈ Q, p x = false) :
    scanFor p (P ++ Q).reverse = Q.length
      ∧ (P ++ Q).reverse.drop (scanFor p (P ++ Q).reverse) = P.reverse
      ∧ (P ++ Q).drop ((P ++ Q).length - scanFor p (P ++ Q).reverse) = Q := by
  have h1 : scanFor p (P ++ Q).reverse = Q.length := by
    rw [List.reverse_append, scanFor_append_of_none p _ _ (by simpa using hQ),
      scanFor_of_all p _ (by simpa using hP)]
    simp
  refine ⟨h1, ?_, ?_⟩
  · rw [h1, List.reverse_append]
    have : Q.length = Q.reverse.length := by simp
    rw [this, List.drop_left]
  · rw [h1]
    have : (P ++ Q).length - Q.length = P.length := by simp
    rw [this, List.drop_left]

/-- A sorted list is the run of its timers with a countdown of at most `d`, followed by the run
of the others. -/
theorem sorted_split (d : timespec) (L : List sh_timer_s) (h : ActiveSorted L) :
    L = L.filter (fun t => timespecLe t.countdown d)
          ++ L.filter (fun t => !timespecLe t.countdown d) := by
  induction L with
  | nil => rfl
  | cons x xs ih =>
    have hx := List.pairwise_cons.mp h
    by_cases hp : timespecLe x.countdown d = true
    · have e1 : (x :: xs).filter (fun t => timespecLe t.countdown d)
          = x :: xs.filter (fun t => timespecLe t.countdown d) := by
        simp [List.filter_cons, hp]
      have e2 : (x :: xs).filter (fun t => !timespecLe t.countdown d)
          = xs.filter (fun t => !timespecLe t.countdown d) := by
        simp [List.filter_cons, hp]
      rw [e1, e2, List.cons_append, ← ih hx.2]
    · have hall : ∀ y ∈ xs, timespecLe y.countdown d = false := by
        intro y hy
        have h1 := hx.1 y hy
        rw [compareCountdown_false_iff] at h1
        cases hc : timespecLe y.countdown d with
        | false => rfl
        | true => exact absurd (timespecLe_trans _ _ _ h1 hc) hp
      have hp2 : timespecLe x.countdown d = false := by simpa using hp
      have e1 : (x :: xs).filter (fun t => timespecLe t.countdown d) = [] := by
        rw [List.filter_eq_nil_iff]
        intro y hy
        rcases List.mem_cons.mp hy with hy | hy
        · subst hy; simp [hp2]
        · simp [hall y hy]
      have e2 : (x :: xs).filter (fun t => !timespecLe t.countdown d) = x :: xs := by
        rw [List.filter_eq_self]
        intro y hy
        rcases List.mem_cons.mp hy with hy | hy
        · subst hy; simp [hp2]
        · simp [hall y hy]
      rw [e1, e2]
      rfl

/-- A countdown less `d` is zero exactly when the countdown is at most `d`. -/
theorem timespecSub_zero_iff (a d : timespec) (hd : d.Normal) :
    ((timespecSub a d).tv_nsec == 0 && (timespecSub a d).tv_sec == 0) = timespecLe a d := by
  unfold timespecLe timespecSub timespec.Normal MAX_NS at *
  by_cases h : a.tv_sec < d.tv_sec ∨ (a.tv_sec = d.tv_sec ∧ a.tv_nsec ≤ d.tv_nsec)
  · rw [if_pos h]
    simp [h]
  · rw [if_neg h]
    by_cases h2 : a.tv_nsec < d.tv_nsec
    · rw [if_pos h2]
      have : ¬ (a.tv_nsec + 1000000000 - d.tv_nsec = 0) := by omega
      simp [h, this]
    · rw [if_neg h2]
      have : ¬ (a.tv_nsec - d.tv_nsec = 0 ∧ a.tv_sec - d.tv_sec = 0) := by omega
      simp only [decide_eq_false h]
      simp only [beq_iff_eq, Bool.and_eq_false_iff, beq_eq_false_iff_ne, ne_eq]
      omega

theorem countdownUp_eq (d : timespec) (hd : d.Normal) (t : sh_timer_s) :
    countdownUp d t = timespecLe t.countdown d := by
  unfold countdownUp
  exact timespecSub_zero_iff _ _ hd

theorem countdownZero_sub_eq (d : timespec) (hd : d.Normal) (t : sh_timer_s) :
    countdownZero { t with countdown := timespecSub t.countdown d } = timespecLe t.countdown d := by
  unfold countdownZero
  exact timespecSub_zero_iff _ _ hd

theorem timerCalls_append (a b : List sh_timer_s) :
    timerCalls (a ++ b) = timerCalls a ++ timerCalls b := by
  unfold timerCalls
  rw [List.filterMap_append]

theorem timerCalls_map_countdown (f : timespec → timespec) (ts : List sh_timer_s) :
    timerCalls (ts.map (fun t => { t with countdown := f t.countdown })) = timerCalls ts := by
  unfold timerCalls
  rw [List.filterMap_map]
  rfl

/-- The calls of `callTimer` for a list of timers, when the callbacks leave the active list and
the start time alone. -/
theorem foldl_callTimer_idle {U : Type} (uc : UserCode U) (hidle : TimerCallbacksIdle uc)
    (ts : List sh_timer_s) (l : Loop U) :
    (ts.foldl (callTimer uc) l).sh.mListActiveTimer = l.sh.mListActiveTimer
      ∧ (ts.foldl (callTimer uc) l).sh.mStartTime = l.sh.mStartTime
      ∧ (ts.foldl (callTimer uc) l).log = l.log ++ timerCalls ts := by
  induction ts generalizing l with
  | nil => simp [timerCalls]
  | cons t ts ih =>
    obtain ⟨h1, h2, h3⟩ := ih (callTimer uc l t)
    simp only [List.foldl_cons]
    rw [h1, h2, h3]
    unfold callTimer
    cases hc : t.callback with
    | none => simp [timerCalls, hc]
    | some id =>
      dsimp only
      refine ⟨(hidle _ _ _ _ _).1, (hidle _ _ _ _ _).2, ?_⟩
      simp [timerCalls, hc]

/-- What `timerUp` does on a sorted active list when the callbacks leave the list alone: the
timers with a countdown of at most the elapsed time go, the others stay as they are, and the
callbacks of those that go are called, the last of them first. -/
theorem timerUp_spec {U : Type} (uc : UserCode U) (hidle : TimerCallbacksIdle uc)
    (now : timespec) (l : Loop U) (hnow : now.Normal)
    (hsorted : ActiveSorted l.sh.mListActiveTimer) :
    (timerUp uc now l).sh.mListActiveTimer
        = l.sh.mListActiveTimer.filter
            (fun t => !timespecLe t.countdown (timespecSub now l.sh.mStartTime))
      ∧ (timerUp uc now l).sh.mStartTime = l.sh.mStartTime
      ∧ (timerUp uc now l).log
          = l.log ++ timerCalls (l.sh.mListActiveTimer.filter
              (fun t => timespecLe t.countdown (timespecSub now l.sh.mStartTime))).reverse := by
  have hd : (timespecSub now l.sh.mStartTime).Normal := timespecSub_normal _ _ hnow
  have hf : countdownUp (timespecSub now l.sh.mStartTime)
      = fun t => timespecLe t.countdown (timespecSub now l.sh.mStartTime) :=
    funext (countdownUp_eq _ hd)
  have hL := sorted_split (timespecSub now l.sh.mStartTime) l.sh.mListActiveTimer hsorted
  obtain ⟨_, h2, h3⟩ := reverse_scan_split
    (fun t : sh_timer_s => timespecLe t.countdown (timespecSub now l.sh.mStartTime))
    (l.sh.mListActiveTimer.filter
      (fun t => timespecLe t.countdown (timespecSub now l.sh.mStartTime)))
    (l.sh.mListActiveTimer.filter
      (fun t => !timespecLe t.countdown (timespecSub now l.sh.mStartTime)))
    (fun x hx => (List.mem_filter.mp hx).2)
    (fun x hx => by simpa using (List.mem_filter.mp hx).2)
  rw [← hL] at h2 h3
  unfold timerUp
  dsimp only
  rw [hf, h2, h3]
  obtain ⟨f1, f2, f3⟩ := foldl_callTimer_idle uc hidle
    (l.sh.mListActiveTimer.filter
      (fun t => timespecLe t.countdown (timespecSub now l.sh.mStartTime))).reverse
    ({ l with sh := { l.sh with mListActiveTimer := (l.sh.mListActiveTimer.filter
        (fun t => !timespecLe t.countdown (timespecSub now l.sh.mStartTime))) } } : Loop U)
  exact ⟨f1, f2, f3⟩

theorem filter_map_sub (d : timespec) (q : sh_timer_s → Bool) (L : List sh_timer_s) :
    (L.map (fun t => ({ t with countdown := timespecSub t.countdown d } : sh_timer_s))).filter
        (fun t => q t)
      = (L.filter (fun t => q { t with countdown := timespecSub t.countdown d })).map
          (fun t => { t with countdown := timespecSub t.countdown d }) := by
  rw [List.filter_map]
  rfl

/-- What `timerCorrection` does on a sorted active list when the
callbacks leave the list alone: the start time becomes the clock reading, the timers with a
countdown of at most the elapsed time go and their callbacks are called, the last of them
first, and the others stay, each countdown less the elapsed time. -/
theorem timerCorrection_spec {U : Type} (uc : UserCode U) (hidle : TimerCallbacksIdle uc)
    (now : timespec) (l : Loop U) (hnow : now.Normal)
    (hsorted : ActiveSorted l.sh.mListActiveTimer) :
    (timerCorrection uc now l).sh.mListActiveTimer
        = (l.sh.mListActiveTimer.filter
            (fun t => !timespecLe t.countdown (timespecSub now l.sh.mStartTime))).map
          (fun t => { t with countdown := timespecSub t.countdown (timespecSub now l.sh.mStartTime) })
      ∧ (timerCorrection uc now l).sh.mStartTime = now
      ∧ (timerCorrection uc now l).log
          = l.log ++ timerCalls (l.sh.mListActiveTimer.filter
              (fun t => timespecLe t.countdown (timespecSub now l.sh.mStartTime))).reverse := by
  have hd : (timespecSub now l.sh.mStartTime).Normal := timespecSub_normal _ _ hnow
  generalize hdd : timespecSub now l.sh.mStartTime = d at hd
  have hL := sorted_split d l.sh.mListActiveTimer hsorted
  have hz : ∀ t : sh_timer_s,
      countdownZero { t with countdown := timespecSub t.countdown d } = timespecLe t.countdown d :=
    countdownZero_sub_eq d hd
  have hM : l.sh.mListActiveTimer.map
        (fun t => ({ t with countdown := timespecSub t.countdown d } : sh_timer_s))
      = (l.sh.mListActiveTimer.filter (fun t => timespecLe t.countdown d)).map
          (fun t => { t with countdown := timespecSub t.countdown d })
        ++ (l.sh.mListActiveTimer.filter (fun t => !timespecLe t.countdown d)).map
          (fun t => { t with countdown := timespecSub t.countdown d }) := by
    rw [← List.map_append, ← hL]
  obtain ⟨h1, h2, h3⟩ := reverse_scan_split countdownZero
    ((l.sh.mListActiveTimer.filter (fun t => timespecLe t.countdown d)).map
      (fun t => ({ t with countdown := timespecSub t.countdown d } : sh_timer_s)))
    ((l.sh.mListActiveTimer.filter (fun t => !timespecLe t.countdown d)).map
      (fun t => ({ t with countdown := timespecSub t.countdown d } : sh_timer_s)))
    (by
      intro x hx
      obtain ⟨a, ha, rfl⟩ := List.mem_map.mp hx
      rw [hz]
      exact (List.mem_filter.mp ha).2)
    (by
      intro x hx
      obtain ⟨a, ha, rfl⟩ := List.mem_map.mp hx
      rw [hz]
      simpa using (List.mem_filter.mp ha).2)
  rw [← hM] at h1 h2 h3
  unfold timerCorrection
  dsimp only
  rw [hdd]
  by_cases he : l.sh.mListActiveTimer.isEmpty = true
  · rw [if_pos he]
    have hnil : l.sh.mListActiveTimer = [] := by simpa using he
    simp [hnil, timerCalls]
  · rw [if_neg he]
    by_cases hover : scanFor countdownZero
        (l.sh.mListActiveTimer.map
          (fun t => ({ t with countdown := timespecSub t.countdown d } : sh_timer_s))).reverse
        ≠ (l.sh.mListActiveTimer.map
          (fun t => ({ t with countdown := timespecSub t.countdown d } : sh_timer_s))).reverse.length
    · rw [if_pos hover, h2, h3]
      obtain ⟨f1, f2, f3⟩ := foldl_callTimer_idle uc hidle
        ((l.sh.mListActiveTimer.filter (fun t => timespecLe t.countdown d)).map
          (fun t => ({ t with countdown := timespecSub t.countdown d } : sh_timer_s))).reverse
        ({ l with sh := { l.sh with
            mStartTime := now
            mListActiveTimer := ((l.sh.mListActiveTimer.filter
              (fun t => !timespecLe t.countdown d)).map
              (fun t => ({ t with countdown := timespecSub t.countdown d } : sh_timer_s))) } }
          : Loop U)
      refine ⟨f1, f2, ?_⟩
      rw [f3, ← List.map_reverse, timerCalls_map_countdown (fun c => timespecSub c d)]
    · rw [if_neg hover]
      have hlen : scanFor countdownZero
          (l.sh.mListActiveTimer.map
            (fun t => ({ t with countdown := timespecSub t.countdown d } : sh_timer_s))).reverse
          = (l.sh.mListActiveTimer.map
            (fun t => ({ t with countdown := timespecSub t.countdown d } : sh_timer_s))).length := by
        simpa using hover
      have hP : l.sh.mListActiveTimer.filter (fun t => timespecLe t.countdown d) = [] := by
        have hc := congrArg List.length hM
        rw [h1] at hlen
        simp only [List.length_append, List.length_map] at hc hlen
        have : (l.sh.mListActiveTimer.filter (fun t => timespecLe t.countdown d)).length = 0 := by
          omega
        exact List.length_eq_zero.mp this
      dsimp only
      refine ⟨?_, rfl, ?_⟩
      · rw [hM, hP]
        rfl
      · rw [hP]
        simp [timerCalls]

theorem zero_normal : ({ tv_sec := 0, tv_nsec := 0 } : timespec).Normal := by decide

theorem timerReachable_ctor (fdIsValid : Int → Bool) (L T : Nat) (pipeRead : Int) :
    TimerReachable T (CAmSocketHandler.ctor fdIsValid L T pipeRead) := by
  have h0 : TimerReachable T (CAmSocketHandler.new L T) :=
    TimerReachable.ctor _ rfl rfl rfl zero_normal
  unfold CAmSocketHandler.ctor
  cases h : addFDPoll fdIsValid (CAmSocketHandler.new L T) pipeRead POLLIN none
      (some FiredFn.pipeFired) (some CheckFn.returnsFalse) none 0 0 with
  | none => exact h0
  | some r =>
    rcases addFDPoll_cases _ _ _ _ _ _ _ _ _ _ _ h with ⟨_, rfl⟩ | ⟨_, _, rfl⟩ | ⟨_, keys, _, rfl⟩
    · exact h0
    · exact h0
    · exact TimerReachable.other _ _ h0 rfl rfl rfl zero_normal

/-- The handler after `addTimer` with proper time values is a state the handler gets into. -/
theorem timerReachable_handlerAfter (T : Nat) (s : CAmSocketHandler)
    (currentTime timeouts : timespec) (callback : Option Nat) (userData handle : Nat)
    (hs : TimerReachable T s) (hnow : currentTime.Normal) (hd : timeouts.Normal) :
    TimerReachable T
      (handlerAfter (addTimer s currentTime timeouts callback userData handle) s) := by
  cases h : addTimer s currentTime timeouts callback userData handle with
  | none => exact hs
  | some r =>
    obtain ⟨a, b, c⟩ := r
    exact TimerReachable.addTimer s currentTime timeouts callback userData handle (a, b, c) hs
      hnow hd h

theorem timerReachable_twoTimers : TimerReachable 65535 twoTimers :=
  timerReachable_handlerAfter _ _ _ _ _ _ _
    (timerReachable_handlerAfter _ _ _ _ _ _ _ (timerReachable_ctor _ _ _ _) (by decide)
      (by decide))
    (by decide) (by decide)

/-- The timer callbacks of the scenarios do nothing. -/
theorem scenarioCode_timersIdle : TimerCallbacksIdle scenarioCode := by
  intro id h ud sh u
  exact ⟨rfl, rfl⟩

theorem sorted_index (L : List sh_timer_s) (h : ActiveSorted L) (i j : Nat) (a b : sh_timer_s)
    (hij : i < j) (ha : L[i]? = some a) (hb : L[j]? = some b) :
    timespecLe a.countdown b.countdown = true := by
  rw [← compareCountdown_false_iff]
  have hi : i < L.length := (List.getElem?_eq_some_iff.mp ha).1
  have hj : j < L.length := (List.getElem?_eq_some_iff.mp hb).1
  have := (List.pairwise_iff_getElem.mp h) i j hi hj hij
  rw [(List.getElem?_eq_some_iff.mp ha).2, (List.getElem?_eq_some_iff.mp hb).2] at this
  exact this

/-- Adding a time to a duration and taking it off again gives the duration. -/
theorem timespecSub_timespecAdd (d x : timespec) (hd : d.Normal) (hx : x.Normal) :
    timespecSub (timespecAdd d x) x = d := by
  apply timespec_eq_of_toNs _ _ (timespecSub_normal _ _ (timespecAdd_normal _ _ hd hx)) hd
  rw [toNs_timespecSub _ _ (timespecAdd_normal _ _ hd hx) hx, toNs_timespecAdd]
  omega

theorem countdownZero_iff_toNs (t : sh_timer_s) :
    countdownZero t = true ↔ t.countdown.toNs = 0 := by
  unfold countdownZero timespec.toNs MAX_NS
  simp only [Bool.and_eq_true, beq_iff_eq]
  constructor
  · intro h; omega
  · intro h; omega

/-! ## Lemmas on the timer descriptors -/

theorem getElem?_scanFor {α : Type} (p : α → Bool) (l : List α) :
    l[scanFor p l]? = l.find? p := by
  induction l with
  | nil => rfl
  | cons x xs ih =>
    by_cases hx : p x = true
    · simp [scanFor, hx]
    · have hx2 : p x = false := by simpa using hx
      simp [scanFor, hx2, ih]

/-- After `removeFDPoll` in a state the handler gets into, no registry entry has the handle. -/
theorem removeFDPoll_removes (L : Nat) (s : CAmSocketHandler) (h : Nat)
    (hs : PollReachable L s) : ∀ e ∈ (removeFDPoll s h).2.mListPoll, e.handle ≠ h := by
  have hi := registryInv_of_reachable L s hs
  by_cases hr : ∃ e ∈ s.mListPoll, e.handle = h
  · obtain ⟨h1, _, _⟩ := removeFDPoll_registered s h hr
    have hk := keyed_erase sh_poll_s.handle h s.mListPoll s.mSetPollKeys.pollHandles hi.nodup
      hi.live
    intro e he
    rw [h1] at he
    have := hk.2 e he
    simp only [Finset.mem_erase] at this
    exact this.1
  · have hn : ∀ e ∈ s.mListPoll, e.handle ≠ h := fun e he hc => hr ⟨e, he, hc⟩
    rw [removeFDPoll_not_registered s h hn]
    exact hn

/-- The registry after `addTimer` (built with `WITH_TIMERFD`) is a state the handler gets
into. -/
theorem addTimerWithTimerFd_reachable (L : Nat) (fdIsValid : Int → Bool) (os : TimerFdAnswer)
    (actionPoll checkLambda : Nat) (s : TimerFdHandler) (timeouts : timespec)
    (userData handle : Nat) (repeats : Bool) (hs : PollReachable L s.base) :
    PollReachable L
      (timerFdHandlerAfter
        (addTimerWithTimerFd fdIsValid os actionPoll checkLambda s timeouts userData handle
          repeats) s).base := by
  unfold addTimerWithTimerFd
  dsimp only
  by_cases hc : (createTimeFD os).1 ≠ E_OK
  · rw [if_pos hc]
    exact hs
  · rw [if_neg hc]
    cases ha : addFDPoll fdIsValid s.base (createTimeFD os).2 POLLIN none
        (some (FiredFn.user actionPoll)) (some (CheckFn.user checkLambda)) none userData
        handle with
    | none => exact hs
    | some r =>
      have hr := PollReachable.addFDPoll fdIsValid s.base (createTimeFD os).2 POLLIN none
        (some (FiredFn.user actionPoll)) (some (CheckFn.user checkLambda)) none userData handle
        r hs ha
      obtain ⟨e, h, b⟩ := r
      cases e <;> exact hr

theorem reachable_twoTimerFds : PollReachable 65535 twoTimerFds.base :=
  addTimerWithTimerFd_reachable _ _ _ _ _ _ _ _ _ _
    (addTimerWithTimerFd_reachable _ _ _ _ _ _ _ _ _ _ (reachable_ctor allOpen 65535 65535 3))

/-! ## Lemmas on the signals -/

/-- What `addSignalHandler` does, by the two ways it ends. -/
theorem addSignalHandler_cases (s : HandlerWithSignals) (callback : Option Nat)
    (handle userData : Nat) (r : am_Error_e × Nat × HandlerWithSignals)
    (h : addSignalHandler s callback handle userData = some r) :
    (nextHandle s.mSetSignalhandlerKeys = some (false, s.mSetSignalhandlerKeys)
        ∧ r = (E_NOT_POSSIBLE, handle, s))
    ∨ (∃ keys, nextHandle s.mSetSignalhandlerKeys = some (true, keys)
        ∧ r = (E_OK, keys.lastUsedID,
            { s with mSetSignalhandlerKeys := keys
                     mSignalHandlers := s.mSignalHandlers ++
                       [{ handle := keys.lastUsedID, callback := callback,
                          userData := userData }] })) := by
  unfold addSignalHandler at h
  cases hn : nextHandle s.mSetSignalhandlerKeys with
  | none => simp [hn] at h
  | some p =>
    obtain ⟨b, keys⟩ := p
    cases b with
    | false =>
      have hk := nextHandle_false _ _ hn
      subst hk
      simp only [hn, Option.some.injEq] at h
      left
      exact ⟨rfl, h.symm⟩
    | true =>
      simp only [hn, Option.some.injEq] at h
      right
      exact ⟨keys, rfl, h.symm⟩

theorem removeSignalHandler_not_registered (s : HandlerWithSignals) (h : Nat)
    (hn : ∀ e ∈ s.mSignalHandlers, e.handle ≠ h) : removeSignalHandler s h = (E_UNKNOWN, s) := by
  have hs : scanFor (fun e => e.handle == h) s.mSignalHandlers = s.mSignalHandlers.length := by
    rw [scanFor_eq_length_iff]
    intro x hx
    simpa using hn x hx
  simp [removeSignalHandler, hs]

theorem removeSignalHandler_registered (s : HandlerWithSignals) (h : Nat)
    (hr : ∃ e ∈ s.mSignalHandlers, e.handle = h) :
    removeSignalHandler s h
      = (E_OK, { s with mSignalHandlers :=
                          s.mSignalHandlers.eraseIdx
                            (scanFor (fun e => e.handle == h) s.mSignalHandlers)
                        mSetSignalhandlerKeys :=
                          { s.mSetSignalhandlerKeys with
                            pollHandles := s.mSetSignalhandlerKeys.pollHandles.erase h } }) := by
  have hs : scanFor (fun e => e.handle == h) s.mSignalHandlers < s.mSignalHandlers.length := by
    rw [scanFor_lt_iff]
    obtain ⟨e, he, heh⟩ := hr
    exact ⟨e, he, by simpa using heh⟩
  unfold removeSignalHandler
  simp only [hs, if_true]

/-- In a state the handler gets into, `addSignalHandler` and `removeSignalHandler` have kept
what they keep. -/
theorem signalInv_of_reachable (L : Nat) (hL : 2 ≤ L) (h16 : L ≤ 65535) (s : HandlerWithSignals)
    (hs : SignalReachable L s) : SignalInv L s := by
  induction hs with
  | ctor s h1 h2 =>
    refine ⟨by simp [h2], by simp [h2], by simp [h1, sh_identifier_s.new],
      by simp [h1, sh_identifier_s.new]; omega, ?_⟩
    intro _
    simp [h1, sh_identifier_s.new]
  | addSignalHandler s callback handle userData r _ hr ih =>
    rcases addSignalHandler_cases _ _ _ _ _ hr with ⟨_, rfl⟩ | ⟨keys, hk, rfl⟩
    · exact ih
    · obtain ⟨k1, k2, k3, k4, k5⟩ :=
        nextHandle_true_spec L hL h16 _ _ ih.limit_eq ih.cursor_lt hk
      have hk := keyed_append sh_signal_s.handle s.mSignalHandlers
        { handle := keys.lastUsedID, callback := callback, userData := userData }
        s.mSetSignalhandlerKeys.pollHandles ih.nodup ih.live k1
      refine ⟨hk.1, ?_, k3, k5, ?_⟩
      · intro e he
        dsimp only
        rw [k2]
        exact hk.2 e he
      · intro h0
        dsimp only at h0
        omega
  | removeSignalHandler s handle _ ih =>
    by_cases hr : ∃ e ∈ s.mSignalHandlers, e.handle = handle
    · rw [removeSignalHandler_registered s handle hr]
      have hk := keyed_erase sh_signal_s.handle handle s.mSignalHandlers
        s.mSetSignalhandlerKeys.pollHandles ih.nodup ih.live
      refine ⟨hk.1, hk.2, ih.limit_eq, ih.cursor_lt, ?_⟩
      intro h0
      dsimp only at h0 ⊢
      rw [ih.cursor_zero h0]
      rfl
    · have hn : ∀ e ∈ s.mSignalHandlers, e.handle ≠ handle := fun e he hc => hr ⟨e, he, hc⟩
      rw [removeSignalHandler_not_registered s handle hn]
      exact ih
  | other s t _ h1 h2 ih =>
    exact ⟨by rw [h2]; exact ih.nodup, by rw [h1, h2]; exact ih.live, by rw [h1]; exact ih.limit_eq,
      by rw [h1]; exact ih.cursor_lt, by rw [h1]; exact ih.cursor_zero⟩

/-- Erasing the first element with the handle `h` from a list with pairwise distinct handles
leaves exactly the elements with another handle. -/
theorem eraseIdx_scanFor_eq_filter {α : Type} (key : α → Nat) (h : Nat) (l : List α)
    (hn : (l.map key).Nodup) :
    l.eraseIdx (scanFor (fun e => key e == h) l) = l.filter (fun e => key e != h) := by
  induction l with
  | nil => rfl
  | cons x xs ih =>
    have hn2 := List.nodup_cons.mp hn
    by_cases hx : key x = h
    · have hx1 : (key x == h) = true := by simpa using hx
      have hall : ∀ y ∈ xs, (key y != h) = true := by
        intro y hy
        have : key y ≠ key x := fun hc => hn2.1 (hc ▸ List.mem_map_of_mem key hy)
        simpa [← hx] using this
      simp only [scanFor, hx1, if_true, List.eraseIdx_cons_zero]
      rw [List.filter_cons_of_neg (by simp [hx])]
      exact (List.filter_eq_self.mpr hall).symm
    · have hx2 : (key x == h) = false := by simpa using hx
      simp only [scanFor, hx2, Bool.false_eq_true, if_false, List.eraseIdx_cons_succ]
      rw [List.filter_cons_of_pos (by simpa using hx), ih hn2.2]

/-- The calls the lambda makes when every signal handler has a callback and the callbacks
return: one for each handler, in the order of the list, with its handle and user data. -/
theorem notifyListeners_returns {U : Type} (sc : SignalCode U) (info : signalfd_siginfo)
    (hret : ∀ id h i ud sh u, (sc id h i ud sh u).value = some ()) :
    ∀ (hs : List sh_signal_s) (sh : CAmSocketHandler) (u : U) (calls : List SignalCall),
      (∀ e ∈ hs, e.callback.isSome = true) →
      (notifyListeners sc info hs sh u calls).1.value = some ()
        ∧ (notifyListeners sc info hs sh u calls).2
            = calls ++ hs.map (fun e => { handle := e.handle, info := info,
                                          userData := e.userData }) := by
  intro hs
  induction hs with
  | nil =>
    intro sh u calls _
    simp [notifyListeners]
  | cons e rest ih =>
    intro sh u calls hcb
    have he := hcb e (List.mem_cons_self _ _)
    cases hc : e.callback with
    | none => simp [hc] at he
    | some id =>
      unfold notifyListeners
      simp only [hc, hret]
      have := ih (sc id e.handle info e.userData sh u).sh (sc id e.handle info e.userData sh u).user
        (calls ++ [{ handle := e.handle, info := info, userData := e.userData }])
        (fun x hx => hcb x (List.mem_cons_of_mem _ hx))
      rw [this.1, this.2]
      simp

theorem signalReachable_signalsAfter (L : Nat) (s : HandlerWithSignals) (callback : Option Nat)
    (handle userData : Nat) (hs : SignalReachable L s) :
    SignalReachable L (signalsAfter (addSignalHandler s callback handle userData) s) := by
  cases h : addSignalHandler s callback handle userData with
  | none => exact hs
  | some r =>
    obtain ⟨a, b, c⟩ := r
    exact SignalReachable.addSignalHandler s callback handle userData (a, b, c) hs h

theorem signalReachable_twoListeners : SignalReachable 65535 twoListeners :=
  signalReachable_signalsAfter _ _ _ _ _
    (signalReachable_signalsAfter _ _ _ _ _ (SignalReachable.ctor listening rfl rfl))

/-! ## Lemmas on the rounds of the allocator loop -/

/-- A run of the allocator loop that ends within `fuel` rounds ends the same way within any
larger number of rounds. -/
theorem nextHandleLoop_mono (c : Nat) :
    ∀ (fuel : Nat) (k : sh_identifier_s) (r : Bool × sh_identifier_s),
      nextHandleLoop c fuel k = some r →
      ∀ more : Nat, fuel ≤ more → nextHandleLoop c more k = some r := by
  intro fuel
  induction fuel with
  | zero =>
    intro k r h
    simp [nextHandleLoop] at h
  | succ n ih =>
    intro k r h more hm
    obtain ⟨m, rfl⟩ : ∃ m, more = m + 1 := ⟨more - 1, by omega⟩
    rw [nextHandleLoop_succ] at h ⊢
    by_cases h1 : nextCursor k.limit k.lastUsedID = c
    · rw [if_pos h1] at h ⊢
      exact h
    · rw [if_neg h1] at h ⊢
      by_cases h2 : nextCursor k.limit k.lastUsedID ∈ k.pollHandles
      · rw [if_pos h2] at h ⊢
        exact ih _ r h m (by omega)
      · rw [if_neg h2] at h ⊢
        exact h

/-! ## The claims -/

/-- C1 (the code departs from the claim). `removeFDPoll` does not return `E_OK` for every
registered handle: with the pipe (handle 1) and one further descriptor (handle 2) registered,
`removeFDPoll(2)` erases the entry of handle 2, which is the last of the registry, and returns
`E_UNKNOWN`, because the iterator `erase` hands back is `end()`; for handle 1, which is not the
last entry, it returns `E_OK`. -/
theorem removeFDPoll_last_entry_unknown :
    plainLast.mListPoll.map sh_poll_s.handle = [1, 2]
      ∧ (removeFDPoll plainLast 2).1 = E_UNKNOWN
      ∧ (removeFDPoll plainLast 2).2.mListPoll.map sh_poll_s.handle = [1]
      ∧ (removeFDPoll plainLast 1).1 = E_OK := by
  decide

/-- C2 (the code departs from the claim). Handle 2 is registered and in the snapshot, and it is
the last entry of the registry: `removeFDPoll(2)` erases it from the registry and marks the
registry dirty, but leaves the snapshot entry with `isValid == true`; and when the `fired`
callback of handle 2 removes its own handle, `check` and `dispatch` are still called for handle
2 in the same iteration. -/
theorem removeFDPoll_last_entry_stays_valid :
    selfRemovingPrepared.mListPoll.map sh_poll_s.handle = [1, 2]
      ∧ selfRemovingPrepared.mListActivePolls.map (fun e => (e.handle, e.isValid))
          = [(1, true), (2, true)]
      ∧ (removeFDPoll selfRemovingPrepared 2).2.mListPoll.map sh_poll_s.handle = [1]
      ∧ (removeFDPoll selfRemovingPrepared 2).2.mRecreatePollfds = true
      ∧ (removeFDPoll selfRemovingPrepared 2).2.mListActivePolls.map
            (fun e => (e.handle, e.isValid)) = [(1, true), (2, true)]
      ∧ (iteration scenarioCode 10 secondReady (loopEntry (seconds 0) selfRemoving 0)).state?.map
            (fun l => l.log)
          = some [{ stage := Stage.fired, handle := 2, entryValid := true },
                  { stage := Stage.check, handle := 2, entryValid := true },
                  { stage := Stage.dispatch, handle := 2, entryValid := true }] := by
  decide

/-- C3 (the code departs from the claim). The `prepare` callback of handle 2 removes handle 2,
which is not the last entry of the registry, so its snapshot entry gets `isValid == false`
during the prepare stage; `ppoll` then reports its descriptor readable, and the fire stage
calls the `fired` callback of handle 2 all the same (`fire` does not look at `isValid`, unlike
`noDispatching` and `dispatchingFinished`). Neither `check` nor `dispatch` is called for it. -/
theorem fired_called_for_invalid_entry :
    (prepareStage scenarioCode (loopEntry (seconds 0) removedInPrepare 0)).sh.mListActivePolls.map
        (fun e => (e.handle, e.isValid)) = [(1, true), (2, false), (3, true)]
      ∧ (iteration scenarioCode 10 secondReady
            (loopEntry (seconds 0) removedInPrepare 0)).state?.map (fun l => l.log)
          = some [{ stage := Stage.prepare, handle := 2, entryValid := true },
                  { stage := Stage.fired, handle := 2, entryValid := false }] := by
  decide

/-- C4 (the code departs from the claim). In an iteration that rebuilds the snapshot, the
`prepare` callback of handle 2 registers descriptor 7 with `addFDPoll`, which succeeds (handle
3) and marks the registry dirty; when the prepare stage is over the registry is not marked
dirty, because `mRecreatePollfds = false` is executed after the callbacks. The next iteration
therefore takes no new snapshot and its polling array still lacks descriptor 7. -/
theorem dirty_flag_lost_in_rebuild :
    (loopEntry (seconds 0) addingInPrepare 0).sh.mRecreatePollfds = true
      ∧ (prepareStage scenarioCode (loopEntry (seconds 0) addingInPrepare 0)).log
          = [{ stage := Stage.prepare, handle := 2, entryValid := true }]
      ∧ (prepareStage scenarioCode (loopEntry (seconds 0) addingInPrepare 0)).sh.mListPoll.map
          (fun e => (e.handle, e.pollfdValue.fd)) = [(1, 3), (2, 5), (3, 7)]
      ∧ (prepareStage scenarioCode (loopEntry (seconds 0) addingInPrepare 0)).sh.mRecreatePollfds
          = false
      ∧ (prepareStage scenarioCode (loopEntry (seconds 0) addingInPrepare 0)).fdPollingArray.map
          pollfd.fd = [3, 5]
      ∧ ((iteration scenarioCode 10 nothingReady
            (loopEntry (seconds 0) addingInPrepare 0)).state?.map
              (fun l => (prepareStage scenarioCode l).fdPollingArray.map pollfd.fd))
          = some [3, 5] := by
  decide

/-- C5 (the code departs from the claim). A `std::exception` thrown by a `check` callback, or by
a `dispatch` callback, leaves `start_listenting`: `noDispatching` and `dispatchingFinished` call
the callback without `try`, unlike `prepare`, `fire` and `callTimer`. -/
theorem exception_leaves_start_listenting :
    (start_listenting scenarioCode 10 (seconds 0) [secondReady] throwingCheck 0).isRaised = true
      ∧ (start_listenting scenarioCode 10 (seconds 0) [secondReady] throwingCheck 0).state?.map
            (fun l => l.log)
          = some [{ stage := Stage.fired, handle := 2, entryValid := true },
                  { stage := Stage.check, handle := 2, entryValid := true }]
      ∧ (start_listenting scenarioCode 10 (seconds 0) [secondReady] throwingDispatch 0).isRaised
          = true
      ∧ (start_listenting scenarioCode 10 (seconds 0) [secondReady] throwingDispatch 0).state?.map
            (fun l => l.log)
          = some [{ stage := Stage.fired, handle := 2, entryValid := true },
                  { stage := Stage.check, handle := 2, entryValid := true },
                  { stage := Stage.dispatch, handle := 2, entryValid := true }] := by
  decide

/-- C6. In every state the handler gets into, when the descriptor is valid and the allocation
of a handle succeeds, `addFDPoll` returns `E_OK`, appends exactly one entry to the end of the
registry (the entries before it unchanged, in their order), with the given descriptor, event
mask, `revents = 0`, the four callbacks and the user data, marks the registry dirty, and puts
out the handle of the new entry, which is not zero, lies in `[1, MAX_POLLHANDLE]` and differs
from every handle registered before the call. -/
theorem addFDPoll_success (MAX_POLLHANDLE : Nat) (hMAX : 2 ≤ MAX_POLLHANDLE)
    (h16 : MAX_POLLHANDLE ≤ 65535) (fdIsValid : Int → Bool) (s : CAmSocketHandler)
    (hs : PollReachable MAX_POLLHANDLE s) (fd : Int) (event : Nat) (prepare : Option Nat)
    (fired : Option FiredFn) (check : Option CheckFn) (dispatch : Option Nat)
    (userData handle : Nat) (hfd : fdIsValid fd = true) (keys : sh_identifier_s)
    (halloc : nextHandle s.mSetPollKeys = some (true, keys)) :
    ∃ (h : Nat) (t : CAmSocketHandler) (e : sh_poll_s),
      addFDPoll fdIsValid s fd event prepare fired check dispatch userData handle
          = some (E_OK, h, t)
        ∧ t.mListPoll = s.mListPoll ++ [e]
        ∧ e.handle = h
        ∧ e.pollfdValue = { fd := fd, events := event, revents := 0 }
        ∧ e.prepareCB = prepare ∧ e.firedCB = fired ∧ e.checkCB = check
        ∧ e.dispatchCB = dispatch ∧ e.userData = userData
        ∧ t.mRecreatePollfds = true
        ∧ h ≠ 0 ∧ 1 ≤ h ∧ h ≤ MAX_POLLHANDLE
        ∧ ∀ x ∈ s.mListPoll, x.handle ≠ h := by
  have hinv := registryInv_of_reachable MAX_POLLHANDLE s hs
  have hcur := cursorInv_of_reachable MAX_POLLHANDLE hMAX h16 s hs
  have ht := nextHandleLoop_true _ _ _ _ halloc
  have hr := nextHandleLoop_true_range _ MAX_POLLHANDLE hMAX h16 _ _ _ hcur.limit_eq
    hcur.cursor_lt halloc
  refine ⟨_, _, _, addFDPoll_of_alloc fdIsValid s fd event prepare fired check dispatch userData
    handle keys hfd halloc, rfl, rfl, rfl, rfl, rfl, rfl, rfl, rfl, rfl, ?_, hr.1, ?_, ?_⟩
  · omega
  · omega
  · intro x hx hc
    exact ht.1 (hc ▸ hinv.live x hx)

/-- C7. In every state the handler gets into, `addFDPoll` returns; it returns `E_NON_EXISTENT`
exactly when the descriptor is invalid; when the descriptor is valid and every handle of
`[1, MAX_POLLHANDLE - 1]` is live, or the allocator fails for any reason, it returns
`E_NOT_POSSIBLE`, which is neither `E_NON_EXISTENT` nor `E_OK`; and whenever it returns
something else than `E_OK` the whole handler (registry, snapshot, live set, cursor, dirty flag)
and the caller's handle are unchanged. -/
theorem addFDPoll_failure (MAX_POLLHANDLE : Nat) (hMAX : 2 ≤ MAX_POLLHANDLE)
    (h16 : MAX_POLLHANDLE ≤ 65535) (fdIsValid : Int → Bool) (s : CAmSocketHandler)
    (hs : PollReachable MAX_POLLHANDLE s) (fd : Int) (event : Nat) (prepare : Option Nat)
    (fired : Option FiredFn) (check : Option CheckFn) (dispatch : Option Nat)
    (userData handle : Nat) :
    ∃ r, addFDPoll fdIsValid s fd event prepare fired check dispatch userData handle = some r
      ∧ (r.1 = E_NON_EXISTENT ↔ fdIsValid fd = false)
      ∧ (fdIsValid fd = true → nextHandle s.mSetPollKeys = some (false, s.mSetPollKeys) →
          r.1 = E_NOT_POSSIBLE)
      ∧ (fdIsValid fd = true →
          (∀ i, 1 ≤ i → i < MAX_POLLHANDLE → i ∈ s.mSetPollKeys.pollHandles) →
          r.1 = E_NOT_POSSIBLE)
      ∧ E_NOT_POSSIBLE ≠ E_NON_EXISTENT ∧ E_NOT_POSSIBLE ≠ E_OK
      ∧ (r.1 ≠ E_OK → r.2.1 = handle ∧ r.2.2 = s) := by
  have hcur := cursorInv_of_reachable MAX_POLLHANDLE hMAX h16 s hs
  obtain ⟨⟨b, keys⟩, hn⟩ := nextHandle_ends_of_reachable MAX_POLLHANDLE hMAX h16 s hs
  by_cases hv : fdIsValid fd = true
  · cases b with
    | false =>
      have hk := nextHandle_false _ _ hn
      subst hk
      refine ⟨(E_NOT_POSSIBLE, handle, s), ?_, ?_, ?_, ?_, by decide, by decide, ?_⟩
      · simp only [addFDPoll, hv, hn]
        rfl
      · simp [hv]
      · intro _ _; rfl
      · intro _ _; rfl
      · intro _; exact ⟨rfl, rfl⟩
    | true =>
      have ht := nextHandleLoop_true _ _ _ _ hn
      have hr := nextHandleLoop_true_range _ MAX_POLLHANDLE hMAX h16 _ _ _ hcur.limit_eq
        hcur.cursor_lt hn
      refine ⟨_, addFDPoll_of_alloc fdIsValid s fd event prepare fired check dispatch userData
        handle keys hv hn, ?_, ?_, ?_, by decide, by decide, ?_⟩
      · simp [hv]
      · intro _ hf
        rw [hn] at hf
        simp at hf
      · intro _ hfull
        exact absurd (hfull _ hr.1 hr.2) ht.1
      · intro hne
        exact absurd rfl hne
  · have hv2 : fdIsValid fd = false := by simpa using hv
    refine ⟨(E_NON_EXISTENT, handle, s), ?_, ?_, ?_, ?_, by decide, by decide, ?_⟩
    · simp [addFDPoll, hv2]
    · simp [hv2]
    · intro h; rw [hv2] at h; exact Bool.noConfusion h
    · intro h; rw [hv2] at h; exact Bool.noConfusion h
    · intro _; exact ⟨rfl, rfl⟩

/-- C8 (the code departs from the claim). A timer of 5 s (handle 1) is registered and active,
the loop is not running. After `updateTimer(1, 3 s)`, which returns `E_OK`, the active list has
two entries with handle 1, with countdowns 0 and 3 s; and when the timer was stopped before,
`updateTimer(1, 3 s)` leaves one entry, whose countdown is 0 and not 3 s. -/
theorem updateTimer_duplicate_and_zero :
    oneTimer.mDispatchDone = true
      ∧ oneTimer.mListActiveTimer.map (fun t => (t.handle, t.countdown)) = [(1, seconds 5)]
      ∧ (updateTimer oneTimer (seconds 100) 1 (seconds 3)).1 = E_OK
      ∧ (updateTimer oneTimer (seconds 100) 1 (seconds 3)).2.mListActiveTimer.map
            (fun t => (t.handle, t.countdown)) = [(1, seconds 0), (1, seconds 3)]
      ∧ (updateTimer (stopTimer oneTimer 1).2 (seconds 100) 1 (seconds 3)).1 = E_OK
      ∧ (updateTimer (stopTimer oneTimer 1).2 (seconds 100) 1 (seconds 3)).2.mListActiveTimer.map
            (fun t => (t.handle, t.countdown)) = [(1, seconds 0)] := by
  decide

/-- C9 (the code departs from the claim). The loop was entered at 10 s and a timer of 5 s
(handle 1) is added at 12 s; `addTimer` writes the corrected countdown 7 s through the reference
into the timer list, so the original value is lost. After `stopTimer(1)`, `restartTimer(1)` at
12 s returns `E_OK` and leaves one active entry with countdown 9 s, not 5 s + 2 s; and after
`stop_listening`, `restartTimer(1)` leaves one active entry with countdown 7 s, not 5 s. -/
theorem restartTimer_not_original_value :
    timerAddedWhileRunning.mDispatchDone = false
      ∧ timerAddedWhileRunning.mStartTime = seconds 10
      ∧ timerAddedWhileRunning.mListTimer.map (fun t => (t.handle, t.countdown))
          = [(1, seconds 7)]
      ∧ (stopTimer timerAddedWhileRunning 1).1 = E_OK
      ∧ (restartTimer (stopTimer timerAddedWhileRunning 1).2 (seconds 12) 1).1 = E_OK
      ∧ (restartTimer (stopTimer timerAddedWhileRunning 1).2 (seconds 12) 1).2.mListActiveTimer.map
            (fun t => (t.handle, t.countdown)) = [(1, seconds 9)]
      ∧ (restartTimer (stop_listening (stopTimer timerAddedWhileRunning 1).2 (seconds 12))
            (seconds 12) 1).2.mListActiveTimer.map
            (fun t => (t.handle, t.countdown)) = [(1, seconds 7)] := by
  decide

/-- C10. In every state the handler gets into, for every registered handle `h`, whatever the
position of its entry in the registry, `getFDPollData(h)` called right after `removeFDPoll(h)`
returns `E_UNKNOWN` and leaves the output argument as it was. -/
theorem getFDPollData_after_removeFDPoll (MAX_POLLHANDLE : Nat) (s : CAmSocketHandler)
    (hs : PollReachable MAX_POLLHANDLE s) (h : Nat) (hreg : ∃ e ∈ s.mListPoll, e.handle = h)
    (outPollData : sh_poll_s) :
    getFDPollData (removeFDPoll s h).2 h outPollData = (E_UNKNOWN, outPollData) := by
  have hinv := registryInv_of_reachable MAX_POLLHANDLE s hs
  obtain ⟨h1, _, _⟩ := removeFDPoll_registered s h hreg
  have hmap := map_handle_eraseIdx_scanFor h s.mListPoll
  have hnone : (removeFDPoll s h).2.mListPoll.find? (fun e => e.handle == h) = none := by
    rw [List.find?_eq_none]
    intro x hx hxh
    have hxeq : x.handle = h := by simpa using hxh
    rw [h1] at hx
    have hmem : x.handle ∈ (s.mListPoll.map sh_poll_s.handle).erase h := by
      rw [← hmap]
      exact List.mem_map_of_mem _ hx
    rw [hxeq] at hmem
    exact (List.Nodup.not_mem_erase hinv.nodup) hmem
  simp only [getFDPollData, hnone]

/-- Witness of C6: on the constructed handler, with `MAX_POLLHANDLE = 65535`, registering
descriptor 5 succeeds as stated. -/
theorem addFDPoll_success_witness :
    ∃ (h : Nat) (t : CAmSocketHandler) (e : sh_poll_s),
      addFDPoll allOpen fresh 5 POLLIN none none none none 0 0 = some (E_OK, h, t)
        ∧ t.mListPoll = fresh.mListPoll ++ [e]
        ∧ e.handle = h
        ∧ e.pollfdValue = { fd := 5, events := POLLIN, revents := 0 }
        ∧ e.prepareCB = none ∧ e.firedCB = none ∧ e.checkCB = none
        ∧ e.dispatchCB = none ∧ e.userData = 0
        ∧ t.mRecreatePollfds = true
        ∧ h ≠ 0 ∧ 1 ≤ h ∧ h ≤ 65535
        ∧ ∀ x ∈ fresh.mListPoll, x.handle ≠ h :=
  addFDPoll_success 65535 (by decide) (by decide) allOpen fresh
    (reachable_ctor allOpen 65535 65535 3) 5 POLLIN none none none none 0 0 rfl
    { pollHandles := insert 2 (insert 1 ∅), limit := 65535, lastUsedID := 2 } rfl

/-- Witness of C7: on a handler whose two poll handles below the limit 3 are both live,
registering the valid descriptor 9 returns `E_NOT_POSSIBLE` and leaves the handler and the
caller's handle as they were. -/
theorem addFDPoll_failure_witness :
    addFDPoll allOpen exhausted 9 POLLIN none none none none 0 0
      = some (E_NOT_POSSIBLE, 0, exhausted) := by
  obtain ⟨r, hr, _, _, hfull, _, _, hsame⟩ :=
    addFDPoll_failure 3 (by decide) (by decide) allOpen exhausted reachable_exhausted 9 POLLIN
      none none none none 0 0
  have h1 : r.1 = E_NOT_POSSIBLE :=
    hfull rfl (by intro i hi1 hi3; interval_cases i <;> decide)
  have h2 := hsame (by rw [h1]; decide)
  obtain ⟨a, b, c⟩ := r
  simp only at h1 h2
  rw [hr, h1, h2.1, h2.2]

/-- Witness of C10: handle 2 is the last entry of the registry; after `removeFDPoll(2)`,
`getFDPollData(2)` returns `E_UNKNOWN` and the output argument is as before. -/
theorem getFDPollData_after_removeFDPoll_witness :
    getFDPollData (removeFDPoll plainLast 2).2 2 sh_poll_s.new = (E_UNKNOWN, sh_poll_s.new) :=
  getFDPollData_after_removeFDPoll 65535 plainLast reachable_plainLast 2 (by decide)
    sh_poll_s.new


/-- C11. In every state the handler gets into, after a successful `addFDPoll` that puts out the
handle `h`, a following `removeFDPoll(h)` leaves the registry (the entries, in their order) and
the set of live poll handles as they were before the `addFDPoll`; indeed the whole handler is
as before but for the dirty flag, which is set, and the cursor of the allocator, which is on
`h`. -/
theorem addFDPoll_then_removeFDPoll (MAX_POLLHANDLE : Nat) (fdIsValid : Int → Bool)
    (s : CAmSocketHandler) (hs : PollReachable MAX_POLLHANDLE s) (fd : Int) (event : Nat)
    (prepare : Option Nat) (fired : Option FiredFn) (check : Option CheckFn)
    (dispatch : Option Nat) (userData handle h : Nat) (t : CAmSocketHandler)
    (hadd : addFDPoll fdIsValid s fd event prepare fired check dispatch userData handle
      = some (E_OK, h, t)) :
    (removeFDPoll t h).2.mListPoll = s.mListPoll
      ∧ (removeFDPoll t h).2.mSetPollKeys.pollHandles = s.mSetPollKeys.pollHandles
      ∧ (removeFDPoll t h).2
          = { s with mRecreatePollfds := true
                     mSetPollKeys := { s.mSetPollKeys with lastUsedID := h } } := by
  have hinv := registryInv_of_reachable MAX_POLLHANDLE s hs
  rcases addFDPoll_cases _ _ _ _ _ _ _ _ _ _ _ hadd with ⟨_, hr⟩ | ⟨_, _, hr⟩ | ⟨_, keys, hk, hr⟩
  · simp at hr
  · simp at hr
  · simp only [Prod.mk.injEq, true_and] at hr
    obtain ⟨hh, ht⟩ := hr
    subst hh
    subst ht
    have hnext := nextHandleLoop_true _ _ _ _ hk
    have hfresh : ∀ y ∈ s.mListPoll,
        ((fun e : sh_poll_s => e.handle == keys.lastUsedID) y) = false := by
      intro y hy
      have : y.handle ≠ keys.lastUsedID := fun hc => hnext.1 (by rw [← hc]; exact hinv.live y hy)
      simpa using this
    have hscan := scanFor_append_of_last (fun e : sh_poll_s => e.handle == keys.lastUsedID)
      s.mListPoll
      { isValid := true, handle := keys.lastUsedID
        pollfdValue := { fd := fd, events := event, revents := 0 }
        prepareCB := prepare, firedCB := fired, checkCB := check
        dispatchCB := dispatch, userData := userData } hfresh (by simp)
    have hset : keys.pollHandles.erase keys.lastUsedID = s.mSetPollKeys.pollHandles := by
      rw [hnext.2.1]
      exact Finset.erase_insert hnext.1
    have hstate : (removeFDPoll
          { s with mSetPollKeys := keys
                   mListPoll := s.mListPoll ++
                     [{ isValid := true, handle := keys.lastUsedID
                        pollfdValue := { fd := fd, events := event, revents := 0 }
                        prepareCB := prepare, firedCB := fired, checkCB := check
                        dispatchCB := dispatch, userData := userData }]
                   mRecreatePollfds := true } keys.lastUsedID).2
        = { s with mRecreatePollfds := true
                   mSetPollKeys := { s.mSetPollKeys with lastUsedID := keys.lastUsedID } } := by
      unfold removeFDPoll
      simp only [hscan, List.length_append, List.length_singleton, Nat.lt_succ_self, if_true,
        eraseIdx_append_singleton, hset, hnext.2.2]
    rw [hstate]
    exact ⟨rfl, rfl, rfl⟩

/-- C12. For a registered handle `h`, whose entry is `e0`, and an event mask `e`,
`updateEventFlags(h, e)` returns `E_OK` and marks the registry dirty; a following
`getFDPollData(h)` returns `E_OK` and the entry `e0` with `events == e`, every other field as it
was; the registry is the same list with that one entry replaced and nothing else in the handler
changes. For a handle that is not registered `updateEventFlags` returns `E_UNKNOWN` and changes
nothing at all. -/
theorem updateEventFlags_then_getFDPollData (s : CAmSocketHandler) (h events : Nat)
    (outPollData : sh_poll_s) :
    (∀ e0, getFDPollData s h outPollData = (E_OK, e0) →
        (updateEventFlags s h events).1 = E_OK
          ∧ (updateEventFlags s h events).2.mRecreatePollfds = true
          ∧ getFDPollData (updateEventFlags s h events).2 h outPollData
              = (E_OK, { e0 with pollfdValue := { e0.pollfdValue with events := events } })
          ∧ ∃ pre post, s.mListPoll = pre ++ e0 :: post
              ∧ (updateEventFlags s h events).2
                  = { s with mRecreatePollfds := true
                             mListPoll := pre ++
                               { e0 with pollfdValue := { e0.pollfdValue with events := events } }
                                 :: post })
      ∧ ((∀ e ∈ s.mListPoll, e.handle ≠ h) → updateEventFlags s h events = (E_UNKNOWN, s)) := by
  constructor
  · intro e0 hget
    have hfind : s.mListPoll.find? (fun e => e.handle == h) = some e0 := by
      unfold getFDPollData at hget
      cases hf : s.mListPoll.find? (fun e => e.handle == h) with
      | none => simp [hf] at hget
      | some e => simp only [hf, Prod.mk.injEq, true_and] at hget; rw [hget]
    obtain ⟨pre, post, hsplit, he0, hpre⟩ := find_split h s.mListPoll e0 hfind
    have hany : s.mListPoll.any (fun e => e.handle == h) = true := by
      rw [List.any_eq_true]
      exact ⟨e0, by rw [hsplit]; simp, by simpa using he0⟩
    have hassign := assignFirst_split h
      (fun e => { e with pollfdValue := { e.pollfdValue with events := events } }) pre post e0
      he0 hpre
    have hstate : updateEventFlags s h events
        = (E_OK, { s with mRecreatePollfds := true
                          mListPoll := pre ++
                            { e0 with pollfdValue := { e0.pollfdValue with events := events } }
                              :: post }) := by
      unfold updateEventFlags
      simp only [hany, if_true]
      rw [hsplit, hassign]
    rw [hstate]
    refine ⟨rfl, rfl, ?_, pre, post, hsplit, rfl⟩
    unfold getFDPollData
    simp only
    rw [find_of_split h pre post
      { e0 with pollfdValue := { e0.pollfdValue with events := events } } he0 hpre]
  · intro hn
    have hany : s.mListPoll.any (fun e => e.handle == h) = false := by
      rw [List.any_eq_false]
      intro x hx
      simpa using hn x hx
    unfold updateEventFlags
    simp [hany]

/-- C13. In every state reached from the empty registry of the constructor by calls of
`addFDPoll`, `removeFDPoll` and `updateEventFlags`, successful or not, the handles of the
registry entries are pairwise distinct, none of them is 0, and they are exactly the members of
the live set `mSetPollKeys.pollHandles` of the allocator. -/
theorem poll_handles_unique (MAX_POLLHANDLE : Nat) (hMAX : 2 ≤ MAX_POLLHANDLE)
    (h16 : MAX_POLLHANDLE ≤ 65535) (s : CAmSocketHandler)
    (hs : PollReachable MAX_POLLHANDLE s) :
    (s.mListPoll.map sh_poll_s.handle).Nodup
      ∧ (∀ e ∈ s.mListPoll, e.handle ≠ 0)
      ∧ (s.mListPoll.map sh_poll_s.handle).toFinset = s.mSetPollKeys.pollHandles := by
  have hinv := registryInv_of_reachable MAX_POLLHANDLE s hs
  have hlive := liveInv_of_reachable MAX_POLLHANDLE hMAX h16 s hs
  refine ⟨hinv.nodup, ?_, ?_⟩
  · intro e he h0
    have := hlive.nonzero _ (hinv.live e he)
    omega
  · ext x
    simp only [List.mem_toFinset, List.mem_map]
    constructor
    · rintro ⟨e, he, rfl⟩
      exact hinv.live e he
    · intro hx
      exact hlive.registered x hx

/-- C14. For an allocator with limit `L`, cursor `c` in `[1, L-1]` and live set `S`, whenever
`nextHandle` returns `true` the new cursor `r` is the first id that is not in `S` of the
cyclic sequence `c+1, c+2, ...` wrapping from `L-1` back to 1, it lies in `[1, L-1]` (so it is
neither 0 nor `L`), it was not in `S`, and the live set afterwards is `S` with `r` added. -/
theorem nextHandle_first_free (L : Nat) (hL : 2 ≤ L) (h16 : L ≤ 65535) (S : Finset Nat) (c : Nat)
    (hc1 : 1 ≤ c) (hc : c < L) (k1 : sh_identifier_s)
    (h : nextHandle { pollHandles := S, limit := L, lastUsedID := c } = some (true, k1)) :
    firstFreeAfter L S c = some k1.lastUsedID
      ∧ 1 ≤ k1.lastUsedID ∧ k1.lastUsedID ≤ L - 1
      ∧ k1.lastUsedID ≠ 0 ∧ k1.lastUsedID ≠ L
      ∧ k1.lastUsedID ∉ S
      ∧ k1.pollHandles = insert k1.lastUsedID S
      ∧ k1.limit = L := by
  have h1 := nextHandleLoop_true _ _ _ _ h
  have h2 := nextHandleLoop_true_range _ L hL h16 _ _ _ rfl hc h
  have h3 := nextHandleLoop_first_free c L S hL h16 hc1 hc _ c k1 hc1 hc h (L - 1) (by simp; omega)
  refine ⟨h3, h2.1, by omega, by omega, by omega, h1.1, h1.2.1, h1.2.2⟩

/-- C15 (the code departs from the claim). With the limit 3, poll handles 1 and 2 were
allocated and handle 2 was removed again: id 2 is free, the cursor is on it, and `nextHandle`
returns `false` (so `addFDPoll` returns `E_NOT_POSSIBLE`), because the loop gives up when the
cursor comes back to the handle it started from without looking whether that handle is free. -/
theorem nextHandle_fails_with_free_id :
    cursorFreed.mSetPollKeys.limit = 3
      ∧ cursorFreed.mSetPollKeys.lastUsedID = 2
      ∧ (1 ∈ cursorFreed.mSetPollKeys.pollHandles ∧ 2 ∉ cursorFreed.mSetPollKeys.pollHandles)
      ∧ (nextHandle cursorFreed.mSetPollKeys).map Prod.fst = some false
      ∧ (addFDPoll allOpen cursorFreed 9 POLLIN none none none none 0 0).map Prod.fst
          = some E_NOT_POSSIBLE := by
  decide

/-- C16. For every limit `L` from 3 up to the largest 16-bit value, from an allocator whose
live set is empty and whose cursor is below the limit, any number `n` of consecutive pairs of an
allocation with `nextHandle` and the erasure of the returned id succeeds at every step, and one
further allocation after them succeeds too; in particular for `n = L`. -/
theorem no_monotonic_exhaustion (L : Nat) (hL : 3 ≤ L) (h16 : L ≤ 65535) (k : sh_identifier_s)
    (hl : k.limit = L) (he : k.pollHandles = ∅) (hc : k.lastUsedID < L) (n : Nat) :
    ∃ k1, allocateThenErasePairs n k = some k1
      ∧ ∃ k2, nextHandle k1 = some (true, k2) := by
  suffices hgen : ∀ (n : Nat) (k : sh_identifier_s), k.limit = L → k.pollHandles = ∅ →
      k.lastUsedID < L →
      ∃ k1, allocateThenErasePairs n k = some k1 ∧ k1.limit = L ∧ k1.pollHandles = ∅
        ∧ k1.lastUsedID < L by
    obtain ⟨k1, h1, h2, h3, h4⟩ := hgen n k hl he hc
    exact ⟨k1, h1, _, (nextHandle_of_empty L hL h16 k1 h2 h3 h4).1⟩
  intro n
  induction n with
  | zero => intro k hl he hc; exact ⟨k, rfl, hl, he, hc⟩
  | succ m ih =>
    intro k hl he hc
    obtain ⟨k1, h1, h2, h3, h4⟩ := allocateThenErase_of_empty L hL h16 k hl he hc
    obtain ⟨k2, h5, h6⟩ := ih k1 h2 h3 h4
    exact ⟨k2, by simp only [allocateThenErasePairs, h1, h5], h6⟩

/-- C20 (the code departs from the claim). Built with `WITH_TIMERFD`, `removeTimer` on a handle
that belongs to no timer returns `E_NON_EXISTENT`, not `E_UNKNOWN` as the claim and the comment
of the function say. In the list backend, after `updateTimer` has left two active entries for
timer 1, `removeTimer(1)` returns `E_OK` and removes the timer from the timer list and from the
live set, but one entry with handle 1 stays in the active list. -/
theorem removeTimer_divergences :
    (removeTimerWithTimerFd freshWithTimerFd 7).1 = E_NON_EXISTENT
      ∧ updatedTimer.mListTimer.map sh_timer_s.handle = [1]
      ∧ (removeTimer updatedTimer 1).1 = E_OK
      ∧ (removeTimer updatedTimer 1).2.mListTimer = []
      ∧ 1 ∉ (removeTimer updatedTimer 1).2.mSetTimerKeys.pollHandles
      ∧ (removeTimer updatedTimer 1).2.mListActiveTimer.map (fun t => (t.handle, t.countdown))
          = [(1, seconds 3)] := by
  decide

/-- C17. Fire stage, for user code whose `fired` callbacks leave the snapshot entries in place:
the transient fired list is exactly the positions `i` of the polling array with
`revents_i & (events_i | POLLERR | POLLHUP) != 0`, in ascending order, and the calls made in the
stage are exactly the calls of `fired` of the snapshot entries at these positions, one for each,
in that order (an entry without `fired` callback has none to call). When `ppoll` reports 0, or
is interrupted, the iteration ends having called no `fired`, `check` or `dispatch` at all. -/
theorem fire_stage {U : Type} (uc : UserCode U) (hkeep : FiredKeepsSnapshot uc) (l : Loop U) :
    (fireStage uc l).listPoll = readyPositions l.fdPollingArray
      ∧ (readyPositions l.fdPollingArray).Pairwise (fun i j => i < j)
      ∧ (fireStage uc l).log.map Invocation.call
          = l.log.map Invocation.call
              ++ firedCalls l.sh.mListActivePolls (readyPositions l.fdPollingArray)
      ∧ ∀ (fuel : Nat) (w : Wake) (l0 : Loop U),
          (w.ppoll.status = 0 ∨ (w.ppoll.status < 0 ∧ w.ppoll.errnoIsEINTR = true)) →
          ∃ l1, iteration uc fuel w l0 = Run.done l1
            ∧ LogGrows (fun v => v.stage = Stage.prepare ∨ v.stage = Stage.timer) l0 l1 := by
  obtain ⟨h1, _, _, _, h5⟩ := fireStage_upto uc hkeep l l.fdPollingArray.length (le_refl _)
  refine ⟨h1, ?_, h5, fun fuel w l0 hw => iteration_nothing_ready uc fuel w l0 hw⟩
  unfold readyPositions
  exact List.Pairwise.sublist (List.filter_sublist _) (List.pairwise_lt_range _)

/-- C18. Check stage: when no `check` callback throws the stage runs to its end; and whenever
it does, the fired list is then exactly the fired entries that have a `check` callback, have
`valid == true` when they are examined and whose `check` returned `true`, in their original
order; `check` is called at most once for each fired entry, only on entries with
`valid == true`, and for an entry without `check` callback or with `valid == false` nothing is
called and nothing changes. -/
theorem check_stage {U : Type} (uc : UserCode U) (l : Loop U) :
    ((∀ id h ud sh u, (uc.checkCB id h ud sh u).value ≠ none) →
        ∃ l1, checkStage uc l = Run.done l1)
      ∧ (∀ l1, checkStage uc l = Run.done l1 →
          l1.listPoll = keptByCheck uc l.listPoll l
            ∧ l1.listPoll.Sublist l.listPoll
            ∧ ∃ added, l1.log = l.log ++ added
                ∧ (∀ v ∈ added, v.stage = Stage.check ∧ v.entryValid = true)
                ∧ added.length ≤ l.listPoll.length)
      ∧ (∀ (i : Nat) (l0 : Loop U) (a : sh_poll_s), l0.sh.mListActivePolls[i]? = some a →
          (a.checkCB = none ∨ a.isValid = false) →
          noDispatching uc i l0 = (some true, l0) ∧ staysAfterCheck uc i l0 = false) := by
  refine ⟨?_, ?_, ?_⟩
  · intro hret
    obtain ⟨rest, l1, hr⟩ := removeIf_noDispatching_ends uc hret l.listPoll l
    exact ⟨{ l1 with listPoll := rest }, by simp only [checkStage, hr]⟩
  · intro l1 h
    unfold checkStage at h
    cases hr : removeIf (noDispatching uc) l.listPoll l with
    | mk r lb =>
      rw [hr] at h
      cases r with
      | none => simp at h
      | some rest =>
        simp only [Run.done.injEq] at h
        subst h
        exact removeIf_noDispatching uc l.listPoll l rest lb hr
  · intro i l0 a ha hc
    unfold noDispatching staysAfterCheck
    rw [ha]
    rcases hc with hc | hc
    · simp [hc]
    · cases h2 : a.checkCB with
      | none => simp [h2]
      | some fn => simp [h2, hc]

/-- C19. Dispatch stage, for `dispatch` callbacks that return `true` a number of times (their
budget) and then `false` and leave the snapshot alone: for a list of entries that are valid,
with pairwise distinct handles, and more rounds allowed than the largest budget, the stage runs
to its end with an empty list, calls nothing but `dispatch` (so `fired` is not called again),
calls the `dispatch` of an entry exactly once more than its budget (`k` times `true`, then
`false`: `k + 1` calls), and does not call anything for an entry without `dispatch`
callback. -/
theorem dispatch_back_pressure {U : Type} (uc : UserCode U) (budget : U → Nat → Nat)
    (hb : DispatchBudget uc budget) (fuel : Nat) (l : Loop U) (hfuel0 : 0 < fuel)
    (hvalid : ∀ p ∈ l.listPoll, ∃ a, l.sh.mListActivePolls[p]? = some a ∧ a.isValid = true)
    (hnodup : (l.listPoll.map (handleAt l.sh.mListActivePolls)).Nodup)
    (hfuel : ∀ p ∈ l.listPoll, budget l.user (handleAt l.sh.mListActivePolls p) < fuel) :
    ∃ l1, dispatchStage uc fuel l = Run.done l1 ∧ l1.listPoll = []
      ∧ ∃ added, l1.log = l.log ++ added
          ∧ (∀ v ∈ added, v.stage = Stage.dispatch)
          ∧ ∀ p ∈ l.listPoll,
              added.countP (fun v => v.handle == handleAt l.sh.mListActivePolls p)
                = if hasDispatch l.sh.mListActivePolls p
                  then budget l.user (handleAt l.sh.mListActivePolls p) + 1 else 0 := by
  obtain ⟨l1, h1, h2, added, h3, h4, h5⟩ :=
    dispatchStage_budget uc budget hb l.sh.mListActivePolls fuel l rfl hvalid hnodup hfuel0
      (fun p hp _ => hfuel p hp)
  refine ⟨l1, h1, h2, added, h3, fun v hv => (h4 v hv).1, ?_⟩
  intro p hp
  rw [h5]
  by_cases hd : hasDispatch l.sh.mListActivePolls p = true
  · have hm : handleAt l.sh.mListActivePolls p
        ∈ (l.listPoll.filter (hasDispatch l.sh.mListActivePolls)).map
            (handleAt l.sh.mListActivePolls) :=
      List.mem_map_of_mem _ (List.mem_filter.mpr ⟨hp, hd⟩)
    simp only [hm, hd, if_true]
  · have hm : handleAt l.sh.mListActivePolls p
        ∉ (l.listPoll.filter (hasDispatch l.sh.mListActivePolls)).map
            (handleAt l.sh.mListActivePolls) := by
      intro hc
      obtain ⟨q, hq, hqe⟩ := List.mem_map.mp hc
      rw [List.mem_filter] at hq
      have hqp : q = p := List.inj_on_of_nodup_map hnodup hq.1 hp hqe
      subst hqp
      exact hd hq.2
    simp only [hm, hd, if_false, Bool.false_eq_true]

/-- Witness of C11: descriptor 5 is registered on the constructed handler (handle 2) and removed
again. -/
theorem addFDPoll_then_removeFDPoll_witness :
    (removeFDPoll plainLast 2).2.mListPoll = fresh.mListPoll
      ∧ (removeFDPoll plainLast 2).2.mSetPollKeys.pollHandles = fresh.mSetPollKeys.pollHandles
      ∧ (removeFDPoll plainLast 2).2
          = { fresh with mRecreatePollfds := true
                         mSetPollKeys := { fresh.mSetPollKeys with lastUsedID := 2 } } :=
  addFDPoll_then_removeFDPoll 65535 allOpen fresh (reachable_ctor allOpen 65535 65535 3) 5 POLLIN
    none none none none 0 0 2 plainLast rfl

/-- Witness of C12: the event mask of handle 2 is set to 4; handle 7 is not registered. -/
theorem updateEventFlags_then_getFDPollData_witness :
    ((updateEventFlags plainLast 2 4).1 = E_OK
        ∧ (updateEventFlags plainLast 2 4).2.mRecreatePollfds = true
        ∧ getFDPollData (updateEventFlags plainLast 2 4).2 2 sh_poll_s.new
            = (E_OK, { isValid := true, handle := 2
                       pollfdValue := { fd := 5, events := 4, revents := 0 }
                       prepareCB := none, firedCB := none, checkCB := none, dispatchCB := none
                       userData := 0 }))
      ∧ updateEventFlags plainLast 7 4 = (E_UNKNOWN, plainLast) := by
  obtain ⟨h1, h2, h3, _⟩ :=
    (updateEventFlags_then_getFDPollData plainLast 2 4 sh_poll_s.new).1
      { isValid := true, handle := 2, pollfdValue := { fd := 5, events := POLLIN, revents := 0 }
        prepareCB := none, firedCB := none, checkCB := none, dispatchCB := none, userData := 0 }
      rfl
  exact ⟨⟨h1, h2, h3⟩,
    (updateEventFlags_then_getFDPollData plainLast 7 4 sh_poll_s.new).2 (by decide)⟩

/-- Witness of C13: the handler with the pipe and descriptor 5 registered. -/
theorem poll_handles_unique_witness :
    (plainLast.mListPoll.map sh_poll_s.handle).Nodup
      ∧ (∀ e ∈ plainLast.mListPoll, e.handle ≠ 0)
      ∧ (plainLast.mListPoll.map sh_poll_s.handle).toFinset
          = plainLast.mSetPollKeys.pollHandles :=
  poll_handles_unique 65535 (by decide) (by decide) plainLast reachable_plainLast

/-- Witness of C14: limit 5, cursor 2, ids 3 and 4 live; the cyclic sequence after 2 is
3, 4, 1, 2 and the allocator hands out 1. -/
theorem nextHandle_first_free_witness :
    cyclicSeq 5 2 4 = [3, 4, 1, 2]
      ∧ firstFreeAfter 5 {3, 4} 2 = some 1
      ∧ 1 ≤ 1 ∧ 1 ≤ 5 - 1 ∧ 1 ≠ 0 ∧ 1 ≠ 5
      ∧ 1 ∉ ({3, 4} : Finset Nat)
      ∧ (insert 1 {3, 4} : Finset Nat) = insert 1 {3, 4}
      ∧ 5 = 5 :=
  ⟨by decide,
    nextHandle_first_free 5 (by decide) (by decide) {3, 4} 2 (by decide) (by decide)
      { pollHandles := insert 1 {3, 4}, limit := 5, lastUsedID := 1 } rfl⟩

/-- Witness of C16: the limit is the largest 16-bit value, the allocator is new, and the
experiment runs as many pairs as the limit says. -/
theorem no_monotonic_exhaustion_witness :
    ∃ k1, allocateThenErasePairs 65535 (sh_identifier_s.new 65535) = some k1
      ∧ ∃ k2, nextHandle k1 = some (true, k2) :=
  no_monotonic_exhaustion 65535 (by decide) (by decide) (sh_identifier_s.new 65535) rfl rfl
    (by decide) 65535

/-- Witness of C17: in the scenario of self-removal `ppoll` reports the second descriptor ready;
the fired list is the position 1 and the one call is `fired` of handle 2. An iteration with
nothing ready calls neither `fired` nor `check` nor `dispatch`. -/
theorem fire_stage_witness :
    ((fireStage scenarioCode selfRemovingWoken).listPoll
          = readyPositions selfRemovingWoken.fdPollingArray
        ∧ (readyPositions selfRemovingWoken.fdPollingArray).Pairwise (fun i j => i < j)
        ∧ (fireStage scenarioCode selfRemovingWoken).log.map Invocation.call
            = selfRemovingWoken.log.map Invocation.call
                ++ firedCalls selfRemovingWoken.sh.mListActivePolls
                    (readyPositions selfRemovingWoken.fdPollingArray))
      ∧ readyPositions selfRemovingWoken.fdPollingArray = [1]
      ∧ firedCalls selfRemovingWoken.sh.mListActivePolls [1] = [(Stage.fired, 2)]
      ∧ ∃ l1, iteration scenarioCode 10 nothingReady (loopEntry (seconds 0) selfRemoving 0)
                = Run.done l1
          ∧ LogGrows (fun v => v.stage = Stage.prepare ∨ v.stage = Stage.timer)
              (loopEntry (seconds 0) selfRemoving 0) l1 :=
  ⟨⟨(fire_stage scenarioCode scenarioCode_firedKeepsSnapshot selfRemovingWoken).1,
      (fire_stage scenarioCode scenarioCode_firedKeepsSnapshot selfRemovingWoken).2.1,
      (fire_stage scenarioCode scenarioCode_firedKeepsSnapshot selfRemovingWoken).2.2.1⟩,
    by decide, by decide,
    (fire_stage scenarioCode scenarioCode_firedKeepsSnapshot selfRemovingWoken).2.2.2 10
      nothingReady (loopEntry (seconds 0) selfRemoving 0) (Or.inl rfl)⟩

/-- Witness of C18: in the back-pressure scenario the fired list is the position 1, whose entry
is valid and has a `check` that returns `true`; it stays. The entry of handle 2 in the scenario
`plainLast` has no `check` callback; nothing is called for it. -/
theorem check_stage_witness :
    (∃ l1, checkStage countingCode backPressureFired = Run.done l1)
      ∧ (backPressureChecked.listPoll
            = keptByCheck countingCode backPressureFired.listPoll backPressureFired
          ∧ backPressureChecked.listPoll.Sublist backPressureFired.listPoll
          ∧ ∃ added, backPressureChecked.log = backPressureFired.log ++ added
              ∧ (∀ v ∈ added, v.stage = Stage.check ∧ v.entryValid = true)
              ∧ added.length ≤ backPressureFired.listPoll.length)
      ∧ backPressureFired.listPoll = [1] ∧ backPressureChecked.listPoll = [1]
      ∧ (noDispatching countingCode 1
            (prepareStage countingCode (loopEntry (seconds 0) plainLast twiceThenFalse))
          = (some true, prepareStage countingCode (loopEntry (seconds 0) plainLast twiceThenFalse))
        ∧ staysAfterCheck countingCode 1
            (prepareStage countingCode (loopEntry (seconds 0) plainLast twiceThenFalse))
          = false) :=
  ⟨(check_stage countingCode backPressureFired).1 (by intro id h ud sh u; simp [countingCode]),
    (check_stage countingCode backPressureFired).2.1 backPressureChecked rfl,
    by decide, by decide,
    (check_stage countingCode backPressureFired).2.2 1
      (prepareStage countingCode (loopEntry (seconds 0) plainLast twiceThenFalse))
      { isValid := true, handle := 2, pollfdValue := { fd := 5, events := POLLIN, revents := 0 }
        prepareCB := none, firedCB := none, checkCB := none, dispatchCB := none, userData := 0 }
      (by decide) (Or.inl rfl)⟩

/-- Witness of C19: the `dispatch` of handle 2 returns `true` twice and then `false`; in one
iteration `fired` and `check` are called once and `dispatch` three times, and the dispatch
stage ends with an empty list. -/
theorem dispatch_back_pressure_witness :
    (∃ l1, dispatchStage countingCode 10 backPressureChecked = Run.done l1 ∧ l1.listPoll = []
        ∧ ∃ added, l1.log = backPressureChecked.log ++ added
            ∧ (∀ v ∈ added, v.stage = Stage.dispatch)
            ∧ ∀ p ∈ backPressureChecked.listPoll,
                added.countP
                    (fun v => v.handle == handleAt backPressureChecked.sh.mListActivePolls p)
                  = if hasDispatch backPressureChecked.sh.mListActivePolls p
                    then backPressureChecked.user
                      (handleAt backPressureChecked.sh.mListActivePolls p) + 1 else 0)
      ∧ backPressureChecked.listPoll = [1]
      ∧ handleAt backPressureChecked.sh.mListActivePolls 1 = 2
      ∧ backPressureChecked.user 2 = 2
      ∧ (iteration countingCode 10 secondReady
            (loopEntry (seconds 0) backPressure twiceThenFalse)).state?.map
            (fun l => l.log.map Invocation.call)
          = some [(Stage.fired, 2), (Stage.check, 2), (Stage.dispatch, 2), (Stage.dispatch, 2),
                  (Stage.dispatch, 2)] := by
  have hl : backPressureChecked.listPoll = [1] := by decide
  refine ⟨dispatch_back_pressure countingCode (fun u h => u h) countingCode_budget 10
    backPressureChecked (by decide) ?_ ?_ ?_, hl, by decide, by decide, by decide⟩
  · intro p hp
    rw [hl] at hp
    simp only [List.mem_singleton] at hp
    subst hp
    exact ⟨{ isValid := true, handle := 2
             pollfdValue := { fd := 5, events := POLLIN, revents := 0 }
             prepareCB := none, firedCB := some (FiredFn.user 0)
             checkCB := some (CheckFn.user 0), dispatchCB := some 0, userData := 0 },
      by decide, rfl⟩
  · rw [hl]
    simp
  · intro p hp
    rw [hl] at hp
    simp only [List.mem_singleton] at hp
    subst hp
    decide
/-- C29. Polling array is a pure projection of the snapshot: after the rebuild branch of an
iteration the `pollfd` array has the length of the active snapshot and its element at every
index has the descriptor and the event mask of the snapshot entry at that index and
`revents = 0`, whatever the `prepare` callbacks that run during the rebuild do to the registry
through `addFDPoll`, `removeFDPoll` or `updateEventFlags`; and the agreement of descriptor and
event mask, index for index, holds at the end of that iteration and of every later one. -/
theorem polling_array_projection {U : Type} (uc : UserCode U) (hkeep : KeepsSnapshot uc)
    (fuel : Nat) (w : Wake) (l : Loop U) :
    (l.sh.mRecreatePollfds = true →
      (prepareStage uc l).fdPollingArray.length = (prepareStage uc l).sh.mListActivePolls.length
        ∧ ∀ (i : Nat) (e : sh_poll_s), (prepareStage uc l).sh.mListActivePolls[i]? = some e →
            (prepareStage uc l).fdPollingArray[i]?
              = some { fd := e.pollfdValue.fd, events := e.pollfdValue.events, revents := 0 })
      ∧ (∀ l1 : Loop U, (l.sh.mRecreatePollfds = true ∨ Projection l) →
          (iteration uc fuel w l).state? = some l1 →
          Projection l1
            ∧ ∀ (ws : List Wake) (l2 : Loop U),
                (listenLoop uc fuel ws l1).state? = some l2 → Projection l2)
      ∧ (∀ l1 : Loop U, Projection l1 →
          l1.fdPollingArray.length = l1.sh.mListActivePolls.length
            ∧ ∀ (i : Nat) (e : sh_poll_s), l1.sh.mListActivePolls[i]? = some e →
                ∃ p, l1.fdPollingArray[i]? = some p ∧ p.fd = e.pollfdValue.fd
                  ∧ p.events = e.pollfdValue.events) := by
  refine ⟨?_, ?_, fun l1 hp => projection_index l1 hp⟩
  · intro hflag
    have hr := (prepareStage_rebuild uc hkeep l hflag).2
    constructor
    · rw [hr, List.length_map]
    · intro i e he
      rw [hr, List.getElem?_map, he]
      rfl
  · intro l1 h0 h
    have hp := iteration_projection uc hkeep fuel w l l1 h0 h
    exact ⟨hp, fun ws l2 h2 => listenLoop_projection uc hkeep fuel ws l1 l2 hp h2⟩

/-- Witness of C29: the loop of the handler `removedInPrepare` rebuilds in its first iteration
and the `prepare` of handle 2 removes its own handle meanwhile; the polling array is the
projection of the three snapshot entries all the same. -/
theorem polling_array_projection_witness :
    KeepsSnapshot scenarioCode
      ∧ rebuildWithRemoval.sh.mRecreatePollfds = true
      ∧ (prepareStage scenarioCode rebuildWithRemoval).sh.mListPoll.map sh_poll_s.handle = [1, 3]
      ∧ (prepareStage scenarioCode rebuildWithRemoval).sh.mListActivePolls.map sh_poll_s.handle
          = [1, 2, 3]
      ∧ (prepareStage scenarioCode rebuildWithRemoval).fdPollingArray
          = [{ fd := 3, events := POLLIN, revents := 0 }, { fd := 5, events := POLLIN, revents := 0 },
             { fd := 6, events := POLLIN, revents := 0 }]
      ∧ (prepareStage scenarioCode rebuildWithRemoval).fdPollingArray.length
          = (prepareStage scenarioCode rebuildWithRemoval).sh.mListActivePolls.length
      ∧ ∀ l1 : Loop Nat,
          (iteration scenarioCode 1 nothingReady rebuildWithRemoval).state? = some l1 →
          Projection l1 :=
  ⟨scenarioCode_keepsSnapshot, by decide, by decide, by decide, by decide,
    ((polling_array_projection scenarioCode scenarioCode_keepsSnapshot 1 nothingReady
        rebuildWithRemoval).1 (by decide)).1,
    fun l1 h =>
      ((polling_array_projection scenarioCode scenarioCode_keepsSnapshot 1 nothingReady
          rebuildWithRemoval).2.1 l1 (Or.inl (by decide)) h).1⟩

/-- C30. Snapshot frame: `addFDPoll` and `updateEventFlags` leave the active snapshot as it
is; `removeFDPoll` leaves its length, and every entry of it is afterwards what it was, or it
has the removed handle and is what it was with `isValid` cleared. So after any of the three
the entry that the check stage and the dispatch stage find at a position of the snapshot is
the one that was there, but for the flag. -/
theorem snapshot_frame (fdIsValid : Int → Bool) (s : CAmSocketHandler) (fd : Int) (event : Nat)
    (prepare : Option Nat) (fired : Option FiredFn) (check : Option CheckFn)
    (dispatch : Option Nat) (userData handle h events : Nat) :
    (∀ r, addFDPoll fdIsValid s fd event prepare fired check dispatch userData handle = some r →
        r.2.2.mListActivePolls = s.mListActivePolls)
      ∧ (updateEventFlags s h events).2.mListActivePolls = s.mListActivePolls
      ∧ (removeFDPoll s h).2.mListActivePolls.length = s.mListActivePolls.length
      ∧ (∀ (i : Nat) (a : sh_poll_s), s.mListActivePolls[i]? = some a →
          (removeFDPoll s h).2.mListActivePolls[i]? = some a
            ∨ (a.handle = h
                ∧ (removeFDPoll s h).2.mListActivePolls[i]? = some { a with isValid := false }))
      ∧ (∀ i : Nat, ((removeFDPoll s h).2.mListActivePolls[i]?).map sh_poll_s.unflagged
          = (s.mListActivePolls[i]?).map sh_poll_s.unflagged) := by
  refine ⟨fun r hr => addFDPoll_snapshot _ _ _ _ _ _ _ _ _ _ r hr, updateEventFlags_snapshot s h events,
    ?_, ?_, fun i => unflagged_lookup _ _ (removeFDPoll_unflagged s h) i⟩
  · have := congrArg List.length (removeFDPoll_unflagged s h)
    simpa using this
  · intro i a ha
    rcases removeFDPoll_snapshot s h with hr | hr
    · rw [hr]
      exact Or.inl ha
    · rw [hr]
      rcases assignFirst_lookup (fun e => e.handle == h) (fun e => { e with isValid := false })
          s.mListActivePolls i a ha with h1 | ⟨h1, h2⟩
      · exact Or.inl h1
      · exact Or.inr ⟨by simpa using h1, h2⟩

/-- Witness of C30: with the snapshot of the scenario of self-removal taken (handles 1 and 2),
`removeFDPoll(1)` clears the flag of the first snapshot entry and leaves the second, and
`updateEventFlags(2, 4)` leaves the snapshot as it is. -/
theorem snapshot_frame_witness :
    (updateEventFlags selfRemovingPrepared 2 4).2.mListActivePolls
        = selfRemovingPrepared.mListActivePolls
      ∧ (removeFDPoll selfRemovingPrepared 1).2.mListActivePolls.length
          = selfRemovingPrepared.mListActivePolls.length
      ∧ selfRemovingPrepared.mListActivePolls.map (fun e => (e.handle, e.isValid))
          = [(1, true), (2, true)]
      ∧ (removeFDPoll selfRemovingPrepared 1).2.mListActivePolls.map
          (fun e => (e.handle, e.isValid)) = [(1, false), (2, true)] :=
  ⟨(snapshot_frame allOpen selfRemovingPrepared 7 POLLIN none none none none 0 0 2 4).2.1,
    (snapshot_frame allOpen selfRemovingPrepared 7 POLLIN none none none none 0 0 1 4).2.2.1,
    by decide, by decide⟩

/-- C25. List-backend timer ordering invariant: in every state that calls of `addTimer`,
`updateTimer`, `restartTimer`, `stopTimer`, `removeTimer`, `timerCorrection`, `timerUp` and
`stop_listening` with proper time values lead to, the active list is sorted by ascending
countdown (an entry that comes before another has a countdown of at most that of the other);
so the timeout that `insertTime` hands to `ppoll` is the countdown of the head entry, it is at
most the countdown of every active timer, and it is null exactly when the active list is
empty. -/
theorem active_timers_sorted (MAX_TIMERHANDLE : Nat) (hMAX : 2 ≤ MAX_TIMERHANDLE)
    (h16 : MAX_TIMERHANDLE ≤ 65535) (s : CAmSocketHandler)
    (hs : TimerReachable MAX_TIMERHANDLE s) :
    ActiveSorted s.mListActiveTimer
      ∧ (∀ (i j : Nat) (a b : sh_timer_s), i < j → s.mListActiveTimer[i]? = some a →
          s.mListActiveTimer[j]? = some b → timespecLe a.countdown b.countdown = true)
      ∧ (insertTime s = none ↔ s.mListActiveTimer = [])
      ∧ (∀ t : timespec, insertTime s = some t →
          (s.mListActiveTimer.head?).map sh_timer_s.countdown = some t
            ∧ ∀ e ∈ s.mListActiveTimer, timespecLe t e.countdown = true) := by
  have hi := timerInv_of_reachable MAX_TIMERHANDLE hMAX h16 s hs
  refine ⟨hi.sorted, fun i j a b hij ha hb => sorted_index _ hi.sorted i j a b hij ha hb, ?_, ?_⟩
  · unfold insertTime
    cases s.mListActiveTimer <;> simp
  · intro t ht
    unfold insertTime at ht
    have hsorted := hi.sorted
    cases hl : s.mListActiveTimer with
    | nil => simp [hl] at ht
    | cons x xs =>
      rw [hl] at ht hsorted
      simp only [Option.some.injEq] at ht
      subst ht
      refine ⟨rfl, ?_⟩
      intro e he
      rcases List.mem_cons.mp he with he | he
      · subst he
        rcases timespecLe_total e.countdown e.countdown with h | h <;> exact h
      · have := (List.pairwise_cons.mp hsorted).1 e he
        rwa [compareCountdown_false_iff] at this

/-- Witness of C25: with a timer of 5 s and then a timer of 3 s added, the active list holds
the timer of 3 s before the timer of 5 s and the timeout for `ppoll` is 3 s. -/
theorem active_timers_sorted_witness :
    TimerReachable 65535 twoTimers
      ∧ twoTimers.mListActiveTimer.map (fun t => (t.handle, t.countdown))
          = [(2, seconds 3), (1, seconds 5)]
      ∧ insertTime twoTimers = some (seconds 3)
      ∧ ActiveSorted twoTimers.mListActiveTimer :=
  ⟨timerReachable_twoTimers, by decide, by decide,
    (active_timers_sorted 65535 (by decide) (by decide) twoTimers timerReachable_twoTimers).1⟩

/-- C26. `timerCorrection` (list backend): for every sorted active list of proper time values
and every clock reading `now`, with `delta = now - mStartTime`, after `timerCorrection` the
start time is `now`; the calls of timer callbacks made are those of the active timers whose
countdown was at most `delta`, one for each (the last of them in the list first); and the
active list is then the list of the timers whose countdown was above `delta`, in their order,
each with its countdown less `delta`, which is exactly `delta` below what it was and not
zero; the list is still sorted. The timer callbacks are taken to leave the active list and the
start time alone. -/
theorem timerCorrection_list {U : Type} (uc : UserCode U) (hidle : TimerCallbacksIdle uc)
    (now : timespec) (l : Loop U) (hnow : now.Normal) (hstart : l.sh.mStartTime.Normal)
    (hsorted : ActiveSorted l.sh.mListActiveTimer)
    (hnormal : ∀ t ∈ l.sh.mListActiveTimer, t.countdown.Normal)
    (delta : timespec) (hdelta : delta = timespecSub now l.sh.mStartTime) :
    delta.toNs = now.toNs - l.sh.mStartTime.toNs
      ∧ (timerCorrection uc now l).sh.mStartTime = now
      ∧ (timerCorrection uc now l).log
          = l.log ++ timerCalls
              (l.sh.mListActiveTimer.filter (fun t => timespecLe t.countdown delta)).reverse
      ∧ (timerCorrection uc now l).sh.mListActiveTimer
          = (l.sh.mListActiveTimer.filter (fun t => !timespecLe t.countdown delta)).map
              (fun t => { t with countdown := timespecSub t.countdown delta })
      ∧ (∀ t ∈ l.sh.mListActiveTimer, timespecLe t.countdown delta = false →
          (timespecSub t.countdown delta).toNs + delta.toNs = t.countdown.toNs
            ∧ countdownZero { t with countdown := timespecSub t.countdown delta } = false)
      ∧ ActiveSorted (timerCorrection uc now l).sh.mListActiveTimer := by
  subst hdelta
  have hd : (timespecSub now l.sh.mStartTime).Normal := timespecSub_normal _ _ hnow
  obtain ⟨h1, h2, h3⟩ := timerCorrection_spec uc hidle now l hnow hsorted
  refine ⟨toNs_timespecSub _ _ hnow hstart, h2, h3, h1, ?_, ?_⟩
  · intro t ht hle
    have hn := hnormal t ht
    have hnle : ¬ t.countdown.toNs ≤ (timespecSub now l.sh.mStartTime).toNs := by
      intro hc
      rw [(timespecLe_iff_toNs _ _ hn hd).mpr hc] at hle
      exact Bool.noConfusion hle
    constructor
    · rw [toNs_timespecSub _ _ hn hd]
      omega
    · rw [countdownZero_sub_eq _ hd]
      exact hle
  · rw [h1]
    exact (sorted_map_sub _ hd _ (fun t ht => hnormal t (List.mem_filter.mp ht).1)
      (hsorted.sublist (List.filter_sublist _)))

/-- Witness of C26: the loop was entered at 10 s with the timers of 3 s and of 5 s active, and
`timerCorrection` reads 14 s on the clock; the timer of 3 s (handle 2) is called and goes, the
timer of 5 s (handle 1) stays with 1 s left. -/
theorem timerCorrection_list_witness :
    TimerCallbacksIdle scenarioCode
      ∧ (timerCorrection scenarioCode (seconds 14) twoTimersRunning).sh.mStartTime = seconds 14
      ∧ (timerCorrection scenarioCode (seconds 14) twoTimersRunning).log
          = [{ stage := Stage.timer, handle := 2, entryValid := true }]
      ∧ (timerCorrection scenarioCode (seconds 14) twoTimersRunning).sh.mListActiveTimer.map
          (fun t => (t.handle, t.countdown)) = [(1, seconds 1)]
      ∧ ActiveSorted (timerCorrection scenarioCode (seconds 14) twoTimersRunning).sh.mListActiveTimer :=
  ⟨scenarioCode_timersIdle, by decide, by decide, by decide,
    (timerCorrection_list scenarioCode scenarioCode_timersIdle (seconds 14) twoTimersRunning
      (by decide) (by decide) (by decide) (by decide) (seconds 4) (by decide)).2.2.2.2.2⟩

/-- C27. `timerUp` (list backend): for every sorted active list and every clock reading `now`,
with `delta = now - mStartTime`, the calls of timer callbacks that `timerUp` makes are those of
the active timers whose countdown is at most `delta`, one for each (none when there is no such
timer); the active list is then the list of the other timers, as they were and in their order;
a timer that was called is not in the active list any more, and a second `timerUp` at the same
clock reading calls nothing. The timer callbacks are taken to leave the active list and the
start time alone. -/
theorem timerUp_list {U : Type} (uc : UserCode U) (hidle : TimerCallbacksIdle uc)
    (now : timespec) (l : Loop U) (hnow : now.Normal)
    (hsorted : ActiveSorted l.sh.mListActiveTimer)
    (delta : timespec) (hdelta : delta = timespecSub now l.sh.mStartTime) :
    (timerUp uc now l).log
        = l.log ++ timerCalls
            (l.sh.mListActiveTimer.filter (fun t => timespecLe t.countdown delta)).reverse
      ∧ (timerUp uc now l).sh.mListActiveTimer
          = l.sh.mListActiveTimer.filter (fun t => !timespecLe t.countdown delta)
      ∧ ((∀ t ∈ l.sh.mListActiveTimer, timespecLe t.countdown delta = false) →
          (timerUp uc now l).log = l.log
            ∧ (timerUp uc now l).sh.mListActiveTimer = l.sh.mListActiveTimer)
      ∧ (∀ t ∈ l.sh.mListActiveTimer, timespecLe t.countdown delta = true →
          t ∉ (timerUp uc now l).sh.mListActiveTimer)
      ∧ (timerUp uc now (timerUp uc now l)).log = (timerUp uc now l).log
      ∧ (timerUp uc now (timerUp uc now l)).sh.mListActiveTimer
          = (timerUp uc now l).sh.mListActiveTimer := by
  subst hdelta
  obtain ⟨h1, h2, h3⟩ := timerUp_spec uc hidle now l hnow hsorted
  have hs2 : ActiveSorted (timerUp uc now l).sh.mListActiveTimer := by
    rw [h1]
    exact hsorted.sublist (List.filter_sublist _)
  obtain ⟨g1, _, g3⟩ := timerUp_spec uc hidle now (timerUp uc now l) hnow hs2
  rw [h2] at g1 g3
  have hnone : (timerUp uc now l).sh.mListActiveTimer.filter
      (fun t => timespecLe t.countdown (timespecSub now l.sh.mStartTime)) = [] := by
    rw [List.filter_eq_nil_iff]
    intro t ht
    rw [h1] at ht
    simpa using (List.mem_filter.mp ht).2
  have hall : (timerUp uc now l).sh.mListActiveTimer.filter
      (fun t => !timespecLe t.countdown (timespecSub now l.sh.mStartTime))
      = (timerUp uc now l).sh.mListActiveTimer := by
    rw [List.filter_eq_self]
    intro t ht
    rw [h1] at ht
    exact (List.mem_filter.mp ht).2
  refine ⟨h3, h1, ?_, ?_, ?_, ?_⟩
  · intro hno
    constructor
    · rw [h3]
      have : l.sh.mListActiveTimer.filter
          (fun t => timespecLe t.countdown (timespecSub now l.sh.mStartTime)) = [] := by
        rw [List.filter_eq_nil_iff]
        intro t ht
        simp [hno t ht]
      rw [this]
      simp [timerCalls]
    · rw [h1, List.filter_eq_self]
      intro t ht
      simp [hno t ht]
  · intro t _ hle hmem
    rw [h1] at hmem
    have := (List.mem_filter.mp hmem).2
    simp [hle] at this
  · rw [g3, hnone]
    simp [timerCalls]
  · rw [g1, hall]

/-- Witness of C27: the loop was entered at 10 s with the timers of 3 s and of 5 s active, and
`timerUp` reads 14 s on the clock; the timer of 3 s (handle 2) is called and goes, the timer of
5 s (handle 1) stays as it is. -/
theorem timerUp_list_witness :
    TimerCallbacksIdle scenarioCode
      ∧ (timerUp scenarioCode (seconds 14) twoTimersRunning).log
          = [{ stage := Stage.timer, handle := 2, entryValid := true }]
      ∧ (timerUp scenarioCode (seconds 14) twoTimersRunning).sh.mListActiveTimer.map
          (fun t => (t.handle, t.countdown)) = [(1, seconds 5)]
      ∧ (timerUp scenarioCode (seconds 14)
            (timerUp scenarioCode (seconds 14) twoTimersRunning)).log
          = (timerUp scenarioCode (seconds 14) twoTimersRunning).log :=
  ⟨scenarioCode_timersIdle, by decide, by decide,
    (timerUp_list scenarioCode scenarioCode_timersIdle (seconds 14) twoTimersRunning
      (by decide) (by decide) (seconds 4) (by decide)).2.2.2.2.1⟩

/-- C28. `addTimer` (list backend): in a state the handler gets into, for every non-zero
duration `d` (a proper time value) the call returns; when it returns `E_OK` the handle is not
zero and differs from the handle of every registered timer, one entry for it is appended to
the timer list and the active list is the old one with that one entry put in, sorted; the
countdown of the entry is `d + (now - mStartTime)` while the loop runs and `d` when the loop is
not started, so that it is not zero, and taking `now - mStartTime` off it again, as the next
`timerCorrection` at the same clock reading does, leaves `d`. When the allocation fails the
call returns `E_NOT_POSSIBLE` and the timer list, the active list and the live set are as they
were. -/
theorem addTimer_list (MAX_TIMERHANDLE : Nat) (hMAX : 2 ≤ MAX_TIMERHANDLE)
    (h16 : MAX_TIMERHANDLE ≤ 65535) (s : CAmSocketHandler)
    (hs : TimerReachable MAX_TIMERHANDLE s) (now d : timespec) (hnow : now.Normal)
    (hd : d.Normal) (hd0 : d ≠ { tv_sec := 0, tv_nsec := 0 }) (callback : Option Nat)
    (userData handle : Nat) :
    (∃ r, addTimer s now d callback userData handle = some r)
      ∧ ∀ r, addTimer s now d callback userData handle = some r →
          (r.1 = E_OK ∨ r.1 = E_NOT_POSSIBLE)
            ∧ (r.1 = E_OK →
                r.2.1 ≠ 0 ∧ (∀ t ∈ s.mListTimer, t.handle ≠ r.2.1)
                  ∧ ∃ item : sh_timer_s,
                      item.handle = r.2.1 ∧ item.callback = callback ∧ item.userData = userData
                        ∧ item.countdown
                            = (if s.mDispatchDone then d
                               else timespecAdd d (timespecSub now s.mStartTime))
                        ∧ r.2.2.mListTimer = s.mListTimer ++ [item]
                        ∧ r.2.2.mListActiveTimer.Perm (item :: s.mListActiveTimer)
                        ∧ ActiveSorted r.2.2.mListActiveTimer
                        ∧ countdownZero item = false
                        ∧ (s.mDispatchDone = false →
                            timespecSub item.countdown (timespecSub now s.mStartTime) = d))
            ∧ (r.1 ≠ E_OK →
                r.2.2.mListTimer = s.mListTimer
                  ∧ r.2.2.mListActiveTimer = s.mListActiveTimer
                  ∧ r.2.2.mSetTimerKeys.pollHandles = s.mSetTimerKeys.pollHandles) := by
  have hi := timerInv_of_reachable MAX_TIMERHANDLE hMAX h16 s hs
  constructor
  · obtain ⟨p, hp⟩ := nextHandle_ends MAX_TIMERHANDLE hMAX h16 s.mSetTimerKeys hi.limit_eq
      hi.cursor_lt hi.cursor_zero
    unfold addTimer
    rw [hp]
    obtain ⟨b, keys⟩ := p
    cases b <;> exact ⟨_, rfl⟩
  · intro r hr
    rcases addTimer_cases _ _ _ _ _ _ _ hr with ⟨_, rfl⟩ | ⟨keys, hk, rfl⟩
    · exact ⟨Or.inr rfl, fun h => am_Error_e.noConfusion h, fun _ => ⟨rfl, rfl, rfl⟩⟩
    · obtain ⟨k1, _, _, k4, _⟩ :=
        nextHandle_true_spec MAX_TIMERHANDLE hMAX h16 _ _ hi.limit_eq hi.cursor_lt hk
      refine ⟨Or.inl rfl, fun _ => ⟨?_, ?_, _, rfl, rfl, rfl, rfl, rfl, ?_, ?_, ?_, ?_⟩,
        fun h => absurd rfl h⟩
      · show keys.lastUsedID ≠ 0
        omega
      · intro t ht hc
        have hc2 : t.handle = keys.lastUsedID := hc
        exact k1 (hc2 ▸ hi.live t ht)
      · exact (listSort_perm _ _).trans (List.perm_append_singleton _ _)
      · exact listSort_sorted _
      · cases hz : countdownZero
            ({ handle := keys.lastUsedID
               countdown := if s.mDispatchDone then d
                 else timespecAdd d (timespecSub now s.mStartTime)
               callback := callback, userData := userData } : sh_timer_s) with
        | false => rfl
        | true =>
          rw [countdownZero_iff_toNs] at hz
          dsimp only at hz
          have hd1 : d.toNs ≠ 0 := by
            intro hc
            apply hd0
            exact timespec_eq_of_toNs _ _ hd zero_normal (by rw [hc]; rfl)
          split at hz
          · exact absurd hz hd1
          · rw [toNs_timespecAdd] at hz
            omega
      · intro hrun
        dsimp only
        rw [hrun]
        simp only [Bool.false_eq_true, if_false]
        exact timespecSub_timespecAdd _ _ hd (timespecSub_normal _ _ hnow)

/-- Witness of C28: with the loop entered at 10 s, a timer of 5 s added at 12 s gets the
handle 1 and the countdown 7 s; with the loop not started it gets the countdown 5 s. -/
theorem addTimer_list_witness :
    (∃ r, addTimer (loopEntry (seconds 10) fresh 0).sh (seconds 12) (seconds 5) (some 0) 0 0
        = some r)
      ∧ (addTimer (loopEntry (seconds 10) fresh 0).sh (seconds 12) (seconds 5) (some 0) 0 0).map
          (fun r => (r.1, r.2.1, r.2.2.mListActiveTimer.map (fun t => (t.handle, t.countdown))))
          = some (E_OK, 1, [(1, seconds 7)])
      ∧ (addTimer fresh (seconds 12) (seconds 5) (some 0) 0 0).map
          (fun r => (r.1, r.2.1, r.2.2.mListActiveTimer.map (fun t => (t.handle, t.countdown))))
          = some (E_OK, 1, [(1, seconds 5)]) :=
  ⟨(addTimer_list 65535 (by decide) (by decide) (loopEntry (seconds 10) fresh 0).sh
      (TimerReachable.other _ _ (timerReachable_ctor allOpen 65535 65535 3) rfl rfl rfl
        (by decide))
      (seconds 12) (seconds 5) (by decide) (by decide) (by decide) (some 0) 0 0).1,
    by decide, by decide⟩

/-- C22. Timer-fd backend deferred close: for a registered timer handle `h`, in a state the
handler gets into, `removeTimer(h)` takes the record of the timer from the timer list and
appends it, with its descriptor, to the list of the removed timers, and the poll registration
of `h` is gone at once (the registry is marked for a rebuild); no descriptor is closed by it.
The descriptors are closed by `closeRemovedTimers`, which the top of an iteration that rebuilds
and the destructor call: it closes the descriptor of each record of the list, once, in order
(a record without descriptor has none to close), and leaves the list empty, so that a second
call closes nothing. -/
theorem removeTimer_deferred_close (MAX_POLLHANDLE : Nat) (s s1 : TimerFdHandler) (h : Nat)
    (t : sh_timerfd_s) (mPipe : Int × Int)
    (hreach : PollReachable MAX_POLLHANDLE s.base)
    (ht : s.mListTimer.find? (fun x => x.handle == h) = some t)
    (hpoll : ∃ e ∈ s.base.mListPoll, e.handle = h)
    (hs1 : s1 = (removeTimerWithTimerFd s h).2) :
    s1.mListRemovedTimers = s.mListRemovedTimers ++ [t]
      ∧ s1.mListTimer = s.mListTimer.eraseIdx (scanFor (fun x => x.handle == h) s.mListTimer)
      ∧ s1.mListTimer.length + 1 = s.mListTimer.length
      ∧ (∀ e ∈ s1.base.mListPoll, e.handle ≠ h)
      ∧ s1.base.mRecreatePollfds = true
      ∧ (closeRemovedTimers s1).1
          = ((s.mListRemovedTimers ++ [t]).filter (fun x => decide (x.fd > -1))).map
              sh_timerfd_s.fd
      ∧ (closeRemovedTimers s1).2.mListRemovedTimers = []
      ∧ (closeRemovedTimers s1).2.mListTimer = s1.mListTimer
      ∧ (closeRemovedTimers (closeRemovedTimers s1).2).1 = []
      ∧ rebuildTopWithTimerFd s1 = closeRemovedTimers s1
      ∧ destructorWithTimerFd mPipe s1
          = (closeRemovedTimers s1).1 ++ s1.base.mListPoll.map (fun e => e.pollfdValue.fd)
              ++ [mPipe.1, mPipe.2] := by
  have hget : s.mListTimer[scanFor (fun x => x.handle == h) s.mListTimer]? = some t := by
    rw [getElem?_scanFor]
    exact ht
  have hlt : scanFor (fun x => x.handle == h) s.mListTimer < s.mListTimer.length :=
    (List.getElem?_eq_some_iff.mp hget).1
  have hs2 : s1 = { base := (removeFDPoll s.base h).2
                    mListTimer :=
                      s.mListTimer.eraseIdx (scanFor (fun x => x.handle == h) s.mListTimer)
                    mListRemovedTimers := s.mListRemovedTimers ++ [t] } := by
    rw [hs1]
    unfold removeTimerWithTimerFd
    dsimp only
    rw [hget]
  have hflag : s1.base.mRecreatePollfds = true := by
    rw [hs2]
    exact (removeFDPoll_registered s.base h hpoll).2.2
  refine ⟨by rw [hs2], by rw [hs2], ?_, ?_, hflag, by rw [hs2]; rfl, rfl, rfl, rfl, ?_, rfl⟩
  · rw [hs2]
    dsimp only
    rw [List.length_eraseIdx]
    simp only [hlt, if_true]
    omega
  · rw [hs2]
    exact removeFDPoll_removes MAX_POLLHANDLE s.base h hreach
  · unfold rebuildTopWithTimerFd
    rw [if_pos hflag]

/-- Witness of C22: with the timers of the handles 2 (descriptor 8) and 3 (descriptor 9)
registered, `removeTimer(2)` leaves the timer 3 in the timer list and the record of the timer 2
in the list of the removed timers; the poll registry holds the handles 1 and 3; the next
`closeRemovedTimers` closes the descriptor 8. -/
theorem removeTimer_deferred_close_witness :
    PollReachable 65535 twoTimerFds.base
      ∧ twoTimerFds.mListTimer.map (fun x => (x.handle, x.fd)) = [(2, 8), (3, 9)]
      ∧ (removeTimerWithTimerFd twoTimerFds 2).2.mListTimer.map (fun x => (x.handle, x.fd))
          = [(3, 9)]
      ∧ (removeTimerWithTimerFd twoTimerFds 2).2.mListRemovedTimers.map
          (fun x => (x.handle, x.fd)) = [(2, 8)]
      ∧ (removeTimerWithTimerFd twoTimerFds 2).2.base.mListPoll.map sh_poll_s.handle = [1, 3]
      ∧ (closeRemovedTimers (removeTimerWithTimerFd twoTimerFds 2).2).1 = [8]
      ∧ (closeRemovedTimers (removeTimerWithTimerFd twoTimerFds 2).2).2.mListRemovedTimers = [] :=
  ⟨reachable_twoTimerFds, by decide, by decide, by decide, by decide, by decide,
    (removeTimer_deferred_close 65535 twoTimerFds (removeTimerWithTimerFd twoTimerFds 2).2 2
      { handle := 2, fd := 8
        countdown := { it_interval := { tv_sec := 0, tv_nsec := 0 }, it_value := seconds 5 }
        userData := 0 }
      (0, 0) reachable_twoTimerFds (by decide) (by decide) rfl).2.2.2.2.2.2.1⟩

/-- C23. Signal fan-out: in a state the handler gets into, `addSignalHandler` returns, and when
it returns `E_OK` it has appended one handler with a handle that is not zero and differs from
the handle of every registered signal handler; `removeSignalHandler(h)` returns `E_OK` and
leaves exactly the handlers with another handle, in their order, when `h` is registered, and
returns `E_UNKNOWN` and changes nothing otherwise; and when the signal descriptor fires and the
read gives a full `signalfd_siginfo`, the calls the lambda makes are one for each registered
signal handler, in the order of registration, each with its handle and user data and the
`signalfd_siginfo` read. The registered handlers are taken to have a callback, and the
callbacks to return. -/
theorem signal_fan_out {U : Type} (MAX_POLLHANDLE : Nat) (hMAX : 2 ≤ MAX_POLLHANDLE)
    (h16 : MAX_POLLHANDLE ≤ 65535) (s : HandlerWithSignals)
    (hs : SignalReachable MAX_POLLHANDLE s) (callback : Option Nat) (handle userData h : Nat)
    (sc : SignalCode U) (r : SignalRead) (sh : CAmSocketHandler) (u : U)
    (hfull : r.bytes = sizeofSiginfo)
    (hcb : ∀ e ∈ s.mSignalHandlers, e.callback.isSome = true)
    (hret : ∀ id h i ud sh u, (sc id h i ud sh u).value = some ()) :
    (∃ a, addSignalHandler s callback handle userData = some a)
      ∧ (∀ a, addSignalHandler s callback handle userData = some a → a.1 = E_OK →
          a.2.1 ≠ 0 ∧ (∀ e ∈ s.mSignalHandlers, e.handle ≠ a.2.1)
            ∧ a.2.2.mSignalHandlers
                = s.mSignalHandlers
                    ++ [{ handle := a.2.1, callback := callback, userData := userData }])
      ∧ ((∃ e ∈ s.mSignalHandlers, e.handle = h) →
          (removeSignalHandler s h).1 = E_OK
            ∧ (removeSignalHandler s h).2.mSignalHandlers
                = s.mSignalHandlers.filter (fun e => e.handle != h)
            ∧ (removeSignalHandler s h).2.mSignalHandlers.length + 1 = s.mSignalHandlers.length)
      ∧ ((∀ e ∈ s.mSignalHandlers, e.handle ≠ h) → removeSignalHandler s h = (E_UNKNOWN, s))
      ∧ (signalActionPoll sc s.mSignalHandlers r sh u).2
          = s.mSignalHandlers.map
              (fun e => { handle := e.handle, info := r.info, userData := e.userData })
      ∧ (signalActionPoll sc s.mSignalHandlers r sh u).1.value = some () := by
  have hi := signalInv_of_reachable MAX_POLLHANDLE hMAX h16 s hs
  refine ⟨?_, ?_, ?_, removeSignalHandler_not_registered s h, ?_, ?_⟩
  · obtain ⟨p, hp⟩ := nextHandle_ends MAX_POLLHANDLE hMAX h16 s.mSetSignalhandlerKeys
      hi.limit_eq hi.cursor_lt hi.cursor_zero
    unfold addSignalHandler
    rw [hp]
    obtain ⟨b, keys⟩ := p
    cases b <;> exact ⟨_, rfl⟩
  · intro a ha hok
    rcases addSignalHandler_cases _ _ _ _ _ ha with ⟨_, rfl⟩ | ⟨keys, hk, rfl⟩
    · exact am_Error_e.noConfusion hok
    · obtain ⟨k1, _, _, k4, _⟩ :=
        nextHandle_true_spec MAX_POLLHANDLE hMAX h16 _ _ hi.limit_eq hi.cursor_lt hk
      refine ⟨?_, ?_, rfl⟩
      · show keys.lastUsedID ≠ 0
        omega
      · intro e he hc
        have hc2 : e.handle = keys.lastUsedID := hc
        exact k1 (hc2 ▸ hi.live e he)
  · intro hr
    rw [removeSignalHandler_registered s h hr]
    have hlt : scanFor (fun e => e.handle == h) s.mSignalHandlers < s.mSignalHandlers.length := by
      rw [scanFor_lt_iff]
      obtain ⟨e, he, heh⟩ := hr
      exact ⟨e, he, by simpa using heh⟩
    refine ⟨rfl, eraseIdx_scanFor_eq_filter sh_signal_s.handle h _ hi.nodup, ?_⟩
    dsimp only
    rw [List.length_eraseIdx]
    simp only [hlt, if_true]
    omega
  · unfold signalActionPoll
    rw [if_neg (by simpa using hfull)]
    rw [(notifyListeners_returns sc r.info hret s.mSignalHandlers sh u [] hcb).2]
    simp
  · unfold signalActionPoll
    rw [if_neg (by simpa using hfull)]
    exact (notifyListeners_returns sc r.info hret s.mSignalHandlers sh u [] hcb).1

/-- Witness of C23: with two signal handlers added (handles 1 and 2, user data 10 and 11), a
full read of the signal 15 calls the handler 1 and then the handler 2; a third handler gets
the handle 3; `removeSignalHandler(1)` leaves the handler 2. -/
theorem signal_fan_out_witness :
    SignalReachable 65535 twoListeners
      ∧ (signalActionPoll countingSignals twoListeners.mSignalHandlers
            { bytes := 128, info := { ssi_signo := 15 } } twoListeners.base 0).2
          = [{ handle := 1, info := { ssi_signo := 15 }, userData := 10 },
             { handle := 2, info := { ssi_signo := 15 }, userData := 11 }]
      ∧ (addSignalHandler twoListeners (some 2) 0 12).map (fun a => (a.1, a.2.1))
          = some (E_OK, 3)
      ∧ (removeSignalHandler twoListeners 1).1 = E_OK
      ∧ (removeSignalHandler twoListeners 1).2.mSignalHandlers.map sh_signal_s.handle = [2]
      ∧ (removeSignalHandler twoListeners 7).1 = E_UNKNOWN
      ∧ ∃ a, addSignalHandler twoListeners (some 2) 0 12 = some a :=
  ⟨signalReachable_twoListeners, by decide, by decide, by decide, by decide, by decide,
    (signal_fan_out 65535 (by decide) (by decide) twoListeners signalReachable_twoListeners
      (some 2) 0 12 1 countingSignals { bytes := 128, info := { ssi_signo := 15 } }
      twoListeners.base 0 rfl (by decide) (fun _ _ _ _ _ _ => rfl)).1⟩

/-- C21 (the code diverges). A short read from the signal descriptor or from a timer
descriptor is not fatal. In both scenarios `ppoll` reports the descriptor of handle 2 readable
and `read` returns less than asked for (-1 on the signal descriptor, 0 on the timer
descriptor), so the lambda throws its `std::runtime_error`; `fire` catches it, the iteration
goes on with the check stage, the loop runs a second iteration in which handle 3 fires and
calls `stop_listening`, and `start_listenting` returns without an exception. -/
theorem short_read_not_fatal :
    (signalActionPoll (fun _ _ _ _ sh1 u1 => { sh := sh1, user := u1, value := some () }) []
        { bytes := -1, info := { ssi_signo := 15 } } signalThenStop (-1 : Int)).1.value = none
      ∧ (timerActionPoll 0 timerThenStop (0 : Int)).value = none
      ∧ signalThenStop.mListPoll.map (fun e => (e.handle, e.pollfdValue.fd, e.firedCB))
          = [(1, 3, some FiredFn.pipeFired), (2, 4, some (FiredFn.user 0)),
             (3, 5, some (FiredFn.user 2))]
      ∧ (start_listenting descriptorCode 1 (seconds 0) [secondReady, thirdReady]
            signalThenStop (-1)).isRaised = false
      ∧ (start_listenting descriptorCode 1 (seconds 0) [secondReady, thirdReady]
            signalThenStop (-1)).isDone = true
      ∧ (start_listenting descriptorCode 1 (seconds 0) [secondReady, thirdReady]
            signalThenStop (-1)).calls
          = some [(Stage.fired, 2), (Stage.check, 2), (Stage.fired, 3)]
      ∧ timerThenStop.mListPoll.map (fun e => (e.handle, e.pollfdValue.fd, e.firedCB))
          = [(1, 3, some FiredFn.pipeFired), (2, 8, some (FiredFn.user 1)),
             (3, 5, some (FiredFn.user 2))]
      ∧ (start_listenting descriptorCode 1 (seconds 0) [secondReady, thirdReady]
            timerThenStop 0).isRaised = false
      ∧ (start_listenting descriptorCode 1 (seconds 0) [secondReady, thirdReady]
            timerThenStop 0).isDone = true
      ∧ (start_listenting descriptorCode 1 (seconds 0) [secondReady, thirdReady]
            timerThenStop 0).calls
          = some [(Stage.fired, 2), (Stage.check, 2), (Stage.fired, 3)] := by
  refine ⟨by decide, by decide, by decide, by decide, by decide, by decide, by decide, by decide,
    by decide, by decide⟩

/-- C24, as the code has it. Thread affinity: each of `addFDPoll`, `removeFDPoll`,
`updateEventFlags`, `addSignalHandler`, `removeSignalHandler`, `listenToSignals`, `addTimer`,
`removeTimer`, `updateTimer`, `restartTimer` and `stopTimer`, called on a thread that is not
the one the handler was constructed on, hits the assertion before anything of its body has
run, so that no state has changed. (`stop_listening` is not among them.) -/
theorem thread_affinity (mThreadID caller : Nat) (hother : caller ≠ mThreadID)
    (fdIsValid : Int → Bool) (s : CAmSocketHandler) (g : HandlerWithSignals) (fd : Int)
    (event : Nat) (prepare : Option Nat) (fired : Option FiredFn) (check : Option CheckFn)
    (dispatch callback : Option Nat) (userData handle events actionPoll : Nat) (os : SignalOs)
    (listSignals : List Nat) (currentTime timeouts : timespec) :
    addFDPollOn mThreadID caller fdIsValid s fd event prepare fired check dispatch userData handle
        = Checked.aborted
      ∧ removeFDPollOn mThreadID caller s handle = Checked.aborted
      ∧ updateEventFlagsOn mThreadID caller s handle events = Checked.aborted
      ∧ addSignalHandlerOn mThreadID caller g callback handle userData = Checked.aborted
      ∧ removeSignalHandlerOn mThreadID caller g handle = Checked.aborted
      ∧ listenToSignalsOn mThreadID caller fdIsValid os actionPoll g listSignals = Checked.aborted
      ∧ addTimerOn mThreadID caller s currentTime timeouts callback userData handle
          = Checked.aborted
      ∧ removeTimerOn mThreadID caller s handle = Checked.aborted
      ∧ updateTimerOn mThreadID caller s currentTime handle timeouts = Checked.aborted
      ∧ restartTimerOn mThreadID caller s currentTime handle = Checked.aborted
      ∧ stopTimerOn mThreadID caller s handle = Checked.aborted := by
  refine ⟨?_, ?_, ?_, ?_, ?_, ?_, ?_, ?_, ?_, ?_, ?_⟩ <;>
    simp [addFDPollOn, removeFDPollOn, updateEventFlagsOn, addSignalHandlerOn,
      removeSignalHandlerOn, listenToSignalsOn, addTimerOn, removeTimerOn, updateTimerOn,
      restartTimerOn, stopTimerOn, CHECK_CALLER_THREAD_ID, hother]

/-- Witness of C24: the handler `plainLast` was constructed on thread 1; `removeFDPoll(2)`
called on thread 2 hits the assertion. -/
theorem thread_affinity_witness :
    (2 : Nat) ≠ 1 ∧ removeFDPollOn 1 2 plainLast 2 = Checked.aborted :=
  ⟨by decide,
    (thread_affinity 1 2 (by decide) allOpen plainLast listening 5 POLLIN none none none none
      none 0 2 0 0 signalsGranted [15] (seconds 0) (seconds 1)).2.1⟩

/-- Counterexample to C24: the handler was constructed on thread 1 and its loop runs;
`stop_listening` called on thread 2 hits no assertion and sets `mDispatchDone`. -/
theorem stop_listening_unchecked :
    (loopEntry (seconds 0) plainLast 0).sh.mDispatchDone = false
      ∧ ∃ s, stop_listeningOn 1 2 (loopEntry (seconds 0) plainLast 0).sh (seconds 1)
                = Checked.ran s
          ∧ s.mDispatchDone = true :=
  ⟨by decide, _, rfl, by decide⟩

/-- C31. `nextHandle` terminates and is atomic on failure: for every allocator with a limit
`L >= 2` (a 16-bit value), a cursor in `[1, L-1]` and any live set, the search loop ends within
`L - 1` rounds, each of which examines one candidate id, and `nextHandle` returns what the loop
has then returned; and whenever `nextHandle` returns `false` the allocator is as it was before
the call: same cursor, same live set, same limit. -/
theorem nextHandle_terminates_atomic (L : Nat) (hL : 2 ≤ L) (h16 : L ≤ 65535)
    (k : sh_identifier_s) (hlim : k.limit = L) (hc1 : 1 ≤ k.lastUsedID)
    (hc : k.lastUsedID < L) :
    (∃ r, nextHandleLoop k.lastUsedID (L - 1) k = some r ∧ nextHandle k = some r)
      ∧ (∀ k1, nextHandle k = some (false, k1) →
          k1.lastUsedID = k.lastUsedID ∧ k1.pollHandles = k.pollHandles ∧ k1.limit = k.limit) := by
  constructor
  · obtain ⟨r, hr⟩ := nextHandleLoop_ends k.lastUsedID L hL h16 hc1 hc (L - 1) (L - 1) k hlim hc1
      hc (by simp; omega) (le_refl _)
    refine ⟨r, hr, ?_⟩
    unfold nextHandle
    exact nextHandleLoop_mono _ _ _ _ hr handleWidth (by unfold handleWidth; omega)
  · intro k1 h
    have := nextHandle_false k k1 h
    subst this
    exact ⟨rfl, rfl, rfl⟩

/-- Witness of C31: in the scenario `exhausted` the poll allocator has the limit 3, the cursor
on 2 and the ids 1 and 2 live; the loop ends in its second round, `nextHandle` returns `false`
and the cursor is on 2 as before. -/
theorem nextHandle_terminates_atomic_witness :
    exhausted.mSetPollKeys.limit = 3
      ∧ exhausted.mSetPollKeys.lastUsedID = 2
      ∧ (nextHandleLoop 2 1 exhausted.mSetPollKeys).isNone = true
      ∧ (nextHandleLoop 2 2 exhausted.mSetPollKeys).map (fun r => (r.1, r.2.lastUsedID))
          = some (false, 2)
      ∧ (nextHandle exhausted.mSetPollKeys).map (fun r => (r.1, r.2.lastUsedID))
          = some (false, 2)
      ∧ ∃ r, nextHandleLoop exhausted.mSetPollKeys.lastUsedID (3 - 1) exhausted.mSetPollKeys
                = some r
          ∧ nextHandle exhausted.mSetPollKeys = some r :=
  ⟨by decide, by decide, by decide, by decide, by decide,
    (nextHandle_terminates_atomic 3 (by decide) (by decide) exhausted.mSetPollKeys (by decide)
      (by decide) (by decide)).1⟩


end am
